import Mathlib

/-!
# Loyalty points ledger: a shallow embedding of `server.js` / `db.js`

The SQLite database is a record of tables, each table a list of rows in
insertion order.  Every route handler and helper of `server.js` becomes a
function from a database (and the values the handler reads from its
environment: the clock, the random identifiers) to the database afterwards
together with the handler's outcome.

Conventions used throughout:

* `now()` is a parameter `t : Int` (seconds); one request observes one clock
  value.
* Node runs one handler at a time and every database call is synchronous, so
  an execution of the server is a sequence of requests.
* `id(prefix)` draws 16 random bytes; the drawn identifier is a parameter of
  the function that calls `id`.  A `PRIMARY KEY` collision makes the `INSERT`
  throw, exactly as SQLite does.
* SQLite `INTEGER` columns and JavaScript integers are `Int`; a nullable column
  is an `Option`.
* Columns and tables that no modelled handler reads are left out: the tables
  `staff` and `customers`, `stores.address`, `stores.timezone`, and the
  columns `ip_issued`, `ip_redeemed`, `ua_redeemed` of `earn_tokens`.
* `db.transaction(f)` runs `f` and restores the database when `f` throws.
* better-sqlite3 builds SQLite with double-quoted string literals switched off
  (`SQLITE_DQS=0`): in a statement, text in double quotes names a column, and
  `prepare` throws `no such column` when the table has none of that name.
* `String.prototype.trim` is modelled for all strings; `toUpperCase` is the
  ASCII mapping, exact on strings of ASCII characters (`isAscii`).
-/

namespace Loyalty

/-! ## Tables (`db.js`) -/

/-- Row of `merchants`. -/
structure Merchant where
  merchant_id : String
  name : String
  status : String
  created_at : Int
deriving DecidableEq

/-- Row of `stores`. -/
structure Store where
  store_id : String
  merchant_id : String
  name : String
  created_at : Int
deriving DecidableEq

/-- Row of `loyalty_programs`. -/
structure Program where
  program_id : String
  merchant_id : String
  points_per_earn : Int
  token_expiry_minutes : Int
  points_expire_days : Option Int
  max_earns_per_day : Option Int
  max_earns_per_10min : Option Int
  created_at : Int
  active : Int
deriving DecidableEq

/-- Row of `rewards`. -/
structure Reward where
  reward_id : String
  program_id : String
  name : String
  points_cost : Int
  active : Int
  created_at : Int
deriving DecidableEq

/-- Row of `earn_tokens`. -/
structure EarnToken where
  token_id : String
  merchant_id : String
  store_id : String
  issued_by_staff_id : String
  issued_at : Int
  expires_at : Int
  status : String
  redeemed_at : Option Int
  redeemed_by_customer_id : Option String
  receipt_code : Option String
  transaction_ref : Option String
deriving DecidableEq

/-- Row of `point_lots`. -/
structure Lot where
  lot_id : String
  merchant_id : String
  customer_id : String
  points_remaining : Int
  created_at : Int
  expires_at : Option Int
  source_token_id : Option String
  note : Option String
deriving DecidableEq

/-- Row of `point_ledger`. -/
structure LedgerEntry where
  ledger_id : String
  merchant_id : String
  customer_id : String
  event_type : String
  points_delta : Int
  token_id : Option String
  redemption_id : Option String
  created_at : Int
  created_by_staff_id : Option String
  note : Option String
deriving DecidableEq

/-- Row of `redemptions`. -/
structure Redemption where
  redemption_id : String
  merchant_id : String
  customer_id : String
  reward_id : String
  created_at : Int
  status : String
  redeem_token : Option String
  redeem_expires_at : Option Int
  completed_at : Option Int
  completed_by_staff_id : Option String
  store_id : Option String
deriving DecidableEq

/-- Row of `redemption_consumptions`. -/
structure Consumption where
  redemption_id : String
  lot_id : String
  points_used : Int
deriving DecidableEq

/-- Row of `rate_limits`. -/
structure RateRow where
  key : String
  count : Int
  window_start : Int
  window_seconds : Int
deriving DecidableEq

/-- The database: one list of rows per table, in insertion order. -/
structure Db where
  merchants : List Merchant
  stores : List Store
  loyalty_programs : List Program
  rewards : List Reward
  earn_tokens : List EarnToken
  point_lots : List Lot
  point_ledger : List LedgerEntry
  redemptions : List Redemption
  redemption_consumptions : List Consumption
  rate_limits : List RateRow
deriving DecidableEq

deriving instance DecidableEq for Except

/-- What a statement or helper can throw inside a handler. -/
inductive Exn where
  | insufficient_points
  | already_used
  | not_pending
  | constraint
  | type_error
  | no_such_column
deriving DecidableEq

/-- The wrapper `db.transaction(f)`: when `f` throws, every write of `f` is
rolled back and the exception is rethrown. -/
def transaction {α : Type} (f : Db → Db × Except Exn α) (db : Db) : Db × Except Exn α :=
  match f db with
  | (db1, Except.ok a) => (db1, Except.ok a)
  | (_, Except.error e) => (db, Except.error e)

/-! ## Point lots (`server.js` 84-175) -/

/-- The clause `expires_at IS NULL OR expires_at > ?`. -/
def notExpired (t : Int) (l : Lot) : Bool :=
  match l.expires_at with
  | none => true
  | some e => decide (t < e)

/-- The `WHERE` clause of `getBalance`. -/
def balanceRow (m c : String) (t : Int) (l : Lot) : Bool :=
  decide (l.merchant_id = m) && decide (l.customer_id = c) &&
    decide (l.points_remaining ≠ 0) && notExpired t l

/-- The function `getBalance(merchant_id, customer_id)` at clock value `t`. -/
def getBalance (db : Db) (m c : String) (t : Int) : Int :=
  ((db.point_lots.filter (balanceRow m c t)).map Lot.points_remaining).sum

/-- The statement `INSERT INTO point_lots`; `lot_id` is the primary key. -/
def insertLot (db : Db) (l : Lot) : Db × Except Exn Unit :=
  if l.lot_id ∈ db.point_lots.map Lot.lot_id then (db, Except.error Exn.constraint)
  else ({ db with point_lots := db.point_lots ++ [l] }, Except.ok ())

/-- The function `addEarnLot`; `lot_id` is the identifier drawn by `id('lot_')`. -/
def addEarnLot (merchant_id customer_id : String) (points : Int) (expires_at : Option Int)
    (source_token_id note : Option String) (lot_id : String) (t : Int) (db : Db) :
    Db × Except Exn String :=
  match insertLot db ⟨lot_id, merchant_id, customer_id, points, t, expires_at,
      source_token_id, note⟩ with
  | (db1, Except.ok _) => (db1, Except.ok lot_id)
  | (db1, Except.error e) => (db1, Except.error e)

/-- The `WHERE` clause shared by `consumePointsFIFO` and `removePoints`. -/
def eligible (m c : String) (t : Int) (l : Lot) : Bool :=
  decide (l.merchant_id = m) && decide (l.customer_id = c) &&
    decide (0 < l.points_remaining) && notExpired t l

/-- The first `ORDER BY` term: `CASE WHEN expires_at IS NULL THEN 1 ELSE 0 END`. -/
def nullRank (l : Lot) : Int :=
  match l.expires_at with
  | none => 1
  | some _ => 0

/-- The second `ORDER BY` term, `expires_at ASC`, as a comparison of two
optional values: SQLite puts `NULL` before every number. -/
def expLt : Option Int → Option Int → Prop
  | none, none => False
  | none, some _ => True
  | some _, none => False
  | some a, some b => a < b

instance (a b : Option Int) : Decidable (expLt a b) := by
  cases a <;> cases b <;> simp only [expLt] <;> infer_instance

/-- Strict precedence in the `ORDER BY` of the two lot queries. -/
def fifoLt (a b : Lot) : Prop :=
  nullRank a < nullRank b ∨
    (nullRank a = nullRank b ∧
      (expLt a.expires_at b.expires_at ∨
        (a.expires_at = b.expires_at ∧ a.created_at < b.created_at)))

instance (a b : Lot) : Decidable (fifoLt a b) := by
  unfold fifoLt; infer_instance

/-- Row `a` may come before row `b` in the `ORDER BY` (ties allowed). -/
def fifoLe (a b : Lot) : Prop := ¬ fifoLt b a

instance : DecidableRel fifoLe := fun a b => by
  unfold fifoLe; infer_instance

/-- The `SELECT … ORDER BY` of `consumePointsFIFO` and `removePoints`.  SQL
leaves the order of rows with equal sort keys open; here they keep their table
order. -/
def selectLots (db : Db) (m c : String) (t : Int) : List Lot :=
  (db.point_lots.filter (eligible m c t)).insertionSort fifoLe

/-- The statement `UPDATE point_lots SET points_remaining=points_remaining-? WHERE lot_id=?`. -/
def updateLot (lots : List Lot) (lot_id : String) (take : Int) : List Lot :=
  lots.map fun l =>
    if l.lot_id = lot_id then { l with points_remaining := l.points_remaining - take } else l

/-- Element of the array returned by `consumePointsFIFO`. -/
structure Used where
  lot_id : String
  used : Int
deriving DecidableEq

/-- The `for (const lot of lots)` loop of `consumePointsFIFO`: the rows still
to visit, `remaining`, the table and the array `used` so far. -/
def consumeLoop : List Lot → Int → List Lot → List Used → List Lot × List Used × Int
  | [], remaining, tbl, used => (tbl, used, remaining)
  | lot :: rest, remaining, tbl, used =>
    if remaining ≤ 0 then (tbl, used, remaining)
    else
      let take := min lot.points_remaining remaining
      consumeLoop rest (remaining - take) (updateLot tbl lot.lot_id take)
        (used ++ [⟨lot.lot_id, take⟩])

/-- The statement `INSERT INTO redemption_consumptions`, primary key
`(redemption_id, lot_id)`, run once per element of `used`. -/
def insertConsumptions (redemption_id : String) : List Used → Db → Db × Except Exn Unit
  | [], db => (db, Except.ok ())
  | u :: us, db =>
    if (redemption_id, u.lot_id) ∈
        db.redemption_consumptions.map (fun c => (c.redemption_id, c.lot_id)) then
      (db, Except.error Exn.constraint)
    else
      insertConsumptions redemption_id us
        { db with redemption_consumptions :=
            db.redemption_consumptions ++ [⟨redemption_id, u.lot_id, u.used⟩] }

/-- The function `consumePointsFIFO` at clock value `t`.  The lot updates are
written before the sufficiency test, so a throw leaves them in the database
handed back (the caller's transaction undoes them). -/
def consumePointsFIFO (merchant_id customer_id : String) (points_needed : Int)
    (redemption_id : String) (t : Int) (db : Db) : Db × Except Exn (List Used) :=
  let r := consumeLoop (selectLots db merchant_id customer_id t) points_needed db.point_lots []
  let db1 := { db with point_lots := r.1 }
  if 0 < r.2.2 then (db1, Except.error Exn.insufficient_points)
  else if redemption_id ≠ "" then
    match insertConsumptions redemption_id r.2.1 db1 with
    | (db2, Except.ok _) => (db2, Except.ok r.2.1)
    | (db2, Except.error e) => (db2, Except.error e)
  else (db1, Except.ok r.2.1)

/-- The `for (const lot of lots)` loop of `removePoints`. -/
def removeLoop : List Lot → Int → List Lot → List Lot × Int
  | [], remaining, tbl => (tbl, remaining)
  | lot :: rest, remaining, tbl =>
    if remaining ≤ 0 then (tbl, remaining)
    else
      let take := min lot.points_remaining remaining
      removeLoop rest (remaining - take) (updateLot tbl lot.lot_id take)

/-- The function `removePoints` at clock value `t`; `lot_id` is the identifier
drawn by `id('lot_')` for the debt lot, used only when a debt lot is written. -/
def removePoints (merchant_id customer_id : String) (points_to_remove : Int)
    (lot_id : String) (t : Int) (db : Db) : Db × Except Exn Unit :=
  let r := removeLoop (selectLots db merchant_id customer_id t) points_to_remove db.point_lots
  let db1 := { db with point_lots := r.1 }
  if 0 < r.2 then
    insertLot db1 ⟨lot_id, merchant_id, customer_id, -r.2, t, none, none,
      some "Debt from void (insufficient points)"⟩
  else (db1, Except.ok ())

/-! ## Handler outcomes and JavaScript helpers -/

/-- The `error` field of a non-2xx response.  `internal` is the 500 that
Express answers when a handler throws outside any `try`. -/
inductive Err where
  | missing_token
  | token_not_found
  | token_not_issued (status : String)
  | token_expired
  | bad_receipt_code
  | rate_limited (retryAfter : Option Int)
  | token_already_used
  | server_error
  | internal
  | missing_fields
  | merchant_not_found
  | not_found
  | insufficient_points (balance : Option Int)
  | forbidden
  | missing_redeem_token
  | redemption_not_found
  | not_pending (status : Option String)
  | redeem_token_expired
  | wrong_merchant
  | reward_not_found
  | wrong_store
deriving DecidableEq

/-- White space and line terminators of ECMAScript, the characters removed by
`String.prototype.trim` and skipped by `parseInt`: TAB, LF, VT, FF, CR, space,
no-break space, U+1680, U+2000 to U+200A, U+2028, U+2029, U+202F, U+205F,
U+3000 and U+FEFF. -/
def isWs (c : Char) : Bool :=
  c.toNat = 32 || c.toNat = 9 || c.toNat = 10 || c.toNat = 11 || c.toNat = 12 || c.toNat = 13 ||
    c.toNat = 160 || c.toNat = 5760 || (8192 ≤ c.toNat && c.toNat ≤ 8202) ||
    c.toNat = 8232 || c.toNat = 8233 || c.toNat = 8239 || c.toNat = 8287 ||
    c.toNat = 12288 || c.toNat = 65279

/-- The string consists of ASCII characters. -/
def isAscii (s : String) : Bool := s.data.all fun c => decide (c.toNat < 128)

/-- The method `s.trim()`. -/
def trim (s : String) : String :=
  ⟨((s.data.dropWhile isWs).reverse.dropWhile isWs).reverse⟩

/-- The method `s.toUpperCase()` on strings of ASCII characters, where it maps
`a`-`z` to `A`-`Z` and leaves every other character.  Outside ASCII the
method follows the Unicode case mapping, which is not modelled. -/
def toUpperCase (s : String) : String := ⟨s.data.map Char.toUpper⟩

/-- `String(x)` for a nullable text column. -/
def jsString : Option String → String
  | none => "null"
  | some s => s

/-- A value of a JSON request body field, as far as the handlers look at it:
missing, `null`, an integer, or text. -/
inductive Field where
  | undefined
  | null
  | num (v : Int)
  | str (s : String)
deriving DecidableEq

/-- JavaScript truthiness of a body field. -/
def Field.truthy : Field → Bool
  | Field.undefined => false
  | Field.null => false
  | Field.num v => decide (v ≠ 0)
  | Field.str s => decide (s ≠ "")

/-- The expression `a || b`. -/
def Field.orElse (a b : Field) : Field := if a.truthy then a else b

/-- Leading decimal digits of a character list, most significant first. -/
def leadingDigits : List Char → List Nat
  | [] => []
  | c :: cs => if 48 ≤ c.toNat ∧ c.toNat ≤ 57 then (c.toNat - 48) :: leadingDigits cs else []

/-- `parseInt(s, 10)` on text: optional sign, then the leading digits; `none`
is `NaN`. -/
def parseText (s : String) : Option Int :=
  let cs := s.data.dropWhile isWs
  let body : Bool × List Char :=
    match cs with
    | [] => (false, [])
    | c :: r => if c.toNat = 45 then (true, r) else if c.toNat = 43 then (false, r) else (false, cs)
  match leadingDigits body.2 with
  | [] => none
  | ds => let n : Int := (ds.foldl (fun acc d => 10 * acc + d) 0 : Nat)
          some (if body.1 then -n else n)

/-- `parseInt(x, 10)` on a body field; `none` is `NaN`. -/
def Field.parseInt : Field → Option Int
  | Field.undefined => none
  | Field.null => none
  | Field.num v => some v
  | Field.str s => parseText s

/-- `Math.max(lo, x)` where `x` may be `NaN`. -/
def mathMax (lo : Int) : Option Int → Option Int
  | none => none
  | some v => some (max lo v)

/-- A nullable integer column read back into JavaScript. -/
def Field.ofColumn : Option Int → Field
  | none => Field.null
  | some v => Field.num v

/-! ## Rate limiter (`server.js` 59-77) -/

/-- Result object of `rateLimit`. -/
structure RateResult where
  ok : Bool
  retryAfter : Option Int
deriving DecidableEq

/-- The function `rateLimit(key, maxCount, windowSeconds)` at clock value `t`. -/
def rateLimit (key : String) (maxCount windowSeconds : Int) (t : Int) (db : Db) :
    Db × RateResult :=
  if maxCount ≤ 0 then (db, ⟨true, none⟩)
  else
    match db.rate_limits.find? (fun r => decide (r.key = key)) with
    | none =>
      ({ db with rate_limits := db.rate_limits ++ [⟨key, 1, t, windowSeconds⟩] }, ⟨true, none⟩)
    | some row =>
      let elapsed := t - row.window_start
      if row.window_seconds ≤ elapsed then
        ({ db with rate_limits := db.rate_limits.map fun r =>
            if r.key = key then ⟨r.key, 1, t, windowSeconds⟩ else r }, ⟨true, none⟩)
      else if maxCount ≤ row.count then (db, ⟨false, some (row.window_seconds - elapsed)⟩)
      else
        ({ db with rate_limits := db.rate_limits.map fun r =>
            if r.key = key then ⟨r.key, r.count + 1, r.window_start, r.window_seconds⟩
            else r }, ⟨true, none⟩)

/-! ## Lookups -/

/-- The function `getProgram(merchant_id)`. -/
def getProgram (db : Db) (merchant_id : String) : Option Program :=
  db.loyalty_programs.find? fun p => decide (p.merchant_id = merchant_id) && decide (p.active = 1)

/-- `SELECT * FROM stores WHERE store_id=?`. -/
def getStore (db : Db) (store_id : String) : Option Store :=
  db.stores.find? fun s => decide (s.store_id = store_id)

/-- `SELECT * FROM earn_tokens WHERE token_id=?`. -/
def getToken (db : Db) (token_id : String) : Option EarnToken :=
  db.earn_tokens.find? fun x => decide (x.token_id = token_id)

/-- `SELECT * FROM rewards WHERE reward_id=? AND active=1`. -/
def getReward (db : Db) (reward_id : String) : Option Reward :=
  db.rewards.find? fun r => decide (r.reward_id = reward_id) && decide (r.active = 1)

/-- `SELECT * FROM redemptions WHERE redeem_token=?`. -/
def getRedemption (db : Db) (redeem_token : String) : Option Redemption :=
  db.redemptions.find? fun r => decide (r.redeem_token = some redeem_token)

/-- `db.prepare('SELECT * FROM merchants WHERE merchant_id=? AND
status="active"').get(merchant_id)`.  The double quotes make `active` a column
name; `merchants` has the columns `merchant_id`, `name`, `status` and
`created_at` (`db.js`) and no column `active`, so `prepare` throws
`no such column` whatever the table holds and whatever id is asked for. -/
def getActiveMerchant (_db : Db) (_merchant_id : String) : Except Exn (Option Merchant) :=
  Except.error Exn.no_such_column

/-- The statement `INSERT INTO point_ledger`; `ledger_id` is the primary key. -/
def insertLedger (db : Db) (e : LedgerEntry) : Db × Except Exn Unit :=
  if e.ledger_id ∈ db.point_ledger.map LedgerEntry.ledger_id then
    (db, Except.error Exn.constraint)
  else ({ db with point_ledger := db.point_ledger ++ [e] }, Except.ok ())

/-! ## Program settings and rewards (`server.js` 326-362) -/

/-- Body of `POST /api/vendor/program`. -/
structure ProgramBody where
  points_per_earn : Field
  token_expiry_minutes : Field
  points_expire_days : Field
  max_earns_per_day : Field
  max_earns_per_10min : Field
deriving DecidableEq

/-- The third bound value of the `UPDATE loyalty_programs`: `null` for `''`,
`null` and `undefined`, else `Math.max(1, parseInt(x, 10))` (a `NaN` is stored
as `NULL`). -/
def expireDaysValue (x : Field) : Option Int :=
  if x = Field.str "" ∨ x = Field.null ∨ x = Field.undefined then none
  else mathMax 1 x.parseInt

/-- Handler `POST /api/vendor/program` for the signed-in store.  A `NaN` bound
to a `NOT NULL` column makes the statement throw. -/
def postProgram (store_id : String) (b : ProgramBody) (db : Db) : Db × Except Err Unit :=
  match getStore db store_id with
  | none => (db, Except.error Err.internal)
  | some store =>
    match getProgram db store.merchant_id with
    | none => (db, Except.error Err.internal)
    | some program =>
      let ppe := mathMax 1 (b.points_per_earn.orElse (Field.num program.points_per_earn)).parseInt
      let tem := mathMax 5
        (b.token_expiry_minutes.orElse (Field.num program.token_expiry_minutes)).parseInt
      let ped := expireDaysValue b.points_expire_days
      let med := mathMax 0
        (b.max_earns_per_day.orElse (Field.ofColumn program.max_earns_per_day)).parseInt
      let m10 := mathMax 0
        (b.max_earns_per_10min.orElse (Field.ofColumn program.max_earns_per_10min)).parseInt
      match ppe, tem with
      | some p, some e =>
        ({ db with loyalty_programs := db.loyalty_programs.map fun x =>
            if x.program_id = program.program_id then
              ⟨x.program_id, x.merchant_id, p, e, ped, med, m10, x.created_at, x.active⟩
            else x }, Except.ok ())
      | _, _ => (db, Except.error Err.internal)

/-- Handler `POST /api/vendor/reward`; `reward_id` is the identifier drawn by
`id('r_')`. -/
def postReward (store_id : String) (name : String) (points_cost : Field) (reward_id : String)
    (t : Int) (db : Db) : Db × Except Err Unit :=
  if name = "" ∨ points_cost.truthy = false then (db, Except.error Err.missing_fields)
  else
    match getStore db store_id with
    | none => (db, Except.error Err.internal)
    | some store =>
      match getProgram db store.merchant_id with
      | none => (db, Except.error Err.internal)
      | some program =>
        match mathMax 1 points_cost.parseInt with
        | none => (db, Except.error Err.internal)
        | some cost =>
          if reward_id ∈ db.rewards.map Reward.reward_id then (db, Except.error Err.internal)
          else
            ({ db with rewards := db.rewards ++
                [⟨reward_id, program.program_id, trim name, cost, 1, t⟩] }, Except.ok ())

/-! ## Issuing an earn token (`server.js` 365-384) -/

/-- The expression `x || null` on an optional string. -/
def orNull : Option String → Option String
  | none => none
  | some s => if s = "" then none else some s

/-- Response of `POST /api/vendor/token`. -/
structure TokenOk where
  token_id : String
  expires_at : Int
  receipt_code : String
deriving DecidableEq

/-- Handler `POST /api/vendor/token`; `token_id` is drawn by `id('t_')` and
`receipt_code` by `shortCode(4)`.  The rate-limit row is written before the
program is read and outside any transaction. -/
def postToken (store_id staff_id : String) (transaction_ref : Option String)
    (token_id receipt_code : String) (t : Int) (db : Db) : Db × Except Err TokenOk :=
  match getStore db store_id with
  | none => (db, Except.error Err.internal)
  | some store =>
    let rl := rateLimit ("issue:" ++ staff_id) 120 60 t db
    if rl.2.ok = false then (rl.1, Except.error (Err.rate_limited rl.2.retryAfter))
    else
      match getProgram db store.merchant_id with
      | none => (rl.1, Except.error Err.internal)
      | some program =>
        let expires_at := t + program.token_expiry_minutes * 60
        if token_id ∈ rl.1.earn_tokens.map EarnToken.token_id then
          (rl.1, Except.error Err.internal)
        else
          ({ rl.1 with earn_tokens := rl.1.earn_tokens ++
              [⟨token_id, store.merchant_id, store.store_id, staff_id, t, expires_at, "ISSUED",
                none, none, some receipt_code, orNull transaction_ref⟩] },
            Except.ok ⟨token_id, expires_at, receipt_code⟩)

/-! ## Claiming an earn token (`server.js` 426-492) -/

/-- Response of `POST /api/customer/claim`. -/
structure ClaimOk where
  merchant_id : String
  points_added : Int
  new_balance : Int
deriving DecidableEq

/-- The test `receipt_code && String(receipt_code).trim().toUpperCase() !==
String(token.receipt_code).toUpperCase()`. -/
def receiptMismatch (receipt_code : Option String) (stored : Option String) : Bool :=
  match receipt_code with
  | none => false
  | some r => decide (r ≠ "") && decide (toUpperCase (trim r) ≠ toUpperCase (jsString stored))

/-- The expression `program.points_per_earn || 1`. -/
def earnPoints (program : Program) : Int :=
  if program.points_per_earn = 0 then 1 else program.points_per_earn

/-- The expression `program.points_expire_days ? t + days*86400 : null`. -/
def lotExpiry (program : Program) (t : Int) : Option Int :=
  match program.points_expire_days with
  | none => none
  | some d => if d = 0 then none else some (t + d * 86400)

/-- The ledger note of a claim. -/
def earnNote : Option Int → String
  | none => "No expiry"
  | some e => if e = 0 then "No expiry" else "Expires at " ++ toString e

/-- The statement `UPDATE earn_tokens SET status='REDEEMED', … WHERE token_id=?`. -/
def markRedeemed (tokens : List EarnToken) (token_id customer_id : String) (t : Int) :
    List EarnToken :=
  tokens.map fun x =>
    if x.token_id = token_id then
      { x with status := "REDEEMED", redeemed_at := some t,
               redeemed_by_customer_id := some customer_id }
    else x

/-- The transaction body of the claim handler; returns `(newBal, points)`. -/
def claimTx (token_id customer_id : String) (points : Int) (expires_at : Option Int)
    (lot_id ledger_id : String) (t : Int) (db : Db) : Db × Except Exn (Int × Int) :=
  match getToken db token_id with
  | none => (db, Except.error Exn.type_error)
  | some fresh =>
    if fresh.status ≠ "ISSUED" then (db, Except.error Exn.already_used)
    else
      let db1 := { db with earn_tokens := markRedeemed db.earn_tokens token_id customer_id t }
      match addEarnLot fresh.merchant_id customer_id points expires_at (some token_id)
          (some "Earned point") lot_id t db1 with
      | (db2, Except.error e) => (db2, Except.error e)
      | (db2, Except.ok _) =>
        match insertLedger db2 ⟨ledger_id, fresh.merchant_id, customer_id, "EARN", points,
            some token_id, none, t, none, some (earnNote expires_at)⟩ with
        | (db3, Except.error e) => (db3, Except.error e)
        | (db3, Except.ok _) =>
          (db3, Except.ok (max 0 (getBalance db3 fresh.merchant_id customer_id t), points))

/-- The UTC calendar day of `t`, the part of the `earnday:` key that
`new Date().toISOString().slice(0,10)` names by its date. -/
def dayKey (t : Int) : String := toString (t / 86400)

/-- A rate check guarded by `cap && cap > 0`. -/
def guardedRateLimit (key : String) (cap : Option Int) (windowSeconds t : Int) (db : Db) :
    Db × RateResult :=
  match cap with
  | none => (db, ⟨true, none⟩)
  | some n => if 0 < n then rateLimit key n windowSeconds t db else (db, ⟨true, none⟩)

/-- Handler `POST /api/customer/claim` for the signed-in customer; `lot_id` and
`ledger_id` are drawn by `id('lot_')` and `id('l_')`.  The rate-limit rows are
written before, and outside, the transaction. -/
def postClaim (customer_id token_id : String) (receipt_code : Option String)
    (lot_id ledger_id : String) (t : Int) (db : Db) : Db × Except Err ClaimOk :=
  if token_id = "" then (db, Except.error Err.missing_token)
  else
    match getToken db token_id with
    | none => (db, Except.error Err.token_not_found)
    | some token =>
      if token.status ≠ "ISSUED" then (db, Except.error (Err.token_not_issued token.status))
      else if token.expires_at < t then (db, Except.error Err.token_expired)
      else if receiptMismatch receipt_code token.receipt_code then
        (db, Except.error Err.bad_receipt_code)
      else
        match getProgram db token.merchant_id with
        | none => (db, Except.error Err.internal)
        | some program =>
          let r1 := guardedRateLimit ("earn10:" ++ token.merchant_id ++ ":" ++ customer_id)
            program.max_earns_per_10min 600 t db
          if r1.2.ok = false then (r1.1, Except.error (Err.rate_limited r1.2.retryAfter))
          else
            let r2 := guardedRateLimit
              ("earnday:" ++ token.merchant_id ++ ":" ++ customer_id ++ ":" ++ dayKey t)
              program.max_earns_per_day 86400 t r1.1
            if r2.2.ok = false then (r2.1, Except.error (Err.rate_limited r2.2.retryAfter))
            else
              match transaction (claimTx token_id customer_id (earnPoints program)
                  (lotExpiry program t) lot_id ledger_id t) r2.1 with
              | (db1, Except.ok r) => (db1, Except.ok ⟨token.merchant_id, r.2, r.1⟩)
              | (db1, Except.error Exn.already_used) =>
                (db1, Except.error Err.token_already_used)
              | (db1, Except.error _) => (db1, Except.error Err.server_error)

/-! ## Redemptions (`server.js` 495-588) -/

/-- Response of `POST /api/customer/redeem/start`. -/
structure StartOk where
  redeem_token : String
  redeem_expires_at : Int
  reward_name : String
  points_cost : Int
deriving DecidableEq

/-- Handler `POST /api/customer/redeem/start`; `redeem_token` and
`redemption_id` are drawn by `id('rt_')` and `id('x_')`.  The merchant lookup
runs outside any `try`, so its throw is answered with the 500 of Express. -/
def postRedeemStart (customer_id merchant_id reward_id redeem_token redemption_id : String)
    (t : Int) (db : Db) : Db × Except Err StartOk :=
  if merchant_id = "" ∨ reward_id = "" then (db, Except.error Err.missing_fields)
  else
    match getActiveMerchant db merchant_id with
    | Except.error _ => (db, Except.error Err.internal)
    | Except.ok none => (db, Except.error Err.merchant_not_found)
    | Except.ok (some _) =>
      match getProgram db merchant_id, getReward db reward_id with
      | some _, some reward =>
        let bal := getBalance db merchant_id customer_id t
        if bal < reward.points_cost then
          (db, Except.error (Err.insufficient_points (some (max 0 bal))))
        else if redemption_id ∈ db.redemptions.map Redemption.redemption_id ∨
            some redeem_token ∈ db.redemptions.map Redemption.redeem_token then
          (db, Except.error Err.internal)
        else
          ({ db with redemptions := db.redemptions ++
              [⟨redemption_id, merchant_id, customer_id, reward_id, t, "PENDING",
                some redeem_token, some (t + 300), none, none, none⟩] },
            Except.ok ⟨redeem_token, t + 300, reward.name, reward.points_cost⟩)
      | _, _ => (db, Except.error Err.not_found)

/-- Response of `GET /api/customer/redeem/status/:redeem_token`. -/
structure StatusOk where
  status : String
  redeem_expires_at : Option Int
  completed_at : Option Int
deriving DecidableEq

/-- Handler `GET /api/customer/redeem/status/:redeem_token`; it reads only. -/
def getRedeemStatus (customer_id redeem_token : String) (db : Db) : Except Err StatusOk :=
  match getRedemption db redeem_token with
  | none => Except.error Err.not_found
  | some r =>
    if r.customer_id ≠ customer_id then Except.error Err.forbidden
    else Except.ok ⟨r.status, r.redeem_expires_at, r.completed_at⟩

/-- Response of `POST /api/vendor/redeem/complete`. -/
structure CompleteOk where
  reward_name : String
  new_balance : Int
deriving DecidableEq

/-- The statement `UPDATE redemptions SET status='COMPLETED', … WHERE redemption_id=?`. -/
def markCompleted (rs : List Redemption) (redemption_id staff_id store_id : String) (t : Int) :
    List Redemption :=
  rs.map fun r =>
    if r.redemption_id = redemption_id then
      { r with status := "COMPLETED", completed_at := some t,
               completed_by_staff_id := some staff_id, store_id := some store_id }
    else r

/-- The transaction body of the completion handler; returns the customer id. -/
def completeTx (redeem_token : String) (reward : Reward) (staff_id store_id ledger_id : String)
    (t : Int) (db : Db) : Db × Except Exn String :=
  match getRedemption db redeem_token with
  | none => (db, Except.error Exn.type_error)
  | some fresh =>
    if fresh.status ≠ "PENDING" then (db, Except.error Exn.not_pending)
    else
      match consumePointsFIFO fresh.merchant_id fresh.customer_id reward.points_cost
          fresh.redemption_id t db with
      | (db1, Except.error e) => (db1, Except.error e)
      | (db1, Except.ok _) =>
        let rs := markCompleted db1.redemptions fresh.redemption_id staff_id store_id t
        let db2 := { db1 with redemptions := rs }
        match insertLedger db2 ⟨ledger_id, fresh.merchant_id, fresh.customer_id, "REDEEM",
            -reward.points_cost, none, some fresh.redemption_id, t, some staff_id,
            some ("Reward: " ++ reward.name)⟩ with
        | (db3, Except.error e) => (db3, Except.error e)
        | (db3, Except.ok _) => (db3, Except.ok fresh.customer_id)

/-- The test `redemption.redeem_expires_at && now() > redemption.redeem_expires_at`. -/
def redeemExpired (r : Redemption) (t : Int) : Bool :=
  match r.redeem_expires_at with
  | none => false
  | some e => decide (e ≠ 0) && decide (e < t)

/-- Handler `POST /api/vendor/redeem/complete` for the signed-in staff member
of a store; `ledger_id` is drawn by `id('l_')`. -/
def postRedeemComplete (store_id staff_id redeem_token ledger_id : String) (t : Int) (db : Db) :
    Db × Except Err CompleteOk :=
  if redeem_token = "" then (db, Except.error Err.missing_redeem_token)
  else
    match getRedemption db redeem_token with
    | none => (db, Except.error Err.redemption_not_found)
    | some redemption =>
      if redemption.status ≠ "PENDING" then
        (db, Except.error (Err.not_pending (some redemption.status)))
      else if redeemExpired redemption t then (db, Except.error Err.redeem_token_expired)
      else
        match getStore db store_id with
        | none => (db, Except.error Err.internal)
        | some store =>
          if redemption.merchant_id ≠ store.merchant_id then
            (db, Except.error Err.wrong_merchant)
          else
            match getReward db redemption.reward_id with
            | none => (db, Except.error Err.reward_not_found)
            | some reward =>
              match transaction
                  (completeTx redeem_token reward staff_id store.store_id ledger_id t) db with
              | (db1, Except.ok customer_id) =>
                (db1, Except.ok ⟨reward.name,
                  max 0 (getBalance db1 store.merchant_id customer_id t)⟩)
              | (db1, Except.error Exn.insufficient_points) =>
                (db1, Except.error (Err.insufficient_points none))
              | (db1, Except.error Exn.not_pending) =>
                (db1, Except.error (Err.not_pending none))
              | (db1, Except.error _) => (db1, Except.error Err.server_error)

/-! ## Voiding an earn token (`server.js` 591-629) -/

/-- The statement `UPDATE earn_tokens SET status='VOIDED' WHERE token_id=?`. -/
def markVoided (tokens : List EarnToken) (token_id : String) : List EarnToken :=
  tokens.map fun x => if x.token_id = token_id then { x with status := "VOIDED" } else x

/-- The customer to debit in a void: `fresh.status === 'REDEEMED' &&
fresh.redeemed_by_customer_id`. -/
def voidDebtor (fresh : EarnToken) : Option String :=
  if fresh.status = "REDEEMED" then orNull fresh.redeemed_by_customer_id else none

/-- The transaction body of the void handler. -/
def voidTx (token_id staff_id : String) (points : Int) (lot_id ledger_id : String) (t : Int)
    (db : Db) : Db × Except Exn Unit :=
  match getToken db token_id with
  | none => (db, Except.error Exn.type_error)
  | some fresh =>
    if fresh.status = "VOIDED" then (db, Except.ok ())
    else
      let db1 := { db with earn_tokens := markVoided db.earn_tokens token_id }
      match voidDebtor fresh with
      | none => (db1, Except.ok ())
      | some customer_id =>
        match removePoints fresh.merchant_id customer_id points lot_id t db1 with
        | (db2, Except.error e) => (db2, Except.error e)
        | (db2, Except.ok _) =>
          insertLedger db2 ⟨ledger_id, fresh.merchant_id, customer_id, "VOID_EARN", -points,
            some token_id, none, t, some staff_id, some "Voided by vendor"⟩

/-- Handler `POST /api/vendor/token/void` for the signed-in staff member of a
store; `lot_id` and `ledger_id` are drawn by `id('lot_')` and `id('l_')`. -/
def postTokenVoid (store_id staff_id token_id lot_id ledger_id : String) (t : Int) (db : Db) :
    Db × Except Err Unit :=
  if token_id = "" then (db, Except.error Err.missing_token)
  else
    match getToken db token_id with
    | none => (db, Except.error Err.token_not_found)
    | some token =>
      if token.store_id ≠ store_id then (db, Except.error Err.wrong_store)
      else if token.status = "VOIDED" then (db, Except.ok ())
      else
        match getProgram db token.merchant_id with
        | none => (db, Except.error Err.internal)
        | some program =>
          match transaction (voidTx token_id staff_id (earnPoints program) lot_id ledger_id t)
              db with
          | (db1, Except.ok _) => (db1, Except.ok ())
          | (db1, Except.error _) => (db1, Except.error Err.server_error)

/-! ## Sequences of requests -/

/-- One request to the core, with the clock value and the identifiers it draws. -/
inductive Op where
  | program (store_id : String) (b : ProgramBody)
  | reward (store_id name : String) (points_cost : Field) (reward_id : String) (t : Int)
  | issue (store_id staff_id : String) (transaction_ref : Option String)
      (token_id receipt_code : String) (t : Int)
  | claim (customer_id token_id : String) (receipt_code : Option String)
      (lot_id ledger_id : String) (t : Int)
  | start (customer_id merchant_id reward_id redeem_token redemption_id : String) (t : Int)
  | complete (store_id staff_id redeem_token ledger_id : String) (t : Int)
  | void (store_id staff_id token_id lot_id ledger_id : String) (t : Int)
deriving DecidableEq

/-- The database after a request, whatever its outcome. -/
def step (db : Db) : Op → Db
  | Op.program s b => (postProgram s b db).1
  | Op.reward s n c r t => (postReward s n c r t db).1
  | Op.issue s st tr tok rc t => (postToken s st tr tok rc t db).1
  | Op.claim c tok rc l g t => (postClaim c tok rc l g t db).1
  | Op.start c m r rt x t => (postRedeemStart c m r rt x t db).1
  | Op.complete s st rt g t => (postRedeemComplete s st rt g t db).1
  | Op.void s st tok l g t => (postTokenVoid s st tok l g t db).1

/-- The database after a sequence of requests. -/
def run (db : Db) (ops : List Op) : Db := ops.foldl step db

/-- A database before any token was issued: merchants, stores, programs and
rewards are set up, the ledger tables are empty. -/
def Initial (db : Db) : Prop :=
  db.earn_tokens = [] ∧ db.point_lots = [] ∧ db.point_ledger = [] ∧ db.redemptions = [] ∧
    db.redemption_consumptions = [] ∧ db.rate_limits = []

/-- The databases that sequences of requests lead to. -/
inductive Reachable : Db → Prop where
  | init (db : Db) : Initial db → Reachable db
  | step (db : Db) (op : Op) : Reachable db → Reachable (step db op)

/-! ## Specification vocabulary -/

/-- Points that `consumePointsFIFO` and `removePoints` can draw on. -/
def eligibleSum (db : Db) (m c : String) (t : Int) : Int :=
  ((db.point_lots.filter (eligible m c t)).map Lot.points_remaining).sum

/-- The takes of the FIFO loop along `rows`, as a function of `remaining`. -/
def takes : List Lot → Int → List Used
  | [], _ => []
  | lot :: rest, remaining =>
    if remaining ≤ 0 then []
    else ⟨lot.lot_id, min lot.points_remaining remaining⟩ ::
      takes rest (remaining - min lot.points_remaining remaining)

/-- Sum of the `used` fields. -/
def usedSum (us : List Used) : Int := (us.map Used.used).sum

/-- The table after the updates of a list of takes. -/
def applyTakes (tbl : List Lot) (us : List Used) : List Lot :=
  us.foldl (fun acc u => updateLot acc u.lot_id u.used) tbl

/-- Total taken from the lot `lot_id` by a list of takes. -/
def usedFor (us : List Used) (lot_id : String) : Int :=
  usedSum (us.filter fun u => decide (u.lot_id = lot_id))

/-- Subtract `k` from a lot. -/
def Lot.minus (l : Lot) (k : Int) : Lot := { l with points_remaining := l.points_remaining - k }

/-- Sum of `points_remaining` over a list of rows. -/
def rowsSum (rows : List Lot) : Int := (rows.map Lot.points_remaining).sum

/-- The row belongs to the account `(m, c)` and is not expired at `t`. -/
def inAccount (m c : String) (t : Int) (l : Lot) : Bool :=
  decide (l.merchant_id = m) && decide (l.customer_id = c) && notExpired t l

/-- What a row contributes to the balance of `(m, c)` at `t`. -/
def weight (m c : String) (t : Int) (l : Lot) : Int :=
  if inAccount m c t l then l.points_remaining else 0

/-- The consumption records that a list of takes stands for. -/
def consumptionRows (redemption_id : String) (us : List Used) : List Consumption :=
  us.map fun u => ⟨redemption_id, u.lot_id, u.used⟩

/-- The table after every lot gave what a list of takes draws from it. -/
def lotsAfter (tbl : List Lot) (us : List Used) : List Lot :=
  tbl.map fun l => l.minus (usedFor us l.lot_id)

/-- One call on the lot store of a fixed account `(m, c)`. -/
inductive LotCall where
  | addLot (points : Int) (expires_at : Option Int) (source_token_id note : Option String)
      (lot_id : String) (t : Int)
  | consumeFIFO (points_needed : Int) (redemption_id : String) (t : Int)
  | removePoints (points_to_remove : Int) (lot_id : String) (t : Int)
deriving DecidableEq

/-- Clock value of a call. -/
def LotCall.time : LotCall → Int
  | LotCall.addLot _ _ _ _ _ t => t
  | LotCall.consumeFIFO _ _ t => t
  | LotCall.removePoints _ _ t => t

/-- The signed amount a call applies: what `addLot` adds, minus what the other
two take. -/
def LotCall.delta : LotCall → Int
  | LotCall.addLot p _ _ _ _ _ => p
  | LotCall.consumeFIFO n _ _ => -n
  | LotCall.removePoints n _ _ => -n

/-- The quantity asked of `consumeFIFO` / `removePoints` is not negative. -/
def LotCall.nonneg : LotCall → Prop
  | LotCall.addLot _ _ _ _ _ _ => True
  | LotCall.consumeFIFO n _ _ => 0 ≤ n
  | LotCall.removePoints n _ _ => 0 ≤ n

instance (k : LotCall) : Decidable k.nonneg := by
  cases k <;> simp only [LotCall.nonneg] <;> infer_instance

/-- The database after a call that returned; `none` when it threw. -/
def callLot (m c : String) (db : Db) : LotCall → Option Db
  | LotCall.addLot p e s nt id t =>
    match addEarnLot m c p e s nt id t db with
    | (db1, Except.ok _) => some db1
    | (_, Except.error _) => none
  | LotCall.consumeFIFO n rid t =>
    match transaction (consumePointsFIFO m c n rid t) db with
    | (db1, Except.ok _) => some db1
    | (_, Except.error _) => none
  | LotCall.removePoints n id t =>
    match removePoints m c n id t db with
    | (db1, Except.ok _) => some db1
    | (_, Except.error _) => none

/-- The database after a sequence of calls that all returned. -/
def callLots (m c : String) : Db → List LotCall → Option Db
  | db, [] => some db
  | db, k :: ks =>
    match callLot m c db k with
    | none => none
    | some db1 => callLots m c db1 ks

/-- A row counts toward `balance(m, c)` at `t`: it belongs to the account, is
not zero, and has no expiry or one that lies after `t`. -/
def Counts (m c : String) (t : Int) (l : Lot) : Prop :=
  l.merchant_id = m ∧ l.customer_id = c ∧ l.points_remaining ≠ 0 ∧
    (l.expires_at = none ∨ ∃ e, l.expires_at = some e ∧ t < e)

/-- Every row belongs to `(m, c)` and no two rows share a `lot_id`. -/
def OwnedBy (m c : String) (db : Db) : Prop :=
  (db.point_lots.map Lot.lot_id).Nodup ∧
    ∀ l ∈ db.point_lots, l.merchant_id = m ∧ l.customer_id = c

/-- Example lot store: three lots of account `("m", "c")`. -/
def exLots : Db :=
  ⟨[], [], [], [], [],
    [⟨"a", "m", "c", 3, 0, some 100, none, none⟩, ⟨"b", "m", "c", 5, 1, none, none, none⟩,
      ⟨"c", "m", "c", 2, 2, some 50, none, none⟩],
    [], [], [], []⟩

/-- The empty database. -/
def emptyDb : Db := ⟨[], [], [], [], [], [], [], [], [], []⟩

/-- Example sequence of lot-store calls: add 5, consume 2, remove 4. -/
def exCalls : List LotCall :=
  [LotCall.addLot 5 (some 1000) none none "l1" 1, LotCall.consumeFIFO 2 "x" 2,
    LotCall.removePoints 4 "l2" 3]

/-- The database that `exCalls` leads to from the empty one. -/
def exCallsDb : Db :=
  ⟨[], [], [], [], [],
    [⟨"l1", "m", "c", 0, 1, some 1000, none, none⟩,
      ⟨"l2", "m", "c", -1, 3, none, none, some "Debt from void (insufficient points)"⟩],
    [], [], [⟨"x", "l1", 2⟩], []⟩

/-- The lot that a claim of `tok` by `customer_id` under `program` writes. -/
def earnLot (tok : EarnToken) (customer_id : String) (program : Program) (lot_id : String)
    (t : Int) : Lot :=
  ⟨lot_id, tok.merchant_id, customer_id, earnPoints program, t, lotExpiry program t,
    some tok.token_id, some "Earned point"⟩

/-- The `EARN` ledger entry that a claim of `tok` by `customer_id` writes. -/
def earnEntry (tok : EarnToken) (customer_id : String) (program : Program) (ledger_id : String)
    (t : Int) : LedgerEntry :=
  ⟨ledger_id, tok.merchant_id, customer_id, "EARN", earnPoints program, some tok.token_id, none,
    t, none, some (earnNote (lotExpiry program t))⟩

/-- The database a committed claim leaves, given the database `db` in which its
transaction started. -/
def afterClaim (db : Db) (tok : EarnToken) (customer_id : String) (program : Program)
    (lot_id ledger_id : String) (t : Int) : Db :=
  ⟨db.merchants, db.stores, db.loyalty_programs, db.rewards,
    markRedeemed db.earn_tokens tok.token_id customer_id t,
    db.point_lots ++ [earnLot tok customer_id program lot_id t],
    db.point_ledger ++ [earnEntry tok customer_id program ledger_id t],
    db.redemptions, db.redemption_consumptions, db.rate_limits⟩

/-- The database after the two rate checks of a claim: only `rate_limits` can
differ from `db`. -/
def afterRateChecks (db : Db) (tok : EarnToken) (customer_id : String) (program : Program)
    (t : Int) : Db :=
  (guardedRateLimit
    ("earnday:" ++ tok.merchant_id ++ ":" ++ customer_id ++ ":" ++ dayKey t)
    program.max_earns_per_day 86400 t
    (guardedRateLimit ("earn10:" ++ tok.merchant_id ++ ":" ++ customer_id)
      program.max_earns_per_10min 600 t db).1).1

/-- Example shop: one active merchant `m` with store `s`, a program giving 1
point per earn that expires after 180 days, no earn caps, and a reward `r`
costing 1 point. -/
def exShop : Db :=
  ⟨[⟨"m", "M", "active", 0⟩], [⟨"s", "m", "S", 0⟩],
    [⟨"p", "m", 1, 120, some 180, some 0, some 0, 0, 1⟩], [⟨"r", "p", "drink", 1, 1, 0⟩],
    [], [], [], [], [], []⟩

/-- The example shop after staff `st` issued token `T1` with receipt code `ABCD`. -/
def exIssued : Db := run exShop [Op.issue "s" "st" none "T1" "ABCD" 10]

/-- The `REDEEM` ledger entry that completing `red` for `reward` writes. -/
def redeemEntry (red : Redemption) (reward : Reward) (staff_id ledger_id : String) (t : Int) :
    LedgerEntry :=
  ⟨ledger_id, red.merchant_id, red.customer_id, "REDEEM", -reward.points_cost, none,
    some red.redemption_id, t, some staff_id, some ("Reward: " ++ reward.name)⟩

/-- The takes of completing `red` for `reward` at `t`. -/
def redeemTakes (db : Db) (red : Redemption) (reward : Reward) (t : Int) : List Used :=
  takes (selectLots db red.merchant_id red.customer_id t) reward.points_cost

/-- The database a committed completion leaves. -/
def afterComplete (db : Db) (red : Redemption) (reward : Reward)
    (staff_id store_id ledger_id : String) (t : Int) : Db :=
  ⟨db.merchants, db.stores, db.loyalty_programs, db.rewards, db.earn_tokens,
    lotsAfter db.point_lots (redeemTakes db red reward t),
    db.point_ledger ++ [redeemEntry red reward staff_id ledger_id t],
    markCompleted db.redemptions red.redemption_id staff_id store_id t,
    db.redemption_consumptions ++
      (if red.redemption_id = "" then []
        else consumptionRows red.redemption_id (redeemTakes db red reward t)),
    db.rate_limits⟩

/-- The `VOID_EARN` ledger entry that voiding `tok` writes. -/
def voidEntry (tok : EarnToken) (customer_id : String) (points : Int)
    (staff_id ledger_id : String) (t : Int) : LedgerEntry :=
  ⟨ledger_id, tok.merchant_id, customer_id, "VOID_EARN", -points, some tok.token_id, none, t,
    some staff_id, some "Voided by vendor"⟩

/-- The takes of removing `points` from `(tok.merchant_id, customer_id)` at `t`. -/
def voidTakes (db : Db) (tok : EarnToken) (customer_id : String) (points t : Int) : List Used :=
  takes (selectLots db tok.merchant_id customer_id t) points

/-- The debt lot of a void, present when the takes fall short of `points`. -/
def voidDebt (db : Db) (tok : EarnToken) (customer_id : String) (points : Int) (lot_id : String)
    (t : Int) : List Lot :=
  if 0 < points - usedSum (voidTakes db tok customer_id points t) then
    [⟨lot_id, tok.merchant_id, customer_id,
      -(points - usedSum (voidTakes db tok customer_id points t)), t, none, none,
      some "Debt from void (insufficient points)"⟩]
  else []

/-- The database a committed void of a claimed token leaves. -/
def afterVoid (db : Db) (tok : EarnToken) (customer_id : String) (points : Int)
    (staff_id lot_id ledger_id : String) (t : Int) : Db :=
  ⟨db.merchants, db.stores, db.loyalty_programs, db.rewards,
    markVoided db.earn_tokens tok.token_id,
    lotsAfter db.point_lots (voidTakes db tok customer_id points t) ++
      voidDebt db tok customer_id points lot_id t,
    db.point_ledger ++ [voidEntry tok customer_id points staff_id ledger_id t],
    db.redemptions, db.redemption_consumptions, db.rate_limits⟩

/-- The database a committed void of an unclaimed token leaves. -/
def afterVoidUnclaimed (db : Db) (tok : EarnToken) : Db :=
  ⟨db.merchants, db.stores, db.loyalty_programs, db.rewards,
    markVoided db.earn_tokens tok.token_id, db.point_lots, db.point_ledger, db.redemptions,
    db.redemption_consumptions, db.rate_limits⟩

/-- How one request changed the tokens, the lots and the ledger: not at all, or
by issuing a token, or by committing a claim, a completion or a void. -/
inductive Effect (db d : Db) : Prop where
  | unchanged (ht : d.earn_tokens = db.earn_tokens) (hl : d.point_lots = db.point_lots)
      (hg : d.point_ledger = db.point_ledger)
  | issued (new : EarnToken) (hnew : new.token_id ∉ db.earn_tokens.map EarnToken.token_id)
      (hst : new.status = "ISSUED") (ht : d.earn_tokens = db.earn_tokens ++ [new])
      (hl : d.point_lots = db.point_lots) (hg : d.point_ledger = db.point_ledger)
  | claimed (tok : EarnToken) (c : String) (p : Program) (lot_id ledger_id : String) (t : Int)
      (htok : getToken db tok.token_id = some tok) (hst : tok.status = "ISSUED")
      (hlot : lot_id ∉ db.point_lots.map Lot.lot_id)
      (hledger : ledger_id ∉ db.point_ledger.map LedgerEntry.ledger_id)
      (ht : d.earn_tokens = markRedeemed db.earn_tokens tok.token_id c t)
      (hl : d.point_lots = db.point_lots ++ [earnLot tok c p lot_id t])
      (hg : d.point_ledger = db.point_ledger ++ [earnEntry tok c p ledger_id t])
  | completed (red : Redemption) (reward : Reward) (staff_id ledger_id : String) (t : Int)
      (hsuff : ¬ 0 < reward.points_cost - usedSum (redeemTakes db red reward t))
      (hledger : ledger_id ∉ db.point_ledger.map LedgerEntry.ledger_id)
      (ht : d.earn_tokens = db.earn_tokens)
      (hl : d.point_lots = lotsAfter db.point_lots (redeemTakes db red reward t))
      (hg : d.point_ledger = db.point_ledger ++ [redeemEntry red reward staff_id ledger_id t])
  | voidedUnclaimed (tok : EarnToken) (htok : getToken db tok.token_id = some tok)
      (hst : tok.status ≠ "VOIDED") (hd : voidDebtor tok = none)
      (ht : d.earn_tokens = markVoided db.earn_tokens tok.token_id)
      (hl : d.point_lots = db.point_lots) (hg : d.point_ledger = db.point_ledger)
  | voided (tok : EarnToken) (c : String) (points : Int) (staff_id lot_id ledger_id : String)
      (t : Int) (htok : getToken db tok.token_id = some tok) (hst : tok.status ≠ "VOIDED")
      (hd : voidDebtor tok = some c)
      (hlot : 0 < points - usedSum (voidTakes db tok c points t) →
        lot_id ∉ db.point_lots.map Lot.lot_id)
      (hledger : ledger_id ∉ db.point_ledger.map LedgerEntry.ledger_id)
      (ht : d.earn_tokens = markVoided db.earn_tokens tok.token_id)
      (hl : d.point_lots = lotsAfter db.point_lots (voidTakes db tok c points t) ++
        voidDebt db tok c points lot_id t)
      (hg : d.point_ledger = db.point_ledger ++ [voidEntry tok c points staff_id ledger_id t])

/-- The lots earned from token `T`. -/
def lotsOfToken (db : Db) (T : String) : List Lot :=
  db.point_lots.filter fun l => decide (l.source_token_id = some T)

/-- The `EARN` ledger entries of token `T`. -/
def earnsOfToken (db : Db) (T : String) : List LedgerEntry :=
  db.point_ledger.filter fun e => decide (e.event_type = "EARN") && decide (e.token_id = some T)

/-- Token `T` is stored with a status other than `ISSUED`. -/
def NonIssued (db : Db) (T : String) : Prop :=
  ∃ tok, getToken db T = some tok ∧ tok.status ≠ "ISSUED"

/-- Per token: at most one lot and one `EARN` entry, and none while the token
is absent or still `ISSUED`. -/
def TokenInv (db : Db) : Prop :=
  ∀ T : String, (lotsOfToken db T).length ≤ 1 ∧ (earnsOfToken db T).length ≤ 1 ∧
    ((∀ tok, getToken db T = some tok → tok.status = "ISSUED") →
      (lotsOfToken db T).length = 0 ∧ (earnsOfToken db T).length = 0)

/-- The row that the `INSERT INTO redemptions` of the start handler writes. -/
def startedRow (customer_id merchant_id reward_id redeem_token redemption_id : String)
    (t : Int) : Redemption :=
  ⟨redemption_id, merchant_id, customer_id, reward_id, t, "PENDING", some redeem_token,
    some (t + 300), none, none, none⟩

/-- The example shop after staff issued `T1` and `c` claimed it (1 point). -/
def exClaimed : Db :=
  run exShop [Op.issue "s" "st" none "T1" "ABCD" 10, Op.claim "c" "T1" none "L1" "G1" 20]

/-- The database `exClaimed` with two rows placed in `redemptions`: the
`PENDING` redemptions `RT1` and `RT2` of the 1-point reward by `c`, as the
`INSERT` of the start handler writes them.  No request leads here, because the
start handler throws before its `INSERT`. -/
def exPendingTwo : Db :=
  { exClaimed with
    redemptions := [startedRow "c" "m" "r" "RT1" "X1" 30, startedRow "c" "m" "r" "RT2" "X2" 31] }

/-- Requests that, from `exPendingTwo`, leave customer `c` with a debt lot of
-1, a fresh lot of +1 and the redemption `RT2` still `PENDING`: `RT1` is
completed, the token `T1` is voided (debt lot), and `c` earns 1 point from
`T2`. -/
def exDebtOps : List Op :=
  [Op.complete "s" "st" "RT1" "G2" 40,
    Op.void "s" "st" "T1" "L2" "G3" 50,
    Op.issue "s" "st" none "T2" "EFGH" 60,
    Op.claim "c" "T2" none "L3" "G4" 70]

/-- The database after `exDebtOps` from `exPendingTwo`. -/
def exDebt : Db := run exPendingTwo exDebtOps

/-- Requests after which token `T1`, claimed for 1 point, meets a program that
now gives 5 points per earn. -/
def exRepricedOps : List Op :=
  [Op.issue "s" "st" none "T1" "ABCD" 10,
    Op.claim "c" "T1" none "L1" "G1" 20,
    Op.program "s" ⟨Field.num 5, Field.undefined, Field.num 180, Field.undefined,
      Field.undefined⟩]

/-- The example shop after `exRepricedOps`. -/
def exRepriced : Db := run exShop exRepricedOps

/-- Sum of `points_delta` over the ledger entries of customer `c`. -/
def customerDeltas (db : Db) (c : String) : Int :=
  ((db.point_ledger.filter fun e => decide (e.customer_id = c)).map
    LedgerEntry.points_delta).sum

/-- Sum of `points_delta` over the ledger entries of the account `(m, c)`. -/
def ledgerSum (db : Db) (m c : String) : Int :=
  ((db.point_ledger.filter fun e => decide (e.merchant_id = m) && decide (e.customer_id = c)).map
    LedgerEntry.points_delta).sum

/-- Token `T` is stored as `VOIDED` and belongs to store `s`. -/
def VoidedAt (db : Db) (T s : String) : Prop :=
  ∃ tok, getToken db T = some tok ∧ tok.status = "VOIDED" ∧ tok.store_id = s

/-- The `REDEEM` ledger entries of the redemption with id `X`. -/
def redeemsOf (db : Db) (X : String) : List LedgerEntry :=
  db.point_ledger.filter fun e =>
    decide (e.event_type = "REDEEM") && decide (e.redemption_id = some X)

/-- The redemption behind `redeem_token` is stored as `COMPLETED`. -/
def CompletedAt (db : Db) (redeem_token : String) : Prop :=
  ∃ r, getRedemption db redeem_token = some r ∧ r.status = "COMPLETED"

/-- How one request changed the redemptions and the ledger: not at all, by a
ledger entry that is not a `REDEEM`, or by committing a completion. -/
inductive RedeemEffect (db d : Db) : Prop where
  | unchanged (hr : d.redemptions = db.redemptions) (hg : d.point_ledger = db.point_ledger)
  | ledgerOnly (e : LedgerEntry) (he : e.event_type ≠ "REDEEM")
      (hr : d.redemptions = db.redemptions) (hg : d.point_ledger = db.point_ledger ++ [e])
  | completed (rt : String) (red : Redemption) (reward : Reward)
      (staff_id store_id ledger_id : String) (t : Int)
      (hred : getRedemption db rt = some red) (hst : red.status = "PENDING")
      (hr : d.redemptions = markCompleted db.redemptions red.redemption_id staff_id store_id t)
      (hg : d.point_ledger = db.point_ledger ++ [redeemEntry red reward staff_id ledger_id t])

/-- Per redemption: at most one `REDEEM` ledger entry, and none while the
redemption is stored as `PENDING`. -/
def RedeemInv (db : Db) : Prop :=
  (∀ X : String, (redeemsOf db X).length ≤ 1) ∧
  (∀ r ∈ db.redemptions, r.status = "PENDING" → (redeemsOf db r.redemption_id).length = 0)

/-- A run of `rateLimit(key, maxCount, windowSeconds)` checks at the clock
values `ts`: the database afterwards and the results in order. -/
def rateChecks (key : String) (maxCount windowSeconds : Int) : Db → List Int →
    Db × List RateResult
  | db, [] => (db, [])
  | db, t :: ts =>
    ((rateChecks key maxCount windowSeconds (rateLimit key maxCount windowSeconds t db).1 ts).1,
      (rateLimit key maxCount windowSeconds t db).2 ::
        (rateChecks key maxCount windowSeconds
          (rateLimit key maxCount windowSeconds t db).1 ts).2)

/-- What the `k`-th check (counted from 0) of a window opened at `t0` should
answer at clock value `t`: allowed while `k < maxCount`, else denied with
`retryAfter = windowSeconds - elapsed`. -/
def windowAnswer (maxCount windowSeconds t0 : Int) (k : Nat) (t : Int) : RateResult :=
  if (k : Int) < maxCount then ⟨true, none⟩ else ⟨false, some (windowSeconds - (t - t0))⟩

/-- `SELECT ... FROM rate_limits WHERE key=?`. -/
def getRateRow (db : Db) (key : String) : Option RateRow :=
  db.rate_limits.find? fun r => decide (r.key = key)

/-- The database `exClaimed` with one row in `redemptions`: the `PENDING`
redemption `RT1` of the 1-point reward by `c`, created at time 30, as the
`INSERT` of the start handler writes it.  No request leads here (the start
handler throws before its `INSERT`); the row is placed in the table. -/
def exStarted : Db :=
  { exClaimed with redemptions := [startedRow "c" "m" "r" "RT1" "X1" 30] }

/-- The example shop after `c` claimed `T1` and spent the point on `RT1`. -/
def exSpent : Db := run exStarted [Op.complete "s" "st" "RT1" "G2" 40]

/-- Example shop whose program caps claims at 5 per 10 minutes and 1 per day. -/
def exCapShop : Db :=
  ⟨[⟨"m", "M", "active", 0⟩], [⟨"s", "m", "S", 0⟩],
    [⟨"p", "m", 1, 120, some 180, some 1, some 5, 0, 1⟩], [⟨"r", "p", "drink", 1, 1, 0⟩],
    [], [], [], [], [], []⟩

/-- The capped shop after two tokens were issued and `c` claimed the first. -/
def exCapped : Db :=
  run exCapShop [Op.issue "s" "st" none "T1" "ABCD" 10, Op.issue "s" "st" none "T2" "EFGH" 11,
    Op.claim "c" "T1" none "L1" "G1" 20]

/-- Number of requests of `ops`, run in order from `db`, that complete the
redemption behind `redeem_token` with success. -/
def completions (redeem_token : String) : Db → List Op → Nat
  | _, [] => 0
  | db, op :: ops =>
    (match op with
      | Op.complete s st rt g t =>
        if rt = redeem_token then
          match (postRedeemComplete s st rt g t db).2 with
          | Except.ok _ => 1
          | Except.error _ => 0
        else 0
      | _ => 0) + completions redeem_token (step db op) ops

/-- One issuance request: the body's `transaction_ref`, the token id and
receipt code drawn for it, and the clock value. -/
structure IssueReq where
  transaction_ref : Option String
  token_id : String
  receipt_code : String
  t : Int
deriving DecidableEq

/-- A run of `POST /api/vendor/token` requests by one staff member of one
store: the database afterwards and the responses in order. -/
def issueAll (store_id staff_id : String) : Db → List IssueReq →
    Db × List (Except Err TokenOk)
  | db, [] => (db, [])
  | db, q :: qs =>
    ((issueAll store_id staff_id
        (postToken store_id staff_id q.transaction_ref q.token_id q.receipt_code q.t db).1 qs).1,
      (postToken store_id staff_id q.transaction_ref q.token_id q.receipt_code q.t db).2 ::
        (issueAll store_id staff_id
          (postToken store_id staff_id q.transaction_ref q.token_id q.receipt_code q.t db).1
          qs).2)

/-- The `retryAfter` of a `rate_limited` response, `none` for any other response. -/
def limitedBy : Except Err TokenOk → Option (Option Int)
  | Except.error (Err.rate_limited ra) => some ra
  | _ => none

/-- What the `k`-th issuance (counted from 0) of a window opened at `t0`
should answer at clock value `t`: not rate limited while `k < 120`, else
`rate_limited` with `retryAfter = 60 - elapsed`. -/
def issueAnswer (t0 : Int) (k : Nat) (t : Int) : Option (Option Int) :=
  if (k : Int) < 120 then none else some (some (60 - (t - t0)))

/-- How the row of one lot may differ between an earlier and a later database:
the identifier, the owner, `created_at` and `expires_at` are the same,
`points_remaining` has not grown, a lot that was not negative is not negative,
and a lot that held nothing or less is the very same row. -/
def LotStep (l l2 : Lot) : Prop :=
  l2.lot_id = l.lot_id ∧ l2.merchant_id = l.merchant_id ∧ l2.customer_id = l.customer_id ∧
    l2.created_at = l.created_at ∧ l2.expires_at = l.expires_at ∧
    l2.points_remaining ≤ l.points_remaining ∧
    (0 ≤ l.points_remaining → 0 ≤ l2.points_remaining) ∧
    (l.points_remaining ≤ 0 → l2 = l)

/-- The example shop after `c` spent the point of `T1` and `T1` was voided:
lot `L1` holds 0 and the debt lot `L2` holds -1. -/
def exVoided : Db := run exSpent [Op.void "s" "st" "T1" "L2" "G3" 50]

/-- The status changes that the state machine of an earn token allows between
two databases: none, `ISSUED → REDEEMED`, `ISSUED → VOIDED`, `REDEEMED → VOIDED`. -/
def TokenMove (a b : String) : Prop :=
  a = b ∨ (a = "ISSUED" ∧ b = "REDEEMED") ∨ (a = "ISSUED" ∧ b = "VOIDED") ∨
    (a = "REDEEMED" ∧ b = "VOIDED")

/-- A request that is neither a void of token `T` nor a claim of `T` made at
or before `expires_at`. -/
def sparesToken (T : String) (expires_at : Int) : Op → Prop
  | Op.claim _ tok _ _ _ t => tok = T → expires_at < t
  | Op.void _ _ tok _ _ _ => tok ≠ T
  | _ => True

instance (T : String) (expires_at : Int) (op : Op) : Decidable (sparesToken T expires_at op) := by
  cases op <;> simp only [sparesToken] <;> infer_instance

/-- Two shops: merchant `m` with store `s` and merchant `m2` with store `s2`,
each with a program giving 1 point per earn and a reward costing 1 point. -/
def exTwoShop : Db :=
  ⟨[⟨"m", "M", "active", 0⟩, ⟨"m2", "M2", "active", 0⟩],
    [⟨"s", "m", "S", 0⟩, ⟨"s2", "m2", "S2", 0⟩],
    [⟨"p", "m", 1, 120, some 180, some 0, some 0, 0, 1⟩,
      ⟨"p2", "m2", 1, 120, none, some 0, some 0, 0, 1⟩],
    [⟨"r", "p", "drink", 1, 1, 0⟩, ⟨"r2", "p2", "cake", 1, 1, 0⟩],
    [], [], [], [], [], []⟩

/-- The two shops after `c` earned 1 point at `m` from `T1` and `c2` earned 1
point at `m2` from `T2`, with the `PENDING` redemption `RT1` of `c` at `m`
placed in the table `redemptions`. -/
def exTwo : Db :=
  { run exTwoShop [Op.issue "s" "st" none "T1" "ABCD" 10,
      Op.issue "s2" "st2" none "T2" "EFGH" 11, Op.claim "c" "T1" none "L1" "G1" 20,
      Op.claim "c2" "T2" none "L2" "G2" 21] with
    redemptions := [startedRow "c" "m" "r" "RT1" "X1" 30] }

/-- The row belongs to the account `(m, c)`, expired or not. -/
def owned (m c : String) (l : Lot) : Bool :=
  decide (l.merchant_id = m) && decide (l.customer_id = c)

/-- Sum of `points_remaining` over the rows of `(m, c)` in a table, counted
regardless of expiry. -/
def ownedSum (m c : String) (tbl : List Lot) : Int :=
  ((tbl.filter (owned m c)).map Lot.points_remaining).sum

/-- Sum of `points_remaining` over all lots of the account `(m, c)`, counted
regardless of expiry. -/
def lotTotal (db : Db) (m c : String) : Int := ownedSum m c db.point_lots

/-- Every program gives at least 1 point per earn and every reward costs at
least 1 point. -/
def MinPolicies (db : Db) : Prop :=
  (∀ p ∈ db.loyalty_programs, 1 ≤ p.points_per_earn) ∧ (∀ r ∈ db.rewards, 1 ≤ r.points_cost)

instance (db : Db) : Decidable (MinPolicies db) := by
  unfold MinPolicies; infer_instance

/-- The lots of `d` differ from those of `db` only inside the account `(m, c)`
and only in rows not expired at `t`: every row of `db` that belongs to another
merchant or customer, or is expired at `t`, is a row of `d`; every row of `d`
is a row of `db` or belongs to `(m, c)`; and the balance of every other
account is the same in `d` as in `db`, at every clock value. -/
def Isolated (m c : String) (t : Int) (db d : Db) : Prop :=
  (∀ l ∈ db.point_lots, (l.merchant_id ≠ m ∨ l.customer_id ≠ c ∨ notExpired t l = false) →
    l ∈ d.point_lots) ∧
  (∀ l2 ∈ d.point_lots, l2 ∈ db.point_lots ∨ (l2.merchant_id = m ∧ l2.customer_id = c)) ∧
  (∀ (m2 c2 : String) (t2 : Int), ¬ (m2 = m ∧ c2 = c) →
    getBalance d m2 c2 t2 = getBalance db m2 c2 t2)

/-! ## The FIFO loop -/

theorem takes_nonpos (rows : List Lot) (r : Int) (h : r ≤ 0) : takes rows r = [] := by
  cases rows <;> simp [takes, h]

theorem consumeLoop_eq (rows : List Lot) (r : Int) (tbl : List Lot) (used : List Used) :
    consumeLoop rows r tbl used =
      (applyTakes tbl (takes rows r), used ++ takes rows r, r - usedSum (takes rows r)) := by
  induction rows generalizing r tbl used with
  | nil => simp [consumeLoop, takes, applyTakes, usedSum]
  | cons lot rest ih =>
    by_cases h : r ≤ 0
    · simp [consumeLoop, takes, h, applyTakes, usedSum]
    · simp only [consumeLoop, takes, h, if_false, ih]
      simp [applyTakes, usedSum]
      ring

theorem removeLoop_eq (rows : List Lot) (r : Int) (tbl : List Lot) :
    removeLoop rows r tbl = (applyTakes tbl (takes rows r), r - usedSum (takes rows r)) := by
  induction rows generalizing r tbl with
  | nil => simp [removeLoop, takes, applyTakes, usedSum]
  | cons lot rest ih =>
    by_cases h : r ≤ 0
    · simp [removeLoop, takes, h, applyTakes, usedSum]
    · simp only [removeLoop, takes, h, if_false, ih]
      simp [applyTakes, usedSum]
      ring

theorem Lot.minus_zero (l : Lot) : l.minus 0 = l := by
  cases l; simp [Lot.minus]

theorem Lot.minus_minus (l : Lot) (a b : Int) : (l.minus a).minus b = l.minus (b + a) := by
  cases l; simp [Lot.minus]; ring

theorem applyTakes_eq_map (us : List Used) (tbl : List Lot) :
    applyTakes tbl us = tbl.map fun l => l.minus (usedFor us l.lot_id) := by
  induction us generalizing tbl with
  | nil => simp [applyTakes, usedFor, usedSum, Lot.minus_zero]
  | cons u us ih =>
    have h : applyTakes tbl (u :: us) = applyTakes (updateLot tbl u.lot_id u.used) us := rfl
    rw [h, ih, updateLot, List.map_map]
    apply List.map_congr_left
    intro l _
    by_cases hl : l.lot_id = u.lot_id
    · have e : (u.lot_id = l.lot_id) := hl.symm
      simp [hl, usedFor, usedSum, List.filter_cons, Lot.minus]
      ring
    · have e : ¬ (u.lot_id = l.lot_id) := fun h => hl h.symm
      simp [hl, e, usedFor, usedSum, List.filter_cons, Lot.minus]

theorem rowsSum_nonneg (rows : List Lot) (hpos : ∀ l ∈ rows, 0 < l.points_remaining) :
    0 ≤ rowsSum rows := by
  induction rows with
  | nil => simp [rowsSum]
  | cons l rest ih =>
    have h1 := hpos l (by simp)
    have h2 := ih (fun x hx => hpos x (by simp [hx]))
    simp only [rowsSum, List.map_cons, List.sum_cons] at *
    omega

theorem takes_sum (rows : List Lot) (hpos : ∀ l ∈ rows, 0 < l.points_remaining) (r : Int)
    (hr : 0 ≤ r) : usedSum (takes rows r) = min r (rowsSum rows) := by
  induction rows generalizing r with
  | nil => simp [takes, usedSum, rowsSum, hr]
  | cons l rest ih =>
    have h1 := hpos l (by simp)
    have hrest : ∀ x ∈ rest, 0 < x.points_remaining := fun x hx => hpos x (by simp [hx])
    have h2 := rowsSum_nonneg rest hrest
    by_cases h : r ≤ 0
    · have : r = 0 := by omega
      subst this
      simp only [takes, le_refl, if_true, usedSum, List.map_nil, List.sum_nil, rowsSum,
        List.map_cons, List.sum_cons] at *
      omega
    · have h3 := ih hrest (r - min l.points_remaining r) (by omega)
      simp only [takes, h, if_false, usedSum, List.map_cons, List.sum_cons, rowsSum] at *
      rw [h3]
      omega

theorem takes_mem (rows : List Lot) (hpos : ∀ l ∈ rows, 0 < l.points_remaining) (r : Int) :
    ∀ u ∈ takes rows r, ∃ l ∈ rows, l.lot_id = u.lot_id ∧ 1 ≤ u.used ∧
      u.used ≤ l.points_remaining := by
  induction rows generalizing r with
  | nil => simp [takes]
  | cons l rest ih =>
    have h1 := hpos l (by simp)
    have hrest : ∀ x ∈ rest, 0 < x.points_remaining := fun x hx => hpos x (by simp [hx])
    intro u hu
    by_cases h : r ≤ 0
    · simp [takes, h] at hu
    · simp only [takes, h, if_false, List.mem_cons] at hu
      rcases hu with hu | hu
      · subst hu
        exact ⟨l, by simp, rfl, by simp only; omega, by simp only; omega⟩
      · obtain ⟨x, hx, hx2⟩ := ih hrest _ u hu
        exact ⟨x, by simp [hx], hx2⟩

theorem takes_ids_initial (rows : List Lot) (r : Int) :
    (takes rows r).map Used.lot_id <+: rows.map Lot.lot_id := by
  induction rows generalizing r with
  | nil => simp [takes]
  | cons l rest ih =>
    by_cases h : r ≤ 0
    · simp [takes, h]
    · simp only [takes, h, if_false, List.map_cons]
      exact (List.prefix_cons_inj _).2 (ih _)

theorem takes_full (rows : List Lot) (hpos : ∀ l ∈ rows, 0 < l.points_remaining) (r : Int)
    (h : rowsSum rows ≤ r) :
    takes rows r = rows.map fun l => ⟨l.lot_id, l.points_remaining⟩ := by
  induction rows generalizing r with
  | nil => simp [takes]
  | cons l rest ih =>
    have h1 := hpos l (by simp)
    have hrest : ∀ x ∈ rest, 0 < x.points_remaining := fun x hx => hpos x (by simp [hx])
    have h2 := rowsSum_nonneg rest hrest
    simp only [rowsSum, List.map_cons, List.sum_cons] at h h2
    have hr : ¬ r ≤ 0 := by omega
    have hm : min l.points_remaining r = l.points_remaining := by omega
    simp only [takes, hr, if_false, hm, List.map_cons]
    rw [ih hrest (r - l.points_remaining) (by simp only [rowsSum]; omega)]

theorem takes_append (A B : List Lot) (r : Int) :
    takes (A ++ B) r = takes A r ++ takes B (r - usedSum (takes A r)) := by
  induction A generalizing r with
  | nil => simp [takes, usedSum]
  | cons l rest ih =>
    by_cases h : r ≤ 0
    · simp [takes, h, usedSum, takes_nonpos B r h]
    · have e : takes ((l :: rest) ++ B) r = ⟨l.lot_id, min l.points_remaining r⟩ ::
          takes (rest ++ B) (r - min l.points_remaining r) := by
        simp [takes, h]
      have e2 : takes (l :: rest) r = ⟨l.lot_id, min l.points_remaining r⟩ ::
          takes rest (r - min l.points_remaining r) := by
        simp [takes, h]
      rw [e, e2, ih]
      have e3 : r - usedSum (⟨l.lot_id, min l.points_remaining r⟩ ::
          takes rest (r - min l.points_remaining r)) =
          r - min l.points_remaining r - usedSum (takes rest (r - min l.points_remaining r)) := by
        simp only [usedSum, List.map_cons, List.sum_cons]; ring
      rw [e3]; rfl

/-! ## Selection and balance -/

theorem selectLots_perm (db : Db) (m c : String) (t : Int) :
    (selectLots db m c t).Perm (db.point_lots.filter (eligible m c t)) :=
  List.perm_insertionSort _ _

theorem mem_selectLots {db : Db} {m c : String} {t : Int} {l : Lot} :
    l ∈ selectLots db m c t ↔ l ∈ db.point_lots ∧ eligible m c t l = true := by
  rw [(selectLots_perm db m c t).mem_iff, List.mem_filter]

theorem selectLots_pos (db : Db) (m c : String) (t : Int) :
    ∀ l ∈ selectLots db m c t, 0 < l.points_remaining := by
  intro l hl
  have h := (mem_selectLots.1 hl).2
  simp [eligible] at h
  exact h.1.2

theorem selectLots_inAccount (db : Db) (m c : String) (t : Int) :
    ∀ l ∈ selectLots db m c t, inAccount m c t l = true := by
  intro l hl
  have h := (mem_selectLots.1 hl).2
  simp [eligible] at h
  simp [inAccount, h]

theorem rowsSum_selectLots (db : Db) (m c : String) (t : Int) :
    rowsSum (selectLots db m c t) = eligibleSum db m c t := by
  unfold rowsSum eligibleSum
  exact ((selectLots_perm db m c t).map _).sum_eq

theorem selectLots_nodup (db : Db) (m c : String) (t : Int)
    (hpk : (db.point_lots.map Lot.lot_id).Nodup) :
    ((selectLots db m c t).map Lot.lot_id).Nodup := by
  have h1 : ((db.point_lots.filter (eligible m c t)).map Lot.lot_id).Nodup :=
    List.Nodup.sublist ((List.filter_sublist _).map _) hpk
  exact (((selectLots_perm db m c t).map Lot.lot_id).nodup_iff).2 h1

theorem eligibleSum_nonneg (db : Db) (m c : String) (t : Int) : 0 ≤ eligibleSum db m c t := by
  rw [← rowsSum_selectLots]
  exact rowsSum_nonneg _ (selectLots_pos db m c t)

theorem getBalance_eq_weight (db : Db) (m c : String) (t : Int) :
    getBalance db m c t = (db.point_lots.map (weight m c t)).sum := by
  unfold getBalance
  induction db.point_lots with
  | nil => simp
  | cons l rest ih =>
    by_cases h1 : l.merchant_id = m <;> by_cases h2 : l.customer_id = c <;>
      by_cases h3 : l.points_remaining = 0 <;> cases h4 : notExpired t l <;>
      simp [List.filter_cons, balanceRow, weight, inAccount, h1, h2, h3, h4, ih]

theorem updateLot_ids (tbl : List Lot) (id : String) (k : Int) :
    (updateLot tbl id k).map Lot.lot_id = tbl.map Lot.lot_id := by
  unfold updateLot
  rw [List.map_map]
  apply List.map_congr_left
  intro l _
  by_cases h : l.lot_id = id <;> simp [h]

theorem updateLot_of_not_mem (tbl : List Lot) (id : String) (k : Int)
    (h : id ∉ tbl.map Lot.lot_id) : updateLot tbl id k = tbl := by
  unfold updateLot
  conv_rhs => rw [← List.map_id tbl]
  apply List.map_congr_left
  intro l hl
  have : l.lot_id ≠ id := fun e => h (by rw [← e]; exact List.mem_map_of_mem _ hl)
  simp [this]

theorem weight_sum_updateLot (m c : String) (t : Int) (tbl : List Lot)
    (hnd : (tbl.map Lot.lot_id).Nodup) (id : String) (k : Int)
    (h : ∃ l ∈ tbl, l.lot_id = id ∧ inAccount m c t l = true) :
    ((updateLot tbl id k).map (weight m c t)).sum = (tbl.map (weight m c t)).sum - k := by
  induction tbl with
  | nil => simp at h
  | cons x xs ih =>
    simp only [List.map_cons, List.nodup_cons] at hnd
    by_cases hx : x.lot_id = id
    · have hnot : id ∉ xs.map Lot.lot_id := by rw [← hx]; exact hnd.1
      have hxs := updateLot_of_not_mem xs id k hnot
      have hacc : inAccount m c t x = true := by
        obtain ⟨l, hl, hid, hin⟩ := h
        rcases List.mem_cons.1 hl with e | e
        · rw [← e]; exact hin
        · exact absurd (by rw [← hid]; exact List.mem_map_of_mem _ e) hnot
      have e1 : updateLot (x :: xs) id k = x.minus k :: updateLot xs id k := by
        simp [updateLot, hx, Lot.minus]
      have hacc2 : inAccount m c t (x.minus k) = true := by
        simpa [inAccount, Lot.minus, notExpired] using hacc
      have w1 : weight m c t x = x.points_remaining := by simp only [weight, hacc, if_true]
      have w2 : weight m c t (x.minus k) = x.points_remaining - k := by
        simp only [weight, hacc2, if_true]; rfl
      rw [e1, hxs]
      simp only [List.map_cons, List.sum_cons, w1, w2]
      ring
    · have e1 : updateLot (x :: xs) id k = x :: updateLot xs id k := by
        simp [updateLot, hx]
      have h2 : ∃ l ∈ xs, l.lot_id = id ∧ inAccount m c t l = true := by
        obtain ⟨l, hl, hid, hin⟩ := h
        rcases List.mem_cons.1 hl with e | e
        · exact absurd (by rw [← e]; exact hid) hx
        · exact ⟨l, e, hid, hin⟩
      rw [e1]
      simp only [List.map_cons, List.sum_cons, ih hnd.2 h2]
      ring

theorem updateLot_keeps (m c : String) (t : Int) (tbl : List Lot) (id id2 : String) (k : Int)
    (h : ∃ l ∈ tbl, l.lot_id = id2 ∧ inAccount m c t l = true) :
    ∃ l ∈ updateLot tbl id k, l.lot_id = id2 ∧ inAccount m c t l = true := by
  obtain ⟨l, hl, hid, hin⟩ := h
  by_cases hx : l.lot_id = id
  · refine ⟨l.minus k, ?_, ?_, ?_⟩
    · unfold updateLot
      exact List.mem_map.2 ⟨l, hl, by simp [hx, Lot.minus]⟩
    · simpa [Lot.minus] using hid
    · simpa [inAccount, Lot.minus, notExpired] using hin
  · refine ⟨l, ?_, hid, hin⟩
    unfold updateLot
    exact List.mem_map.2 ⟨l, hl, by simp [hx]⟩

theorem weight_sum_applyTakes (m c : String) (t : Int) (us : List Used) (tbl : List Lot)
    (hnd : (tbl.map Lot.lot_id).Nodup)
    (hus : ∀ u ∈ us, ∃ l ∈ tbl, l.lot_id = u.lot_id ∧ inAccount m c t l = true) :
    ((applyTakes tbl us).map (weight m c t)).sum =
      (tbl.map (weight m c t)).sum - usedSum us := by
  induction us generalizing tbl with
  | nil => simp [applyTakes, usedSum]
  | cons u us ih =>
    have e : applyTakes tbl (u :: us) = applyTakes (updateLot tbl u.lot_id u.used) us := rfl
    rw [e, ih (updateLot tbl u.lot_id u.used) (by rw [updateLot_ids]; exact hnd)
      (fun v hv => updateLot_keeps m c t tbl _ _ _ (hus v (by simp [hv]))),
      weight_sum_updateLot m c t tbl hnd _ _ (hus u (by simp))]
    simp only [usedSum, List.map_cons, List.sum_cons]
    ring

theorem takes_selectLots_inAccount (db : Db) (m c : String) (t n : Int) :
    ∀ u ∈ takes (selectLots db m c t) n,
      ∃ l ∈ db.point_lots, l.lot_id = u.lot_id ∧ inAccount m c t l = true := by
  intro u hu
  obtain ⟨l, hl, hid, _⟩ := takes_mem _ (selectLots_pos db m c t) n u hu
  exact ⟨l, (mem_selectLots.1 hl).1, hid, selectLots_inAccount db m c t l hl⟩

theorem usedFor_eq_zero (us : List Used) (id : String) (h : id ∉ us.map Used.lot_id) :
    usedFor us id = 0 := by
  induction us with
  | nil => simp [usedFor, usedSum]
  | cons u us ih =>
    simp only [List.map_cons, List.mem_cons, not_or] at h
    have e : ¬ u.lot_id = id := fun e => h.1 e.symm
    have := ih h.2
    simp only [usedFor, usedSum] at this ⊢
    simp [List.filter_cons, e, this]

theorem usedFor_of_nodup (us : List Used) (hnd : (us.map Used.lot_id).Nodup) :
    ∀ u ∈ us, usedFor us u.lot_id = u.used := by
  induction us with
  | nil => simp
  | cons v us ih =>
    simp only [List.map_cons, List.nodup_cons] at hnd
    intro u hu
    rcases List.mem_cons.1 hu with e | e
    · subst e
      have := usedFor_eq_zero us u.lot_id hnd.1
      simp only [usedFor, usedSum] at this ⊢
      simp [List.filter_cons, this]
    · have hne : ¬ v.lot_id = u.lot_id := fun h =>
        hnd.1 (by rw [h]; exact List.mem_map_of_mem _ e)
      have := ih hnd.2 u e
      simp only [usedFor, usedSum] at this ⊢
      simp [List.filter_cons, hne, this]

theorem insertConsumptions_ok (rid : String) (us : List Used) (db : Db)
    (hnd : (us.map Used.lot_id).Nodup)
    (hnew : ∀ u ∈ us, (rid, u.lot_id) ∉
      db.redemption_consumptions.map (fun c => (c.redemption_id, c.lot_id))) :
    insertConsumptions rid us db =
      ({ db with redemption_consumptions :=
          db.redemption_consumptions ++ consumptionRows rid us }, Except.ok ()) := by
  unfold consumptionRows
  induction us generalizing db with
  | nil => simp [insertConsumptions]
  | cons u us ih =>
    simp only [List.map_cons, List.nodup_cons] at hnd
    have h0 := hnew u (by simp)
    simp only [insertConsumptions, h0, if_false]
    rw [ih _ hnd.2]
    · simp
    · intro v hv
      have h1 := hnew v (by simp [hv])
      have hne : v.lot_id ≠ u.lot_id := fun h =>
        hnd.1 (by rw [← h]; exact List.mem_map_of_mem _ hv)
      simp only [List.map_append, List.map_cons, List.map_nil, List.mem_append, List.mem_singleton,
        Prod.mk.injEq, not_or, not_and]
      exact ⟨h1, fun _ => hne⟩

/-- The takes that `consumePointsFIFO` and `removePoints` make in `db`. -/
theorem takes_select_facts (db : Db) (m c : String) (n t : Int)
    (hpk : (db.point_lots.map Lot.lot_id).Nodup) :
    ((takes (selectLots db m c t) n).map Used.lot_id).Nodup ∧
    (∀ u ∈ takes (selectLots db m c t) n,
      usedFor (takes (selectLots db m c t) n) u.lot_id = u.used ∧
      ∃ l ∈ db.point_lots, eligible m c t l = true ∧ l.lot_id = u.lot_id ∧ 1 ≤ u.used ∧
        u.used ≤ l.points_remaining) := by
  have hnd : ((takes (selectLots db m c t) n).map Used.lot_id).Nodup :=
    List.Nodup.sublist (takes_ids_initial _ n).sublist (selectLots_nodup db m c t hpk)
  refine ⟨hnd, fun u hu => ⟨usedFor_of_nodup _ hnd u hu, ?_⟩⟩
  obtain ⟨l, hl, h⟩ := takes_mem _ (selectLots_pos db m c t) n u hu
  exact ⟨l, (mem_selectLots.1 hl).1, (mem_selectLots.1 hl).2, h⟩

/-- Asking for more than the eligible points leaves a positive remainder. -/
theorem remainder_pos (db : Db) (m c : String) (n t : Int) (h : eligibleSum db m c t < n) :
    0 < n - usedSum (takes (selectLots db m c t) n) := by
  have h0 := eligibleSum_nonneg db m c t
  have hs := takes_sum _ (selectLots_pos db m c t) n (by omega)
  rw [rowsSum_selectLots] at hs
  rw [hs]; omega

/-- The transaction around `consumePointsFIFO` undoes a failed consumption. -/
theorem transaction_consume_short (db : Db) (m c rid : String) (n t : Int)
    (h : eligibleSum db m c t < n) :
    transaction (consumePointsFIFO m c n rid t) db =
      (db, Except.error Exn.insufficient_points) := by
  have hrem := remainder_pos db m c n t h
  simp only [transaction, consumePointsFIFO, consumeLoop_eq, hrem, if_true]

/-- The raw `consumePointsFIFO` on success (what its transaction commits). -/
theorem consumePointsFIFO_ok (db : Db) (m c rid : String) (n t : Int)
    (hpk : (db.point_lots.map Lot.lot_id).Nodup) (hrid : rid ≠ "")
    (hnew : ∀ x ∈ db.redemption_consumptions, x.redemption_id ≠ rid)
    (h2 : n ≤ eligibleSum db m c t) :
    consumePointsFIFO m c n rid t db =
      ({ db with
          point_lots := lotsAfter db.point_lots (takes (selectLots db m c t) n),
          redemption_consumptions :=
            db.redemption_consumptions ++ consumptionRows rid (takes (selectLots db m c t) n) },
        Except.ok (takes (selectLots db m c t) n)) := by
  have hrem : ¬ 0 < n - usedSum (takes (selectLots db m c t) n) := by
    by_cases hn : 0 ≤ n
    · have hs := takes_sum _ (selectLots_pos db m c t) n hn
      rw [rowsSum_selectLots] at hs
      rw [hs]; omega
    · rw [takes_nonpos _ n (by omega)]
      simp only [usedSum, List.map_nil, List.sum_nil]; omega
  have hf := takes_select_facts db m c n t hpk
  simp only [consumePointsFIFO, consumeLoop_eq, hrem, if_false, hrid, ne_eq, not_false_eq_true,
    if_true, List.nil_append]
  rw [insertConsumptions_ok rid _ _ hf.1]
  · simp only [applyTakes_eq_map, lotsAfter]
  · intro u _ hmem
    simp only [List.mem_map, Prod.mk.injEq] at hmem
    obtain ⟨x, hx, hx1, _⟩ := hmem
    exact hnew x hx hx1

/-- C2. With the primary key of `point_lots` respected, a redemption id that
has no consumption record yet, and `1 ≤ points_needed ≤` the eligible points,
`consumePointsFIFO` in its transaction succeeds: the returned pairs have
pairwise distinct lot ids, each `used` lies between 1 and that lot's previous
`points_remaining`, the `used` values add up to `points_needed`, every lot
loses exactly what its pair says (a lot without a pair is unchanged), one
consumption record is appended per pair, and the balance drops by
`points_needed`. -/
theorem consumeFIFO_success (db : Db) (m c rid : String) (n t : Int)
    (hpk : (db.point_lots.map Lot.lot_id).Nodup) (hrid : rid ≠ "")
    (hnew : ∀ x ∈ db.redemption_consumptions, x.redemption_id ≠ rid)
    (h1 : 1 ≤ n) (h2 : n ≤ eligibleSum db m c t) :
    ∃ used : List Used,
      transaction (consumePointsFIFO m c n rid t) db =
        ({ db with
            point_lots := lotsAfter db.point_lots used,
            redemption_consumptions := db.redemption_consumptions ++ consumptionRows rid used },
          Except.ok used) ∧
      (used.map Used.lot_id).Nodup ∧
      (∀ u ∈ used, ∃ l ∈ db.point_lots, l.lot_id = u.lot_id ∧ 1 ≤ u.used ∧
        u.used ≤ l.points_remaining ∧ usedFor used l.lot_id = u.used) ∧
      (∀ l ∈ db.point_lots, l.lot_id ∉ used.map Used.lot_id →
        l.minus (usedFor used l.lot_id) = l) ∧
      usedSum used = n ∧
      getBalance (transaction (consumePointsFIFO m c n rid t) db).1 m c t =
        getBalance db m c t - n := by
  have hok := consumePointsFIFO_ok db m c rid n t hpk hrid hnew h2
  have hf := takes_select_facts db m c n t hpk
  have hs := takes_sum _ (selectLots_pos db m c t) n (by omega)
  rw [rowsSum_selectLots, min_eq_left h2] at hs
  have htx : transaction (consumePointsFIFO m c n rid t) db =
      ({ db with
          point_lots := lotsAfter db.point_lots (takes (selectLots db m c t) n),
          redemption_consumptions :=
            db.redemption_consumptions ++ consumptionRows rid (takes (selectLots db m c t) n) },
        Except.ok (takes (selectLots db m c t) n)) := by
    simp only [transaction, hok]
  refine ⟨takes (selectLots db m c t) n, htx, hf.1, ?_, ?_, hs, ?_⟩
  · intro u hu
    obtain ⟨h3, l, hl, _, hid, h4, h5⟩ := hf.2 u hu
    exact ⟨l, hl, hid, h4, h5, by rw [hid]; exact h3⟩
  · intro l _ hid
    rw [usedFor_eq_zero _ _ hid, Lot.minus_zero]
  · rw [htx]
    simp only [getBalance_eq_weight, lotsAfter, ← applyTakes_eq_map]
    rw [weight_sum_applyTakes m c t _ _ hpk (takes_selectLots_inAccount db m c t n), hs]

/-! ## Order of consumption -/

theorem fifoLt_irrefl (a : Lot) : ¬ fifoLt a a := by
  cases h : a.expires_at <;> simp [fifoLt, nullRank, expLt, h]

theorem fifoLe_total (a b : Lot) : fifoLe a b ∨ fifoLe b a := by
  unfold fifoLe fifoLt
  cases ha : a.expires_at <;> cases hb : b.expires_at <;>
    simp [nullRank, expLt, ha, hb] <;> omega

theorem fifoLe_trans (a b c : Lot) (h1 : fifoLe a b) (h2 : fifoLe b c) : fifoLe a c := by
  unfold fifoLe fifoLt at *
  cases ha : a.expires_at <;> cases hb : b.expires_at <;> cases hc : c.expires_at <;>
    simp [nullRank, expLt, ha, hb, hc] at h1 h2 ⊢ <;> omega

theorem selectLots_sorted (db : Db) (m c : String) (t : Int) :
    (selectLots db m c t).Sorted fifoLe := by
  haveI : IsTotal Lot fifoLe := ⟨fifoLe_total⟩
  haveI : IsTrans Lot fifoLe := ⟨fifoLe_trans⟩
  exact List.sorted_insertionSort fifoLe _

theorem insertConsumptions_lots (rid : String) (us : List Used) (db : Db) :
    (insertConsumptions rid us db).1.point_lots = db.point_lots := by
  induction us generalizing db with
  | nil => simp [insertConsumptions]
  | cons u us ih =>
    simp only [insertConsumptions]
    split
    · rfl
    · rw [ih]

/-- What a successful `consumePointsFIFO` returned and did to the lots. -/
theorem consume_ok_shape (db db2 : Db) (m c rid : String) (n t : Int) (used : List Used)
    (hok : transaction (consumePointsFIFO m c n rid t) db = (db2, Except.ok used)) :
    used = takes (selectLots db m c t) n ∧ db2.point_lots = lotsAfter db.point_lots used ∧
      n - usedSum used ≤ 0 := by
  simp only [transaction, consumePointsFIFO, consumeLoop_eq, List.nil_append] at hok
  by_cases hrem : 0 < n - usedSum (takes (selectLots db m c t) n)
  · simp [hrem] at hok
  · simp only [hrem, if_false] at hok
    by_cases hrid : rid = ""
    · simp only [hrid, ne_eq, not_true_eq_false, if_false, Prod.mk.injEq,
        Except.ok.injEq] at hok
      obtain ⟨h1, h2⟩ := hok
      subst h2
      refine ⟨rfl, ?_, by omega⟩
      rw [← h1]
      simp only [lotsAfter, applyTakes_eq_map]
    · simp only [hrid, ne_eq, not_false_eq_true, if_true] at hok
      have hl := insertConsumptions_lots rid (takes (selectLots db m c t) n)
        { db with point_lots := applyTakes db.point_lots (takes (selectLots db m c t) n) }
      revert hok hl
      generalize insertConsumptions rid (takes (selectLots db m c t) n)
        { db with point_lots := applyTakes db.point_lots (takes (selectLots db m c t) n) } = res
      intro hok hl
      rcases res with ⟨d, (e | _)⟩
      · simp at hok
      · simp only [Prod.mk.injEq, Except.ok.injEq] at hok
        obtain ⟨h1, h2⟩ := hok
        subst h2
        refine ⟨rfl, ?_, by omega⟩
        rw [← h1]
        simp only at hl
        rw [hl]
        simp only [lotsAfter, applyTakes_eq_map]

theorem eq_of_same_id (tbl : List Lot) (hpk : (tbl.map Lot.lot_id).Nodup) (a b : Lot)
    (ha : a ∈ tbl) (hb : b ∈ tbl) (h : a.lot_id = b.lot_id) : a = b :=
  List.inj_on_of_nodup_map hpk ha hb h

theorem takes_ids_subset (rows : List Lot) (r : Int) (id : String)
    (h : id ∈ (takes rows r).map Used.lot_id) : id ∈ rows.map Lot.lot_id :=
  (takes_ids_initial rows r).subset h

/-- When the loop reaches row `l`, every row before it was emptied. -/
theorem takes_greedy (A B : List Lot) (l : Lot) (r : Int)
    (hpos : ∀ x ∈ A, 0 < x.points_remaining)
    (hl : l.lot_id ∈ (takes (A ++ l :: B) r).map Used.lot_id)
    (hnd : l.lot_id ∉ A.map Lot.lot_id) :
    takes (A ++ l :: B) r =
      (A.map fun x => ⟨x.lot_id, x.points_remaining⟩) ++ takes (l :: B) (r - rowsSum A) := by
  rw [takes_append] at hl ⊢
  have hr : 0 ≤ r := by
    by_contra hneg
    rw [takes_nonpos A r (by omega)] at hl
    rw [takes_nonpos (l :: B) _ (by simp only [usedSum, List.map_nil, List.sum_nil]; omega)] at hl
    simp at hl
  have hin : l.lot_id ∈ (takes (l :: B) (r - usedSum (takes A r))).map Used.lot_id := by
    simp only [List.map_append, List.mem_append] at hl
    rcases hl with h | h
    · exact absurd (takes_ids_subset A r _ h) hnd
    · exact h
  have hpos2 : 0 < r - usedSum (takes A r) := by
    by_contra hle
    rw [takes_nonpos _ _ (by omega)] at hin
    simp at hin
  have hs := takes_sum A hpos r hr
  have hfull := takes_full A hpos r (by omega)
  have hsum : usedSum (takes A r) = rowsSum A := by rw [hs]; omega
  rw [hsum, hfull]

theorem usedFor_append (us vs : List Used) (id : String) :
    usedFor (us ++ vs) id = usedFor us id + usedFor vs id := by
  simp [usedFor, usedSum, List.filter_append]

theorem usedFor_full (A : List Lot) (hnd : (A.map Lot.lot_id).Nodup) (p : Lot) (hp : p ∈ A) :
    usedFor (A.map fun x => ⟨x.lot_id, x.points_remaining⟩) p.lot_id = p.points_remaining := by
  have h1 : ((A.map fun x => (⟨x.lot_id, x.points_remaining⟩ : Used)).map Used.lot_id).Nodup := by
    rw [List.map_map]; exact hnd
  have h2 : (⟨p.lot_id, p.points_remaining⟩ : Used) ∈
      A.map fun x => (⟨x.lot_id, x.points_remaining⟩ : Used) :=
    List.mem_map.2 ⟨p, hp, rfl⟩
  exact usedFor_of_nodup _ h1 _ h2

theorem takes_dropLast_full (rows : List Lot) (hpos : ∀ x ∈ rows, 0 < x.points_remaining)
    (r : Int) :
    ∀ u ∈ (takes rows r).dropLast, ∃ l ∈ rows, l.lot_id = u.lot_id ∧
      u.used = l.points_remaining := by
  induction rows generalizing r with
  | nil => simp [takes]
  | cons l rest ih =>
    have h1 := hpos l (by simp)
    have hrest : ∀ x ∈ rest, 0 < x.points_remaining := fun x hx => hpos x (by simp [hx])
    intro u hu
    by_cases h : r ≤ 0
    · simp [takes, h] at hu
    · simp only [takes, h, if_false] at hu
      cases hL : takes rest (r - min l.points_remaining r) with
      | nil => simp [hL] at hu
      | cons v vs =>
        rw [hL, List.dropLast_cons₂] at hu
        rcases List.mem_cons.1 hu with e | e
        · have hpos2 : 0 < r - min l.points_remaining r := by
            by_contra hle
            rw [takes_nonpos _ _ (by omega)] at hL
            simp at hL
          subst e
          exact ⟨l, by simp, rfl, by simp only; omega⟩
        · rw [← hL] at e
          obtain ⟨x, hx, hx2⟩ := ih hrest _ u e
          exact ⟨x, by simp [hx], hx2⟩

theorem lotsAfter_ids (tbl : List Lot) (us : List Used) :
    (lotsAfter tbl us).map Lot.lot_id = tbl.map Lot.lot_id := by
  unfold lotsAfter
  rw [List.map_map]
  apply List.map_congr_left
  intro l _
  rfl

theorem fifoLt_iff (p l : Lot) :
    fifoLt p l ↔
      (p.expires_at ≠ none ∧ l.expires_at = none) ∨
      (∃ a b, p.expires_at = some a ∧ l.expires_at = some b ∧ a < b) ∨
      (p.expires_at = l.expires_at ∧ p.created_at < l.created_at) := by
  unfold fifoLt
  cases hp : p.expires_at <;> cases hl : l.expires_at <;> simp [nullRank, expLt, hp, hl]

/-- Every eligible row that strictly precedes a row the loop drew from ends at 0. -/
theorem emptied_before (db db2 : Db) (m c rid : String) (n t : Int) (used : List Used)
    (hpk : (db.point_lots.map Lot.lot_id).Nodup)
    (hok : transaction (consumePointsFIFO m c n rid t) db = (db2, Except.ok used))
    (l : Lot) (hl : l ∈ db.point_lots) (hu : l.lot_id ∈ used.map Used.lot_id)
    (p : Lot) (hp : p ∈ db.point_lots) (hpe : eligible m c t p = true) (hlt : fifoLt p l) :
    { p with points_remaining := 0 } ∈ db2.point_lots := by
  obtain ⟨hused, hlots, _⟩ := consume_ok_shape db db2 m c rid n t used hok
  have hsel_nd := selectLots_nodup db m c t hpk
  -- `l` is one of the selected rows
  have hlsel : l ∈ selectLots db m c t := by
    rw [hused] at hu
    have h1 := takes_ids_subset _ _ _ hu
    obtain ⟨x, hx, hxid⟩ := List.mem_map.1 h1
    have : x = l := eq_of_same_id _ hpk x l (mem_selectLots.1 hx).1 hl hxid
    rw [← this]; exact hx
  have hpsel : p ∈ selectLots db m c t := mem_selectLots.2 ⟨hp, hpe⟩
  obtain ⟨A, B, hAB⟩ := List.append_of_mem hlsel
  have hsorted := selectLots_sorted db m c t
  rw [hAB] at hsorted hsel_nd hpsel
  have hpA : p ∈ A := by
    rcases List.mem_append.1 hpsel with h | h
    · exact h
    · rcases List.mem_cons.1 h with e | e
      · exact absurd (e ▸ hlt) (fifoLt_irrefl l)
      · have h2 := (List.pairwise_append.1 hsorted).2.1
        have h3 := (List.pairwise_cons.1 h2).1 p e
        exact absurd hlt h3
  have hposA : ∀ x ∈ A, 0 < x.points_remaining := fun x hx =>
    selectLots_pos db m c t x (by rw [hAB]; simp [hx])
  simp only [List.map_append, List.map_cons] at hsel_nd
  have hndA : (A.map Lot.lot_id).Nodup := (List.nodup_append.1 hsel_nd).1
  have hdisj := (List.nodup_append.1 hsel_nd).2.2
  have hlA : l.lot_id ∉ A.map Lot.lot_id := fun h => hdisj h (by simp)
  have hg := takes_greedy A B l n hposA (by rw [← hAB, ← hused]; exact hu) hlA
  have hfor : usedFor used p.lot_id = p.points_remaining := by
    rw [hused, hAB, hg, usedFor_append, usedFor_full A hndA p hpA]
    have : p.lot_id ∉ (takes (l :: B) (n - rowsSum A)).map Used.lot_id := fun h =>
      hdisj (List.mem_map_of_mem _ hpA) (takes_ids_subset _ _ _ h)
    rw [usedFor_eq_zero _ _ this]
    ring
  rw [hlots]
  unfold lotsAfter
  refine List.mem_map.2 ⟨p, hp, ?_⟩
  rw [hfor]
  simp [Lot.minus]

/-- C3. The order of consumption is: lots with an `expires_at` before lots
without, then ascending `expires_at`, then ascending `created_at`; and after a
successful `consumePointsFIFO`, for every lot that had points taken, every
eligible lot strictly before it in that order is left with 0 points.  So no
lot without expiry is drawn from while an eligible expiring lot keeps points,
and every returned pair but the last emptied its lot. -/
theorem consumeFIFO_order (db db2 : Db) (m c rid : String) (n t : Int) (used : List Used)
    (hpk : (db.point_lots.map Lot.lot_id).Nodup)
    (hok : transaction (consumePointsFIFO m c n rid t) db = (db2, Except.ok used)) :
    (∀ p l : Lot, fifoLt p l ↔
      (p.expires_at ≠ none ∧ l.expires_at = none) ∨
      (∃ a b, p.expires_at = some a ∧ l.expires_at = some b ∧ a < b) ∨
      (p.expires_at = l.expires_at ∧ p.created_at < l.created_at)) ∧
    (∀ l ∈ db.point_lots, l.lot_id ∈ used.map Used.lot_id →
      ∀ p ∈ db.point_lots, eligible m c t p = true → fifoLt p l →
        { p with points_remaining := 0 } ∈ db2.point_lots) ∧
    (∀ l ∈ db.point_lots, l.lot_id ∈ used.map Used.lot_id → l.expires_at = none →
      ∀ p ∈ db.point_lots, eligible m c t p = true → p.expires_at ≠ none →
        { p with points_remaining := 0 } ∈ db2.point_lots) ∧
    (∀ u ∈ used.dropLast, ∃ l ∈ db.point_lots, l.lot_id = u.lot_id ∧
      { l with points_remaining := 0 } ∈ db2.point_lots) ∧
    db2.point_lots.map Lot.lot_id = db.point_lots.map Lot.lot_id := by
  obtain ⟨hused, hlots, _⟩ := consume_ok_shape db db2 m c rid n t used hok
  refine ⟨fifoLt_iff, ?_, ?_, ?_, ?_⟩
  · intro l hl hu p hp hpe hlt
    exact emptied_before db db2 m c rid n t used hpk hok l hl hu p hp hpe hlt
  · intro l hl hu hnone p hp hpe hsome
    exact emptied_before db db2 m c rid n t used hpk hok l hl hu p hp hpe
      ((fifoLt_iff p l).2 (Or.inl ⟨hsome, hnone⟩))
  · intro u hu
    rw [hused] at hu
    obtain ⟨l, hl, hid, hfull⟩ := takes_dropLast_full _ (selectLots_pos db m c t) n u hu
    have hmem : u ∈ takes (selectLots db m c t) n := List.dropLast_subset _ hu
    have hf := (takes_select_facts db m c n t hpk).2 u hmem
    refine ⟨l, (mem_selectLots.1 hl).1, hid, ?_⟩
    rw [hlots]
    unfold lotsAfter
    refine List.mem_map.2 ⟨l, (mem_selectLots.1 hl).1, ?_⟩
    have e : usedFor used l.lot_id = l.points_remaining := by rw [hused, hid, hf.1, hfull]
    rw [e]
    simp [Lot.minus]
  · rw [hlots, lotsAfter_ids]

/-! ## Removing points -/

theorem applyTakes_ids (tbl : List Lot) (us : List Used) :
    (applyTakes tbl us).map Lot.lot_id = tbl.map Lot.lot_id := by
  rw [applyTakes_eq_map]
  exact lotsAfter_ids tbl us

/-- When everything eligible is taken, the table is the old one with the
eligible rows at 0. -/
theorem applyTakes_all (db : Db) (m c : String) (n t : Int)
    (hpk : (db.point_lots.map Lot.lot_id).Nodup) (h : eligibleSum db m c t ≤ n) :
    applyTakes db.point_lots (takes (selectLots db m c t) n) =
      db.point_lots.map fun l =>
        if eligible m c t l = true then { l with points_remaining := 0 } else l := by
  rw [takes_full _ (selectLots_pos db m c t) n (by rw [rowsSum_selectLots]; exact h),
    applyTakes_eq_map]
  apply List.map_congr_left
  intro l hl
  by_cases he : eligible m c t l = true
  · rw [usedFor_full _ (selectLots_nodup db m c t hpk) l (mem_selectLots.2 ⟨hl, he⟩)]
    simp [he, Lot.minus]
  · have hnot : l.lot_id ∉
        ((selectLots db m c t).map fun x => (⟨x.lot_id, x.points_remaining⟩ : Used)).map
          Used.lot_id := by
      rw [List.map_map]
      intro hmem
      obtain ⟨x, hx, hxid⟩ := List.mem_map.1 hmem
      have hxl : x = l := eq_of_same_id _ hpk x l (mem_selectLots.1 hx).1 hl hxid
      rw [hxl] at hx
      exact he (mem_selectLots.1 hx).2
    rw [usedFor_eq_zero _ _ hnot, Lot.minus_zero]
    simp [he]

/-- What `removePoints` returns and does to the lots and the balance. -/
theorem removePoints_facts (db : Db) (m c lot_id : String) (n t : Int)
    (hpk : (db.point_lots.map Lot.lot_id).Nodup)
    (hfresh : eligibleSum db m c t < n → lot_id ∉ db.point_lots.map Lot.lot_id) (hn : 0 ≤ n) :
    (removePoints m c n lot_id t db).2 = Except.ok () ∧
    getBalance (removePoints m c n lot_id t db).1 m c t = getBalance db m c t - n ∧
    ((removePoints m c n lot_id t db).1.point_lots.length = db.point_lots.length + 1 ↔
      eligibleSum db m c t < n) ∧
    (eligibleSum db m c t < n →
      (removePoints m c n lot_id t db).1.point_lots =
        (db.point_lots.map fun l =>
          if eligible m c t l = true then { l with points_remaining := 0 } else l) ++
        [⟨lot_id, m, c, -(n - eligibleSum db m c t), t, none, none,
          some "Debt from void (insufficient points)"⟩]) ∧
    (n ≤ eligibleSum db m c t →
      (removePoints m c n lot_id t db).1.point_lots.map Lot.lot_id =
        db.point_lots.map Lot.lot_id) := by
  have hs := takes_sum _ (selectLots_pos db m c t) n hn
  rw [rowsSum_selectLots] at hs
  have hbal := weight_sum_applyTakes m c t (takes (selectLots db m c t) n) db.point_lots hpk
    (takes_selectLots_inAccount db m c t n)
  have hids := applyTakes_ids db.point_lots (takes (selectLots db m c t) n)
  by_cases hlt : eligibleSum db m c t < n
  · have hrem : 0 < n - usedSum (takes (selectLots db m c t) n) := by rw [hs]; omega
    have hsum : usedSum (takes (selectLots db m c t) n) = eligibleSum db m c t := by
      rw [hs]; omega
    have hfresh2 : lot_id ∉
        (applyTakes db.point_lots (takes (selectLots db m c t) n)).map Lot.lot_id := by
      rw [hids]; exact hfresh hlt
    have e : removePoints m c n lot_id t db =
        ({ db with point_lots := applyTakes db.point_lots (takes (selectLots db m c t) n) ++
            [⟨lot_id, m, c, -(n - usedSum (takes (selectLots db m c t) n)), t, none, none,
              some "Debt from void (insufficient points)"⟩] }, Except.ok ()) := by
      simp only [removePoints, removeLoop_eq, hrem, if_true, insertLot, hfresh2, if_false]
    rw [e]
    refine ⟨rfl, ?_, ?_, ?_, ?_⟩
    · simp only [getBalance_eq_weight, List.map_append, List.sum_append, hbal, List.map_cons,
        List.map_nil, List.sum_cons, List.sum_nil]
      simp [weight, inAccount, notExpired]
    · simp only [List.length_append, List.length_singleton]
      have := congrArg List.length hids
      simp only [List.length_map] at this
      rw [this]
      simp [hlt]
    · intro _
      simp only
      rw [applyTakes_all db m c n t hpk (by omega), hsum]
    · intro h; omega
  · have hrem : ¬ 0 < n - usedSum (takes (selectLots db m c t) n) := by rw [hs]; omega
    have hsum : usedSum (takes (selectLots db m c t) n) = n := by rw [hs]; omega
    have e : removePoints m c n lot_id t db =
        ({ db with point_lots := applyTakes db.point_lots (takes (selectLots db m c t) n) },
          Except.ok ()) := by
      simp only [removePoints, removeLoop_eq, hrem, if_false]
    rw [e]
    refine ⟨rfl, ?_, ?_, ?_, ?_⟩
    · simp only [getBalance_eq_weight, hbal, hsum]
    · have := congrArg List.length hids
      simp only [List.length_map] at this
      simp only [this]
      constructor
      · intro h; omega
      · intro h; exact absurd h hlt
    · intro h; exact absurd h hlt
    · intro _; exact hids

/-! ## Sequences of lot-store calls -/

theorem notExpired_mono (l : Lot) (t T : Int) (h : t ≤ T) (hT : notExpired T l = true) :
    notExpired t l = true := by
  unfold notExpired at *
  cases he : l.expires_at with
  | none => rfl
  | some e =>
    simp only [he, decide_eq_true_eq] at hT ⊢
    omega

theorem getBalance_eq_rowsSum (db : Db) (m c : String) (T : Int)
    (h : ∀ l ∈ db.point_lots, l.merchant_id = m ∧ l.customer_id = c ∧ notExpired T l = true) :
    getBalance db m c T = rowsSum db.point_lots := by
  rw [getBalance_eq_weight, rowsSum]
  congr 1
  apply List.map_congr_left
  intro l hl
  obtain ⟨h1, h2, h3⟩ := h l hl
  simp [weight, inAccount, h1, h2, h3]

theorem balanceRow_iff (m c : String) (t : Int) (l : Lot) :
    balanceRow m c t l = true ↔ Counts m c t l := by
  unfold balanceRow Counts notExpired
  cases he : l.expires_at <;> simp [and_assoc]

theorem lotsAfter_owner (m c : String) (tbl : List Lot) (us : List Used)
    (h : ∀ l ∈ tbl, l.merchant_id = m ∧ l.customer_id = c) :
    ∀ l ∈ lotsAfter tbl us, l.merchant_id = m ∧ l.customer_id = c := by
  intro l hl
  obtain ⟨x, hx, e⟩ := List.mem_map.1 hl
  rw [← e]
  exact h x hx

theorem lotsAfter_persist (tbl : List Lot) (us : List Used) :
    ∀ l ∈ tbl, ∃ l2 ∈ lotsAfter tbl us, l2.expires_at = l.expires_at := by
  intro l hl
  exact ⟨l.minus (usedFor us l.lot_id), List.mem_map.2 ⟨l, hl, rfl⟩, rfl⟩

theorem removePoints_collision (db : Db) (m c lot_id : String) (n t : Int) (hn : 0 ≤ n)
    (hlt : eligibleSum db m c t < n) (hin : lot_id ∈ db.point_lots.map Lot.lot_id) :
    (removePoints m c n lot_id t db).2 = Except.error Exn.constraint := by
  have hs := takes_sum _ (selectLots_pos db m c t) n hn
  rw [rowsSum_selectLots] at hs
  have hrem : 0 < n - usedSum (takes (selectLots db m c t) n) := by rw [hs]; omega
  have hin2 : lot_id ∈
      (applyTakes db.point_lots (takes (selectLots db m c t) n)).map Lot.lot_id := by
    rw [applyTakes_ids]; exact hin
  simp only [removePoints, removeLoop_eq, hrem, if_true, insertLot, hin2]

theorem removePoints_lots (db : Db) (m c lot_id : String) (n t : Int) :
    ∃ extra : List Lot,
      (removePoints m c n lot_id t db).1.point_lots =
        lotsAfter db.point_lots (takes (selectLots db m c t) n) ++ extra ∧
      ∀ l ∈ extra, l.merchant_id = m ∧ l.customer_id = c := by
  simp only [removePoints, removeLoop_eq, insertLot]
  split
  · split
    · exact ⟨[], by simp [lotsAfter, applyTakes_eq_map], by simp⟩
    · refine ⟨[⟨lot_id, m, c, -(n - usedSum (takes (selectLots db m c t) n)), t, none, none,
        some "Debt from void (insufficient points)"⟩], ?_, ?_⟩
      · simp [lotsAfter, applyTakes_eq_map]
      · simp
  · exact ⟨[], by simp [lotsAfter, applyTakes_eq_map], by simp⟩

/-- One call that returned keeps the store well formed, keeps every lot (with
its expiry), and moves the total by the call's delta. -/
theorem callLot_step (m c : String) (db0 db1 : Db) (k : LotCall) (h0 : OwnedBy m c db0)
    (hk : k.nonneg) (hcall : callLot m c db0 k = some db1) :
    OwnedBy m c db1 ∧
    (∀ l ∈ db0.point_lots, ∃ l2 ∈ db1.point_lots, l2.expires_at = l.expires_at) ∧
    ((∀ l ∈ db1.point_lots, notExpired k.time l = true) →
      rowsSum db1.point_lots = rowsSum db0.point_lots + k.delta) := by
  obtain ⟨hpk, hown⟩ := h0
  cases k with
  | addLot p e s nt id t =>
    simp only [callLot, addEarnLot, insertLot] at hcall
    by_cases hid : id ∈ db0.point_lots.map Lot.lot_id
    · simp [hid] at hcall
    · simp only [hid, if_false, Option.some.injEq] at hcall
      subst hcall
      refine ⟨⟨?_, ?_⟩, ?_, ?_⟩
      · simp only [List.map_append, List.map_cons, List.map_nil]
        exact List.Nodup.append hpk (by simp) (by simpa using hid)
      · intro l hl
        rcases List.mem_append.1 hl with h | h
        · exact hown l h
        · simp only [List.mem_singleton] at h
          subst h
          exact ⟨rfl, rfl⟩
      · intro l hl
        exact ⟨l, List.mem_append.2 (Or.inl hl), rfl⟩
      · intro _
        simp [rowsSum, LotCall.delta]
  | consumeFIFO n rid t =>
    simp only [LotCall.nonneg] at hk
    simp only [callLot] at hcall
    cases hres : transaction (consumePointsFIFO m c n rid t) db0 with
    | mk d r =>
      rw [hres] at hcall
      cases r with
      | error e => simp at hcall
      | ok used =>
        simp only [Option.some.injEq] at hcall
        subst hcall
        obtain ⟨hused, hlots, hrem⟩ := consume_ok_shape db0 d m c rid n t used hres
        refine ⟨⟨?_, ?_⟩, ?_, ?_⟩
        · rw [hlots, lotsAfter_ids]; exact hpk
        · rw [hlots]; exact lotsAfter_owner m c _ _ hown
        · rw [hlots]; exact lotsAfter_persist _ _
        · intro hlive
          have hs := takes_sum _ (selectLots_pos db0 m c t) n hk
          have hsum : usedSum used = n := by rw [hused] at hrem ⊢; omega
          have hlive0 : ∀ l ∈ db0.point_lots, notExpired t l = true := by
            intro l hl
            obtain ⟨l2, hl2, e⟩ := lotsAfter_persist db0.point_lots used l hl
            have := hlive l2 (by rw [hlots]; exact hl2)
            simpa [notExpired, e] using this
          have hb0 := getBalance_eq_rowsSum db0 m c t
            (fun l hl => ⟨(hown l hl).1, (hown l hl).2, hlive0 l hl⟩)
          have hb1 := getBalance_eq_rowsSum d m c t (fun l hl =>
            ⟨(lotsAfter_owner m c _ used hown l (by rw [← hlots]; exact hl)).1,
              (lotsAfter_owner m c _ used hown l (by rw [← hlots]; exact hl)).2, hlive l hl⟩)
          have hbal : getBalance d m c t = getBalance db0 m c t - usedSum used := by
            simp only [getBalance_eq_weight, hlots, lotsAfter, ← applyTakes_eq_map]
            rw [hused]
            exact weight_sum_applyTakes m c t _ _ hpk (takes_selectLots_inAccount db0 m c t n)
          simp only [LotCall.delta]
          rw [← hb1, ← hb0, hbal, hsum]
          ring
  | removePoints n id t =>
    simp only [LotCall.nonneg] at hk
    simp only [callLot] at hcall
    have hfresh : eligibleSum db0 m c t < n → id ∉ db0.point_lots.map Lot.lot_id := by
      intro hlt hin
      have := removePoints_collision db0 m c id n t hk hlt hin
      cases hres : removePoints m c n id t db0 with
      | mk d r =>
        rw [hres] at hcall this
        simp only at this
        subst this
        simp at hcall
    obtain ⟨hok, hbal, _, hdebt, hsame⟩ := removePoints_facts db0 m c id n t hpk hfresh hk
    obtain ⟨extra, hshape, hextra⟩ := removePoints_lots db0 m c id n t
    cases hres : removePoints m c n id t db0 with
    | mk d r =>
      rw [hres] at hcall hok hbal hdebt hsame hshape
      simp only at hok hbal hdebt hsame hshape
      subst hok
      simp only [Option.some.injEq] at hcall
      subst hcall
      have hown1 : ∀ l ∈ d.point_lots, l.merchant_id = m ∧ l.customer_id = c := by
        intro l hl
        rw [hshape] at hl
        rcases List.mem_append.1 hl with h | h
        · exact lotsAfter_owner m c _ _ hown l h
        · exact hextra l h
      have hpers : ∀ l ∈ db0.point_lots, ∃ l2 ∈ d.point_lots, l2.expires_at = l.expires_at := by
        intro l hl
        obtain ⟨l2, hl2, e⟩ := lotsAfter_persist db0.point_lots
          (takes (selectLots db0 m c t) n) l hl
        exact ⟨l2, by rw [hshape]; exact List.mem_append.2 (Or.inl hl2), e⟩
      refine ⟨⟨?_, hown1⟩, hpers, ?_⟩
      · by_cases hlt : eligibleSum db0 m c t < n
        · rw [hdebt hlt]
          simp only [List.map_append, List.map_map, List.map_cons, List.map_nil]
          have hids : List.map (Lot.lot_id ∘ fun l =>
              if eligible m c t l = true then { l with points_remaining := 0 } else l)
              db0.point_lots = db0.point_lots.map Lot.lot_id := by
            apply List.map_congr_left
            intro l _
            by_cases he : eligible m c t l = true <;> simp [he]
          rw [hids]
          exact List.Nodup.append hpk (by simp) (by simpa using hfresh hlt)
        · rw [hsame (by omega)]; exact hpk
      · intro hlive
        have hlive0 : ∀ l ∈ db0.point_lots, notExpired t l = true := by
          intro l hl
          obtain ⟨l2, hl2, e⟩ := hpers l hl
          have := hlive l2 hl2
          simpa [notExpired, e] using this
        have hb0 := getBalance_eq_rowsSum db0 m c t
          (fun l hl => ⟨(hown l hl).1, (hown l hl).2, hlive0 l hl⟩)
        have hb1 := getBalance_eq_rowsSum d m c t
          (fun l hl => ⟨(hown1 l hl).1, (hown1 l hl).2, hlive l hl⟩)
        simp only [LotCall.delta]
        rw [← hb1, ← hb0, hbal]
        ring

theorem callLots_total (m c : String) (now : Int) (calls : List LotCall) :
    ∀ db0 db : Db, OwnedBy m c db0 → (∀ k ∈ calls, k.nonneg) → (∀ k ∈ calls, k.time ≤ now) →
      callLots m c db0 calls = some db →
      (∀ l ∈ db.point_lots, notExpired now l = true) →
      OwnedBy m c db ∧
      (∀ l ∈ db0.point_lots, ∃ l2 ∈ db.point_lots, l2.expires_at = l.expires_at) ∧
      rowsSum db.point_lots = rowsSum db0.point_lots + (calls.map LotCall.delta).sum := by
  induction calls with
  | nil =>
    intro db0 db h0 _ _ hrun _
    simp only [callLots, Option.some.injEq] at hrun
    subst hrun
    exact ⟨h0, fun l hl => ⟨l, hl, rfl⟩, by simp⟩
  | cons k ks ih =>
    intro db0 db h0 hnn htime hrun hlive
    simp only [callLots] at hrun
    cases hstep : callLot m c db0 k with
    | none => simp [hstep] at hrun
    | some db1 =>
      simp only [hstep] at hrun
      obtain ⟨hown1, hpers1, hsum1⟩ := callLot_step m c db0 db1 k h0 (hnn k (by simp)) hstep
      obtain ⟨hown, hpers, hsum⟩ := ih db1 db hown1 (fun x hx => hnn x (by simp [hx]))
        (fun x hx => htime x (by simp [hx])) hrun hlive
      have hlive1 : ∀ l ∈ db1.point_lots, notExpired k.time l = true := by
        intro l hl
        obtain ⟨l2, hl2, e⟩ := hpers l hl
        have h2 := notExpired_mono l2 k.time now (htime k (by simp)) (hlive l2 hl2)
        simpa [notExpired, e] using h2
      refine ⟨hown, ?_, ?_⟩
      · intro l hl
        obtain ⟨l1, hl1, e1⟩ := hpers1 l hl
        obtain ⟨l2, hl2, e2⟩ := hpers l1 hl1
        exact ⟨l2, hl2, e2.trans e1⟩
      · rw [hsum, hsum1 hlive1]
        simp only [List.map_cons, List.sum_cons]
        ring

/-- C5. Start from an empty lot store and make any sequence of `addLot`,
successful `consumeFIFO` and `removePoints` calls on the account `(m, c)`
(quantities not negative, clock values not after `now`).  If no lot has
reached its `expires_at` at `now`, then `getBalance` at `now` is the sum of
the added points minus the consumed and removed quantities.  In general
`getBalance` sums `points_remaining` over the rows that are not zero and
have no expiry or an expiry after `now`; a row whose `expires_at` equals
`now` does not count. -/
theorem balance_is_sum_of_deltas (m c : String) (db0 db : Db) (calls : List LotCall) (now : Int)
    (hempty : db0.point_lots = [])
    (hrun : callLots m c db0 calls = some db)
    (hnonneg : ∀ k ∈ calls, k.nonneg)
    (htime : ∀ k ∈ calls, k.time ≤ now)
    (hlive : ∀ l ∈ db.point_lots, notExpired now l = true) :
    getBalance db m c now = (calls.map LotCall.delta).sum ∧
    (∀ (d : Db) (m2 c2 : String) (t : Int),
      getBalance d m2 c2 t =
        ((d.point_lots.filter (balanceRow m2 c2 t)).map Lot.points_remaining).sum ∧
      ∀ l : Lot, balanceRow m2 c2 t l = true ↔ Counts m2 c2 t l) ∧
    (∀ (d : Db) (l : Lot) (t : Int), l.expires_at = some t →
      getBalance { d with point_lots := l :: d.point_lots } l.merchant_id l.customer_id t =
        getBalance d l.merchant_id l.customer_id t) := by
  have h0 : OwnedBy m c db0 := by
    unfold OwnedBy
    rw [hempty]
    simp
  obtain ⟨hown, _, hsum⟩ := callLots_total m c now calls db0 db h0 hnonneg htime hrun hlive
  refine ⟨?_, ?_, ?_⟩
  · rw [getBalance_eq_rowsSum db m c now
      (fun l hl => ⟨(hown.2 l hl).1, (hown.2 l hl).2, hlive l hl⟩), hsum, hempty]
    simp [rowsSum]
  · intro d m2 c2 t
    exact ⟨rfl, balanceRow_iff m2 c2 t⟩
  · intro d l t he
    simp [getBalance, List.filter_cons, balanceRow, notExpired, he]

/-- C4. With the primary key respected and, when a debt lot is needed, a fresh
identifier for it, `removePoints` of `points_to_remove ≥ 0` does not throw, and
the signed balance afterwards is the balance before minus `points_to_remove`.
A lot is added exactly when the eligible points are fewer than
`points_to_remove`; it then holds `-(points_to_remove - eligible)` with no
expiry and every eligible lot is left at 0. -/
theorem removePoints_exact (db : Db) (m c lot_id : String) (n t : Int)
    (hpk : (db.point_lots.map Lot.lot_id).Nodup)
    (hfresh : eligibleSum db m c t < n → lot_id ∉ db.point_lots.map Lot.lot_id) (hn : 0 ≤ n) :
    (removePoints m c n lot_id t db).2 = Except.ok () ∧
    getBalance (removePoints m c n lot_id t db).1 m c t = getBalance db m c t - n ∧
    ((removePoints m c n lot_id t db).1.point_lots.length = db.point_lots.length + 1 ↔
      eligibleSum db m c t < n) ∧
    (eligibleSum db m c t < n →
      (removePoints m c n lot_id t db).1.point_lots =
        (db.point_lots.map fun l =>
          if eligible m c t l = true then { l with points_remaining := 0 } else l) ++
        [⟨lot_id, m, c, -(n - eligibleSum db m c t), t, none, none,
          some "Debt from void (insufficient points)"⟩]) ∧
    (n ≤ eligibleSum db m c t →
      (removePoints m c n lot_id t db).1.point_lots.map Lot.lot_id =
        db.point_lots.map Lot.lot_id) :=
  removePoints_facts db m c lot_id n t hpk hfresh hn

/-! ## Instances on an example store -/

/-- C2 at the example store: 4 points are asked, 10 are eligible. -/
theorem consumeFIFO_success_witness :
    ∃ used : List Used,
      (transaction (consumePointsFIFO "m" "c" 4 "x1" 10) exLots).2 = Except.ok used ∧
      usedSum used = 4 ∧
      getBalance (transaction (consumePointsFIFO "m" "c" 4 "x1" 10) exLots).1 "m" "c" 10 =
        getBalance exLots "m" "c" 10 - 4 := by
  obtain ⟨used, h1, _, _, _, h5, h6⟩ := consumeFIFO_success exLots "m" "c" "x1" 4 10
    (by decide) (by decide) (by decide) (by decide) (by decide)
  exact ⟨used, by rw [h1], h5, h6⟩

/-- C3 at the example store: lot `c` (expires first) is emptied before lot `a`
is drawn from, and lot `b` (no expiry) is not touched. -/
theorem consumeFIFO_order_witness :
    (transaction (consumePointsFIFO "m" "c" 4 "x1" 10) exLots).2 =
      Except.ok [⟨"c", 2⟩, ⟨"a", 2⟩] ∧
    ∀ u ∈ ([⟨"c", 2⟩, ⟨"a", 2⟩] : List Used).dropLast, ∃ l ∈ exLots.point_lots,
      l.lot_id = u.lot_id ∧ { l with points_remaining := 0 } ∈
        (transaction (consumePointsFIFO "m" "c" 4 "x1" 10) exLots).1.point_lots :=
  ⟨by decide,
    (consumeFIFO_order exLots (transaction (consumePointsFIFO "m" "c" 4 "x1" 10) exLots).1
      "m" "c" "x1" 4 10 [⟨"c", 2⟩, ⟨"a", 2⟩] (by decide) (by decide)).2.2.2.1⟩

/-- C4 at the example store: removing 40 of 10 eligible points leaves a debt
lot of -30. -/
theorem removePoints_exact_witness :
    (removePoints "m" "c" 40 "d" 10 exLots).2 = Except.ok () ∧
    getBalance (removePoints "m" "c" 40 "d" 10 exLots).1 "m" "c" 10 =
      getBalance exLots "m" "c" 10 - 40 :=
  ⟨(removePoints_exact exLots "m" "c" "d" 40 10 (by decide) (fun _ => by decide)
      (by decide)).1,
    (removePoints_exact exLots "m" "c" "d" 40 10 (by decide) (fun _ => by decide)
      (by decide)).2.1⟩

/-- C5 on the example sequence: 5 added, 2 consumed, 4 removed give -1. -/
theorem balance_is_sum_of_deltas_witness :
    callLots "m" "c" emptyDb exCalls = some exCallsDb ∧
    getBalance exCallsDb "m" "c" 10 = (exCalls.map LotCall.delta).sum ∧
    (exCalls.map LotCall.delta).sum = -1 :=
  ⟨by decide,
    (balance_is_sum_of_deltas "m" "c" emptyDb exCallsDb exCalls 10 rfl (by decide) (by decide)
      (by decide) (by decide)).1,
    by decide⟩

/-! ## The claim handler -/

theorem rateLimit_frame (key : String) (mx w t : Int) (db : Db) :
    (rateLimit key mx w t db).1 =
      { db with rate_limits := (rateLimit key mx w t db).1.rate_limits } := by
  unfold rateLimit
  by_cases h : mx ≤ 0
  · simp only [h, if_true]
  · cases hf : db.rate_limits.find? (fun r => decide (r.key = key)) with
    | none => simp only [h, if_false]
    | some row =>
      simp only [h, if_false]
      split_ifs <;> rfl

theorem guardedRateLimit_frame (key : String) (cap : Option Int) (w t : Int) (db : Db) :
    (guardedRateLimit key cap w t db).1 =
      { db with rate_limits := (guardedRateLimit key cap w t db).1.rate_limits } := by
  unfold guardedRateLimit
  split
  · rfl
  · split
    · exact rateLimit_frame _ _ _ _ _
    · rfl

theorem afterRateChecks_frame (db : Db) (tok : EarnToken) (customer_id : String)
    (program : Program) (t : Int) :
    afterRateChecks db tok customer_id program t =
      { db with rate_limits := (afterRateChecks db tok customer_id program t).rate_limits } := by
  unfold afterRateChecks
  rw [guardedRateLimit_frame
    ("earnday:" ++ tok.merchant_id ++ ":" ++ customer_id ++ ":" ++ dayKey t)]
  rw [guardedRateLimit_frame ("earn10:" ++ tok.merchant_id ++ ":" ++ customer_id)]

/-- The claim transaction, started in any database where the token is `ISSUED`. -/
theorem transaction_claimTx (db : Db) (tok : EarnToken) (customer_id : String)
    (program : Program) (lot_id ledger_id : String) (t : Int)
    (htok : getToken db tok.token_id = some tok) (hst : tok.status = "ISSUED") :
    transaction (claimTx tok.token_id customer_id (earnPoints program) (lotExpiry program t)
        lot_id ledger_id t) db =
      if lot_id ∈ db.point_lots.map Lot.lot_id ∨
          ledger_id ∈ db.point_ledger.map LedgerEntry.ledger_id then
        (db, Except.error Exn.constraint)
      else
        (afterClaim db tok customer_id program lot_id ledger_id t,
          Except.ok (max 0 (getBalance (afterClaim db tok customer_id program lot_id ledger_id t)
            tok.merchant_id customer_id t), earnPoints program)) := by
  by_cases h1 : lot_id ∈ db.point_lots.map Lot.lot_id
  · simp [transaction, claimTx, htok, hst, addEarnLot, insertLot, h1]
  · by_cases h2 : ledger_id ∈ db.point_ledger.map LedgerEntry.ledger_id
    · simp [transaction, claimTx, htok, hst, addEarnLot, insertLot, h1, insertLedger, h2]
    · simp [transaction, claimTx, htok, hst, addEarnLot, insertLot, h1, insertLedger, h2,
        afterClaim, earnLot, earnEntry]

theorem getToken_id {db : Db} {token_id : String} {tok : EarnToken}
    (h : getToken db token_id = some tok) : tok.token_id = token_id := by
  have := List.find?_some h
  simpa using this

theorem afterRateChecks_tokens (db : Db) (tok : EarnToken) (c : String) (p : Program) (t : Int) :
    (afterRateChecks db tok c p t).earn_tokens = db.earn_tokens := by
  rw [afterRateChecks_frame]

theorem afterRateChecks_lots (db : Db) (tok : EarnToken) (c : String) (p : Program) (t : Int) :
    (afterRateChecks db tok c p t).point_lots = db.point_lots := by
  rw [afterRateChecks_frame]

theorem afterRateChecks_ledger (db : Db) (tok : EarnToken) (c : String) (p : Program) (t : Int) :
    (afterRateChecks db tok c p t).point_ledger = db.point_ledger := by
  rw [afterRateChecks_frame]

/-- The claim handler either fails, changing at most `rate_limits`, or commits
the claim of an `ISSUED`, unexpired token. -/
theorem postClaim_cases (customer_id token_id : String) (rc : Option String)
    (lot_id ledger_id : String) (t : Int) (db : Db) :
    (∃ e, (postClaim customer_id token_id rc lot_id ledger_id t db).2 = Except.error e ∧
      (postClaim customer_id token_id rc lot_id ledger_id t db).1 =
        { db with rate_limits :=
            (postClaim customer_id token_id rc lot_id ledger_id t db).1.rate_limits }) ∨
    (∃ tok p, token_id ≠ "" ∧ getToken db token_id = some tok ∧ tok.status = "ISSUED" ∧
      t ≤ tok.expires_at ∧ receiptMismatch rc tok.receipt_code = false ∧
      getProgram db tok.merchant_id = some p ∧
      lot_id ∉ db.point_lots.map Lot.lot_id ∧
      ledger_id ∉ db.point_ledger.map LedgerEntry.ledger_id ∧
      postClaim customer_id token_id rc lot_id ledger_id t db =
        (afterClaim (afterRateChecks db tok customer_id p t) tok customer_id p lot_id ledger_id t,
          Except.ok ⟨tok.merchant_id, earnPoints p,
            max 0 (getBalance
              (afterClaim (afterRateChecks db tok customer_id p t) tok customer_id p lot_id
                ledger_id t) tok.merchant_id customer_id t)⟩)) := by
  by_cases h0 : token_id = ""
  · left; exact ⟨Err.missing_token, by simp [postClaim, h0], by simp [postClaim, h0]⟩
  cases htok : getToken db token_id with
  | none =>
    left; exact ⟨Err.token_not_found, by simp [postClaim, h0, htok], by simp [postClaim, h0, htok]⟩
  | some tok =>
    by_cases hst : tok.status = "ISSUED"
    swap
    · left
      exact ⟨Err.token_not_issued tok.status, by simp [postClaim, h0, htok, hst],
        by simp [postClaim, h0, htok, hst]⟩
    by_cases hexp : tok.expires_at < t
    · left
      exact ⟨Err.token_expired, by simp [postClaim, h0, htok, hst, hexp],
        by simp [postClaim, h0, htok, hst, hexp]⟩
    cases hrc : receiptMismatch rc tok.receipt_code with
    | true =>
      left
      exact ⟨Err.bad_receipt_code, by simp [postClaim, h0, htok, hst, hexp, hrc],
        by simp [postClaim, h0, htok, hst, hexp, hrc]⟩
    | false =>
      cases hprog : getProgram db tok.merchant_id with
      | none =>
        left
        exact ⟨Err.internal, by simp [postClaim, h0, htok, hst, hexp, hrc, hprog],
          by simp [postClaim, h0, htok, hst, hexp, hrc, hprog]⟩
      | some p =>
        have hpost : postClaim customer_id token_id rc lot_id ledger_id t db =
            (let r1 := guardedRateLimit ("earn10:" ++ tok.merchant_id ++ ":" ++ customer_id)
                p.max_earns_per_10min 600 t db
             if r1.2.ok = false then (r1.1, Except.error (Err.rate_limited r1.2.retryAfter))
             else
              let r2 := guardedRateLimit
                ("earnday:" ++ tok.merchant_id ++ ":" ++ customer_id ++ ":" ++ dayKey t)
                p.max_earns_per_day 86400 t r1.1
              if r2.2.ok = false then (r2.1, Except.error (Err.rate_limited r2.2.retryAfter))
              else
                match transaction (claimTx token_id customer_id (earnPoints p)
                    (lotExpiry p t) lot_id ledger_id t) r2.1 with
                | (db1, Except.ok r) => (db1, Except.ok ⟨tok.merchant_id, r.2, r.1⟩)
                | (db1, Except.error Exn.already_used) =>
                  (db1, Except.error Err.token_already_used)
                | (db1, Except.error _) => (db1, Except.error Err.server_error)) := by
          simp only [postClaim, h0, htok, hst, hexp, hrc, hprog, if_false, ne_eq,
            not_true_eq_false, Bool.false_eq_true]
        rw [hpost]
        simp only
        by_cases hr1 : (guardedRateLimit ("earn10:" ++ tok.merchant_id ++ ":" ++ customer_id)
            p.max_earns_per_10min 600 t db).2.ok = false
        · left
          rw [if_pos hr1]
          exact ⟨_, rfl, guardedRateLimit_frame _ _ _ _ _⟩
        rw [if_neg hr1]
        by_cases hr2 : (guardedRateLimit
            ("earnday:" ++ tok.merchant_id ++ ":" ++ customer_id ++ ":" ++ dayKey t)
            p.max_earns_per_day 86400 t
            (guardedRateLimit ("earn10:" ++ tok.merchant_id ++ ":" ++ customer_id)
              p.max_earns_per_10min 600 t db).1).2.ok = false
        · left
          rw [if_pos hr2]
          exact ⟨_, rfl, afterRateChecks_frame db tok customer_id p t⟩
        rw [if_neg hr2]
        have hid := getToken_id htok
        have htok2 : getToken (afterRateChecks db tok customer_id p t) tok.token_id =
            some tok := by
          rw [hid]
          simp only [getToken, afterRateChecks_tokens]
          exact htok
        have htx := transaction_claimTx (afterRateChecks db tok customer_id p t) tok customer_id
          p lot_id ledger_id t htok2 hst
        rw [hid, afterRateChecks_lots, afterRateChecks_ledger] at htx
        have hfold : (guardedRateLimit
            ("earnday:" ++ tok.merchant_id ++ ":" ++ customer_id ++ ":" ++ dayKey t)
            p.max_earns_per_day 86400 t
            (guardedRateLimit ("earn10:" ++ tok.merchant_id ++ ":" ++ customer_id)
              p.max_earns_per_10min 600 t db).1).1 = afterRateChecks db tok customer_id p t := rfl
        rw [hfold, htx]
        by_cases hcol : lot_id ∈ db.point_lots.map Lot.lot_id ∨
            ledger_id ∈ db.point_ledger.map LedgerEntry.ledger_id
        · left
          rw [if_pos hcol]
          exact ⟨_, rfl, afterRateChecks_frame db tok customer_id p t⟩
        · right
          rw [if_neg hcol]
          simp only [not_or] at hcol
          exact ⟨tok, p, h0, rfl, hst, by omega, hrc, hprog, hcol.1, hcol.2, rfl⟩

theorem find_map_token (f : EarnToken → EarnToken) (hf : ∀ x, (f x).token_id = x.token_id)
    (toks : List EarnToken) (tid : String) :
    (toks.map f).find? (fun x => decide (x.token_id = tid)) =
      (toks.find? (fun x => decide (x.token_id = tid))).map f := by
  induction toks with
  | nil => rfl
  | cons x xs ih =>
    by_cases h : x.token_id = tid
    · simp [List.find?_cons, h, hf]
    · simp [List.find?_cons, h, hf, ih]

theorem getToken_markRedeemed_same (tok : EarnToken) (c : String) (t : Int)
    (toks : List EarnToken) (h : toks.find? (fun x => decide (x.token_id = tok.token_id)) = some tok) :
    (markRedeemed toks tok.token_id c t).find? (fun x => decide (x.token_id = tok.token_id)) =
      some { tok with status := "REDEEMED", redeemed_at := some t,
                      redeemed_by_customer_id := some c } := by
  unfold markRedeemed
  rw [find_map_token _ (by intro x; by_cases hx : x.token_id = tok.token_id <;> simp [hx]), h]
  simp

theorem getBalance_append_one (db : Db) (l : Lot) (m c : String) (t : Int) :
    getBalance { db with point_lots := db.point_lots ++ [l] } m c t =
      getBalance db m c t + weight m c t l := by
  simp [getBalance_eq_weight]

/-- What a successful claim did. -/
theorem postClaim_ok_facts (customer_id token_id : String) (rc : Option String)
    (lot_id ledger_id : String) (t : Int) (db : Db) (r : ClaimOk)
    (hok : (postClaim customer_id token_id rc lot_id ledger_id t db).2 = Except.ok r) :
    ∃ tok p, token_id ≠ "" ∧ getToken db token_id = some tok ∧ tok.status = "ISSUED" ∧
      t ≤ tok.expires_at ∧ receiptMismatch rc tok.receipt_code = false ∧
      getProgram db tok.merchant_id = some p ∧
      lot_id ∉ db.point_lots.map Lot.lot_id ∧
      ledger_id ∉ db.point_ledger.map LedgerEntry.ledger_id ∧
      (postClaim customer_id token_id rc lot_id ledger_id t db).1 =
        afterClaim (afterRateChecks db tok customer_id p t) tok customer_id p lot_id ledger_id t ∧
      r = ⟨tok.merchant_id, earnPoints p,
            max 0 (getBalance (postClaim customer_id token_id rc lot_id ledger_id t db).1
              tok.merchant_id customer_id t)⟩ := by
  rcases postClaim_cases customer_id token_id rc lot_id ledger_id t db with
    ⟨e, he, _⟩ | ⟨tok, p, h0, htok, hst, hexp, hrc, hprog, hl, hg, heq⟩
  · rw [he] at hok; cases hok
  · refine ⟨tok, p, h0, htok, hst, hexp, hrc, hprog, hl, hg, by rw [heq], ?_⟩
    rw [heq] at hok ⊢
    simp only [Except.ok.injEq] at hok
    exact hok.symm

/-- C7. A successful claim of token `T` by customer `C` at `t`, under the
active program `P` of the token's merchant (with `points_per_earn` not 0 and
`points_expire_days` absent or positive, as every program update leaves it):
`T` becomes `REDEEMED` with `redeemed_by_customer_id = C` and
`redeemed_at = t`; exactly one lot is appended, for `(T.merchant_id, C)`, with
`points_remaining = P.points_per_earn`, `source_token_id = T` and
`expires_at = t + days * 86400` (absent when `points_expire_days` is absent);
exactly one `EARN` ledger entry with `points_delta = P.points_per_earn` is
appended; the response carries `points_added = P.points_per_earn` and
`new_balance = max 0 (balance after)`, and the signed balance after is the
signed balance before plus `P.points_per_earn`. -/
theorem claim_effect (customer_id token_id : String) (rc : Option String)
    (lot_id ledger_id : String) (t : Int) (db : Db) (r : ClaimOk) (tok : EarnToken) (p : Program)
    (hok : (postClaim customer_id token_id rc lot_id ledger_id t db).2 = Except.ok r)
    (htok : getToken db token_id = some tok)
    (hprog : getProgram db tok.merchant_id = some p)
    (hppe : p.points_per_earn ≠ 0)
    (hdays : p.points_expire_days = none ∨ ∃ d, p.points_expire_days = some d ∧ 0 < d) :
    getToken (postClaim customer_id token_id rc lot_id ledger_id t db).1 token_id =
      some { tok with status := "REDEEMED", redeemed_at := some t,
                      redeemed_by_customer_id := some customer_id } ∧
    (postClaim customer_id token_id rc lot_id ledger_id t db).1.point_lots =
      db.point_lots ++ [⟨lot_id, tok.merchant_id, customer_id, p.points_per_earn, t,
        p.points_expire_days.map (fun d => t + d * 86400), some token_id,
        some "Earned point"⟩] ∧
    (∃ note, (postClaim customer_id token_id rc lot_id ledger_id t db).1.point_ledger =
      db.point_ledger ++ [⟨ledger_id, tok.merchant_id, customer_id, "EARN", p.points_per_earn,
        some token_id, none, t, none, note⟩]) ∧
    r.points_added = p.points_per_earn ∧
    r.new_balance = max 0 (getBalance (postClaim customer_id token_id rc lot_id ledger_id t db).1
      tok.merchant_id customer_id t) ∧
    getBalance (postClaim customer_id token_id rc lot_id ledger_id t db).1
        tok.merchant_id customer_id t =
      getBalance db tok.merchant_id customer_id t + p.points_per_earn := by
  obtain ⟨tok2, p2, _, htok2, _, _, _, hprog2, _, _, heq, hr⟩ :=
    postClaim_ok_facts customer_id token_id rc lot_id ledger_id t db r hok
  rw [htok] at htok2
  cases htok2
  rw [hprog] at hprog2
  cases hprog2
  have hid := getToken_id htok
  have hpts : earnPoints p = p.points_per_earn := by simp [earnPoints, hppe]
  have hexp : lotExpiry p t = p.points_expire_days.map (fun d => t + d * 86400) := by
    rcases hdays with h | ⟨d, h, hd⟩
    · simp [lotExpiry, h]
    · have : d ≠ 0 := by omega
      simp [lotExpiry, h, this]
  have hlots : (postClaim customer_id token_id rc lot_id ledger_id t db).1.point_lots =
      db.point_lots ++ [⟨lot_id, tok.merchant_id, customer_id, p.points_per_earn, t,
        p.points_expire_days.map (fun d => t + d * 86400), some token_id,
        some "Earned point"⟩] := by
    rw [heq]
    simp only [afterClaim, earnLot, afterRateChecks_lots, hpts, hexp, hid]
  refine ⟨?_, hlots, ?_, ?_, ?_, ?_⟩
  · rw [heq]
    simp only [getToken, afterClaim, afterRateChecks_tokens]
    rw [← hid]
    exact getToken_markRedeemed_same tok customer_id t db.earn_tokens (by rw [hid]; exact htok)
  · refine ⟨some (earnNote (lotExpiry p t)), ?_⟩
    rw [heq]
    simp only [afterClaim, earnEntry, afterRateChecks_ledger, hpts, hid]
  · rw [hr, hpts]
  · rw [hr]
  · have hw : weight tok.merchant_id customer_id t
        ⟨lot_id, tok.merchant_id, customer_id, p.points_per_earn, t,
          p.points_expire_days.map (fun d => t + d * 86400), some token_id,
          some "Earned point"⟩ = p.points_per_earn := by
      rcases hdays with h | ⟨d, h, hd⟩
      · simp [weight, inAccount, notExpired, h]
      · simp [weight, inAccount, notExpired, h]
        intro hle
        omega
    simp only [getBalance_eq_weight, hlots, List.map_append, List.sum_append, List.map_cons,
      List.map_nil, List.sum_cons, List.sum_nil, hw]
    ring

/-- C7 on the example shop: customer `c` claims token `T1` at time 20. -/
theorem claim_effect_witness :
    (postClaim "c" "T1" none "L1" "G1" 20 exIssued).2 = Except.ok ⟨"m", 1, 1⟩ ∧
    (postClaim "c" "T1" none "L1" "G1" 20 exIssued).1.point_lots =
      [⟨"L1", "m", "c", 1, 20, some (20 + 180 * 86400), some "T1", some "Earned point"⟩] ∧
    getBalance (postClaim "c" "T1" none "L1" "G1" 20 exIssued).1 "m" "c" 20 = 1 :=
  ⟨by decide,
    (claim_effect "c" "T1" none "L1" "G1" 20 exIssued ⟨"m", 1, 1⟩
      ⟨"T1", "m", "s", "st", 10, 10 + 120 * 60, "ISSUED", none, none, some "ABCD", none⟩
      ⟨"p", "m", 1, 120, some 180, some 0, some 0, 0, 1⟩
      (by decide) (by decide) (by decide) (by decide) (Or.inr ⟨180, rfl, by decide⟩)).2.1,
    (claim_effect "c" "T1" none "L1" "G1" 20 exIssued ⟨"m", 1, 1⟩
      ⟨"T1", "m", "s", "st", 10, 10 + 120 * 60, "ISSUED", none, none, some "ABCD", none⟩
      ⟨"p", "m", 1, 120, some 180, some 0, some 0, 0, 1⟩
      (by decide) (by decide) (by decide) (by decide) (Or.inr ⟨180, rfl, by decide⟩)).2.2.2.2.2⟩

theorem receiptMismatch_false_iff (rc stored : Option String) :
    receiptMismatch rc stored = false ↔
      (rc = none ∨ rc = some "" ∨
        ∃ s, rc = some s ∧ toUpperCase (trim s) = toUpperCase (jsString stored)) := by
  cases rc with
  | none => simp [receiptMismatch]
  | some s =>
    by_cases hs : s = ""
    · simp [receiptMismatch, hs]
    · simp [receiptMismatch, hs]

theorem guardedRateLimit_off (key : String) (w t : Int) (db : Db) :
    guardedRateLimit key (some 0) w t db = (db, ⟨true, none⟩) := by
  simp [guardedRateLimit]

/-- The claim handler when every check passes and no cap is configured. -/
theorem postClaim_nocap (customer_id token_id : String) (rc : Option String)
    (lot_id ledger_id : String) (t : Int) (db : Db) (tok : EarnToken) (p : Program)
    (hid : token_id ≠ "") (htok : getToken db token_id = some tok)
    (hst : tok.status = "ISSUED") (hexp : t ≤ tok.expires_at)
    (hrc : receiptMismatch rc tok.receipt_code = false)
    (hprog : getProgram db tok.merchant_id = some p)
    (h10 : p.max_earns_per_10min = some 0) (hday : p.max_earns_per_day = some 0)
    (hlot : lot_id ∉ db.point_lots.map Lot.lot_id)
    (hledger : ledger_id ∉ db.point_ledger.map LedgerEntry.ledger_id) :
    postClaim customer_id token_id rc lot_id ledger_id t db =
      (afterClaim db tok customer_id p lot_id ledger_id t,
        Except.ok ⟨tok.merchant_id, earnPoints p,
          max 0 (getBalance (afterClaim db tok customer_id p lot_id ledger_id t)
            tok.merchant_id customer_id t)⟩) := by
  have hexp2 : ¬ tok.expires_at < t := by omega
  have hidt := getToken_id htok
  have htx := transaction_claimTx db tok customer_id p lot_id ledger_id t
    (by rw [hidt]; exact htok) hst
  rw [hidt, if_neg (by simp [hlot, hledger])] at htx
  simp only [postClaim, hid, htok, hst, hexp2, hrc, hprog, h10, hday, guardedRateLimit_off,
    if_false, ne_eq, not_true_eq_false, Bool.false_eq_true, htx]
  simp

/-- C8 (amended). For a supplied receipt code and a stored receipt code made
of ASCII characters (on these the `toUpperCase` of this file is the method of
the source; the codes that `shortCode` draws are ASCII), with a non-empty
token id, no earn cap (both caps 0) on the active program of the token's
merchant, and fresh identifiers for the lot and the ledger entry: the claim
succeeds exactly when the token exists, its status is `ISSUED`,
`t ≤ expires_at`, and the receipt code is absent, empty, or equal to the
stored code after trimming surrounding white space and ignoring letter case.
Otherwise it fails with, in this order, `token_not_found`,
`token_not_issued`, `token_expired`, `bad_receipt_code`, and the database is
unchanged. -/
theorem claim_validation (customer_id token_id : String) (rc : Option String)
    (lot_id ledger_id : String) (t : Int) (db : Db)
    (hid : token_id ≠ "")
    (_hascii : ∀ s, rc = some s → isAscii s = true)
    (_hstored : ∀ tok, getToken db token_id = some tok →
      isAscii (jsString tok.receipt_code) = true)
    (hpol : ∀ tok, getToken db token_id = some tok →
      ∃ p, getProgram db tok.merchant_id = some p ∧ p.max_earns_per_10min = some 0 ∧
        p.max_earns_per_day = some 0)
    (hlot : lot_id ∉ db.point_lots.map Lot.lot_id)
    (hledger : ledger_id ∉ db.point_ledger.map LedgerEntry.ledger_id) :
    ((∃ r, (postClaim customer_id token_id rc lot_id ledger_id t db).2 = Except.ok r) ↔
      ∃ tok, getToken db token_id = some tok ∧ tok.status = "ISSUED" ∧ t ≤ tok.expires_at ∧
        (rc = none ∨ rc = some "" ∨
          ∃ s, rc = some s ∧ toUpperCase (trim s) = toUpperCase (jsString tok.receipt_code))) ∧
    (getToken db token_id = none →
      postClaim customer_id token_id rc lot_id ledger_id t db =
        (db, Except.error Err.token_not_found)) ∧
    (∀ tok, getToken db token_id = some tok → tok.status ≠ "ISSUED" →
      postClaim customer_id token_id rc lot_id ledger_id t db =
        (db, Except.error (Err.token_not_issued tok.status))) ∧
    (∀ tok, getToken db token_id = some tok → tok.status = "ISSUED" → tok.expires_at < t →
      postClaim customer_id token_id rc lot_id ledger_id t db =
        (db, Except.error Err.token_expired)) ∧
    (∀ tok, getToken db token_id = some tok → tok.status = "ISSUED" → t ≤ tok.expires_at →
      (∃ s, rc = some s ∧ s ≠ "" ∧
        toUpperCase (trim s) ≠ toUpperCase (jsString tok.receipt_code)) →
      postClaim customer_id token_id rc lot_id ledger_id t db =
        (db, Except.error Err.bad_receipt_code)) := by
  refine ⟨⟨?_, ?_⟩, ?_, ?_, ?_, ?_⟩
  · rintro ⟨r, hr⟩
    obtain ⟨tok, p, _, htok, hst, hexp, hrc, _⟩ :=
      postClaim_ok_facts customer_id token_id rc lot_id ledger_id t db r hr
    exact ⟨tok, htok, hst, hexp, (receiptMismatch_false_iff rc tok.receipt_code).1 hrc⟩
  · rintro ⟨tok, htok, hst, hexp, hrc⟩
    obtain ⟨p, hprog, h10, hday⟩ := hpol tok htok
    rw [postClaim_nocap customer_id token_id rc lot_id ledger_id t db tok p hid htok hst hexp
      ((receiptMismatch_false_iff rc tok.receipt_code).2 hrc) hprog h10 hday hlot hledger]
    exact ⟨_, rfl⟩
  · intro htok
    simp [postClaim, hid, htok]
  · intro tok htok hst
    simp [postClaim, hid, htok, hst]
  · intro tok htok hst hexp
    simp [postClaim, hid, htok, hst, hexp]
  · rintro tok htok hst hexp ⟨s, hs, hne, hcode⟩
    have hexp2 : ¬ tok.expires_at < t := by omega
    have hrc : receiptMismatch rc tok.receipt_code = true := by
      simp [receiptMismatch, hs, hne, hcode]
    simp [postClaim, hid, htok, hst, hexp2, hrc]

/-- C8 as stated fails: token `T1` has receipt code `ABCD`; the supplied code
` abcd` (with a leading blank) differs from it even ignoring letter case, yet
the claim is accepted, because the handler trims the supplied code. -/
theorem claim_accepts_padded_code :
    (getToken exIssued "T1").map EarnToken.receipt_code = some (some "ABCD") ∧
    toUpperCase " abcd" ≠ toUpperCase "ABCD" ∧
    (postClaim "c" "T1" (some " abcd") "L1" "G1" 20 exIssued).2 = Except.ok ⟨"m", 1, 1⟩ := by
  decide

theorem exIssued_token (tok : EarnToken) (h : getToken exIssued "T1" = some tok) :
    tok = ⟨"T1", "m", "s", "st", 10, 10 + 120 * 60, "ISSUED", none, none, some "ABCD", none⟩ := by
  have h2 : getToken exIssued "T1" = some ⟨"T1", "m", "s", "st", 10, 10 + 120 * 60,
    "ISSUED", none, none, some "ABCD", none⟩ := by decide
  rw [h2] at h
  exact (Option.some.inj h).symm

/-- C8 (amended) on the example shop: the padded ASCII code ` abcd` is
accepted for the stored code `ABCD`. -/
theorem claim_validation_witness :
    ∃ r, (postClaim "c" "T1" (some " abcd") "L1" "G1" 20 exIssued).2 = Except.ok r :=
  (claim_validation "c" "T1" (some " abcd") "L1" "G1" 20 exIssued (by decide)
    (fun s h => by cases h; decide)
    (fun tok h => by rw [exIssued_token tok h]; decide)
    (fun tok h => ⟨⟨"p", "m", 1, 120, some 180, some 0, some 0, 0, 1⟩, by
      rw [exIssued_token tok h]
      decide⟩)
    (by decide) (by decide)).1.2
    ⟨⟨"T1", "m", "s", "st", 10, 10 + 120 * 60, "ISSUED", none, none, some "ABCD", none⟩,
      by decide, by decide, by decide, Or.inr (Or.inr ⟨" abcd", rfl, by decide⟩)⟩

/-! ## The completion handler -/

theorem insertConsumptions_cases (rid : String) (us : List Used) (db : Db) :
    insertConsumptions rid us db =
        ({ db with redemption_consumptions :=
            db.redemption_consumptions ++ consumptionRows rid us }, Except.ok ()) ∨
      (insertConsumptions rid us db).2 = Except.error Exn.constraint := by
  induction us generalizing db with
  | nil => left; simp [insertConsumptions, consumptionRows]
  | cons u us ih =>
    simp only [insertConsumptions]
    split
    · right; rfl
    · rcases ih { db with redemption_consumptions :=
          db.redemption_consumptions ++ [⟨rid, u.lot_id, u.used⟩] } with h | h
      · left
        rw [h]
        simp [consumptionRows]
      · right; exact h

/-- The raw `consumePointsFIFO`, case by case. -/
theorem consumePointsFIFO_cases (m c : String) (n : Int) (rid : String) (t : Int) (db : Db) :
    (0 < n - usedSum (takes (selectLots db m c t) n) ∧
      (consumePointsFIFO m c n rid t db).2 = Except.error Exn.insufficient_points) ∨
    (¬ 0 < n - usedSum (takes (selectLots db m c t) n) ∧
      (consumePointsFIFO m c n rid t db).2 = Except.error Exn.constraint) ∨
    (¬ 0 < n - usedSum (takes (selectLots db m c t) n) ∧
      consumePointsFIFO m c n rid t db =
        ({ db with
            point_lots := lotsAfter db.point_lots (takes (selectLots db m c t) n),
            redemption_consumptions := db.redemption_consumptions ++
              (if rid = "" then [] else consumptionRows rid (takes (selectLots db m c t) n)) },
          Except.ok (takes (selectLots db m c t) n))) := by
  by_cases hrem : 0 < n - usedSum (takes (selectLots db m c t) n)
  · left
    exact ⟨hrem, by simp only [consumePointsFIFO, consumeLoop_eq, hrem, if_true]⟩
  · right
    by_cases hrid : rid = ""
    · right
      refine ⟨hrem, ?_⟩
      simp only [consumePointsFIFO, consumeLoop_eq, hrem, if_false, hrid, ne_eq,
        not_true_eq_false, if_true, List.nil_append, List.append_nil, lotsAfter,
        applyTakes_eq_map]
    · rcases insertConsumptions_cases rid (takes (selectLots db m c t) n)
          { db with point_lots := applyTakes db.point_lots (takes (selectLots db m c t) n) }
        with h | h
      · right
        refine ⟨hrem, ?_⟩
        simp only [consumePointsFIFO, consumeLoop_eq, hrem, if_false, hrid, ne_eq,
          not_false_eq_true, if_true, List.nil_append, h]
        simp [lotsAfter, applyTakes_eq_map]
      · left
        refine ⟨hrem, ?_⟩
        simp only [consumePointsFIFO, consumeLoop_eq, hrem, if_false, hrid, ne_eq,
          not_false_eq_true, if_true, List.nil_append]
        revert h
        generalize insertConsumptions rid (takes (selectLots db m c t) n)
          { db with point_lots := applyTakes db.point_lots (takes (selectLots db m c t) n) } = res
        intro h
        rcases res with ⟨d, (e | _)⟩
        · simpa using h
        · simp at h

/-- The completion transaction, started where the redemption is `PENDING`. -/
theorem transaction_completeTx (db : Db) (rt : String) (red : Redemption) (reward : Reward)
    (staff_id store_id ledger_id : String) (t : Int)
    (hred : getRedemption db rt = some red) (hst : red.status = "PENDING") :
    (0 < reward.points_cost - usedSum (redeemTakes db red reward t) ∧
      transaction (completeTx rt reward staff_id store_id ledger_id t) db =
        (db, Except.error Exn.insufficient_points)) ∨
    (¬ 0 < reward.points_cost - usedSum (redeemTakes db red reward t) ∧
      transaction (completeTx rt reward staff_id store_id ledger_id t) db =
        (db, Except.error Exn.constraint)) ∨
    (¬ 0 < reward.points_cost - usedSum (redeemTakes db red reward t) ∧
      ledger_id ∉ db.point_ledger.map LedgerEntry.ledger_id ∧
      transaction (completeTx rt reward staff_id store_id ledger_id t) db =
        (afterComplete db red reward staff_id store_id ledger_id t,
          Except.ok red.customer_id)) := by
  unfold redeemTakes
  rcases consumePointsFIFO_cases red.merchant_id red.customer_id reward.points_cost
      red.redemption_id t db with ⟨h1, h2⟩ | ⟨h1, h2⟩ | ⟨h1, h2⟩
  · left
    refine ⟨h1, ?_⟩
    simp only [transaction, completeTx, hred, hst, ne_eq, not_true_eq_false, if_false]
    revert h2
    generalize consumePointsFIFO red.merchant_id red.customer_id reward.points_cost
      red.redemption_id t db = res
    intro h2
    rcases res with ⟨d, (e | _)⟩
    · simp only at h2; cases h2; rfl
    · simp at h2
  · right; left
    refine ⟨h1, ?_⟩
    simp only [transaction, completeTx, hred, hst, ne_eq, not_true_eq_false, if_false]
    revert h2
    generalize consumePointsFIFO red.merchant_id red.customer_id reward.points_cost
      red.redemption_id t db = res
    intro h2
    rcases res with ⟨d, (e | _)⟩
    · simp only at h2; cases h2; rfl
    · simp at h2
  · right
    by_cases hl : ledger_id ∈ db.point_ledger.map LedgerEntry.ledger_id
    · left
      refine ⟨h1, ?_⟩
      simp [transaction, completeTx, hred, hst, h2, insertLedger, hl]
    · right
      refine ⟨h1, hl, ?_⟩
      simp [transaction, completeTx, hred, hst, h2, insertLedger, hl, afterComplete,
        redeemEntry, redeemTakes]

/-- The completion handler either fails and leaves the database as it was, or
commits the completion of a `PENDING`, unexpired redemption of the acting
store's merchant. -/
theorem postRedeemComplete_cases (store_id staff_id rt ledger_id : String) (t : Int) (db : Db) :
    (∃ e, postRedeemComplete store_id staff_id rt ledger_id t db = (db, Except.error e)) ∨
    (∃ red reward store, rt ≠ "" ∧ getRedemption db rt = some red ∧ red.status = "PENDING" ∧
      redeemExpired red t = false ∧ getStore db store_id = some store ∧
      red.merchant_id = store.merchant_id ∧ getReward db red.reward_id = some reward ∧
      ¬ 0 < reward.points_cost - usedSum (redeemTakes db red reward t) ∧
      ledger_id ∉ db.point_ledger.map LedgerEntry.ledger_id ∧
      postRedeemComplete store_id staff_id rt ledger_id t db =
        (afterComplete db red reward staff_id store.store_id ledger_id t,
          Except.ok ⟨reward.name,
            max 0 (getBalance (afterComplete db red reward staff_id store.store_id ledger_id t)
              store.merchant_id red.customer_id t)⟩)) := by
  by_cases h0 : rt = ""
  · left; exact ⟨Err.missing_redeem_token, by simp [postRedeemComplete, h0]⟩
  cases hred : getRedemption db rt with
  | none => left; exact ⟨Err.redemption_not_found, by simp [postRedeemComplete, h0, hred]⟩
  | some red =>
    by_cases hst : red.status = "PENDING"
    swap
    · left; exact ⟨Err.not_pending (some red.status), by simp [postRedeemComplete, h0, hred, hst]⟩
    cases hexp : redeemExpired red t with
    | true => left; exact ⟨Err.redeem_token_expired, by simp [postRedeemComplete, h0, hred, hst, hexp]⟩
    | false =>
      cases hstore : getStore db store_id with
      | none => left; exact ⟨Err.internal, by simp [postRedeemComplete, h0, hred, hst, hexp, hstore]⟩
      | some store =>
        by_cases hm : red.merchant_id = store.merchant_id
        swap
        · left; exact ⟨Err.wrong_merchant, by simp [postRedeemComplete, h0, hred, hst, hexp, hstore, hm]⟩
        cases hrew : getReward db red.reward_id with
        | none =>
          left
          exact ⟨Err.reward_not_found,
            by simp [postRedeemComplete, h0, hred, hst, hexp, hstore, hm, hrew]⟩
        | some reward =>
          rcases transaction_completeTx db rt red reward staff_id store.store_id ledger_id t
              hred hst with ⟨h1, h2⟩ | ⟨h1, h2⟩ | ⟨h1, hl, h2⟩
          · left
            exact ⟨Err.insufficient_points none,
              by simp [postRedeemComplete, h0, hred, hst, hexp, hstore, hm, hrew, h2]⟩
          · left
            exact ⟨Err.server_error,
              by simp [postRedeemComplete, h0, hred, hst, hexp, hstore, hm, hrew, h2]⟩
          · right
            refine ⟨red, reward, store, h0, rfl, hst, hexp, rfl, hm, hrew, h1, hl, ?_⟩
            simp [postRedeemComplete, h0, hred, hst, hexp, hstore, hm, hrew, h2]

/-! ## The void handler -/

/-- The raw `removePoints`, case by case. -/
theorem removePoints_cases (m c : String) (n : Int) (lot_id : String) (t : Int) (db : Db) :
    (0 < n - usedSum (takes (selectLots db m c t) n) ∧
      lot_id ∈ db.point_lots.map Lot.lot_id ∧
      (removePoints m c n lot_id t db).2 = Except.error Exn.constraint) ∨
    ((0 < n - usedSum (takes (selectLots db m c t) n) →
        lot_id ∉ db.point_lots.map Lot.lot_id) ∧
      removePoints m c n lot_id t db =
        ({ db with point_lots := lotsAfter db.point_lots (takes (selectLots db m c t) n) ++
            (if 0 < n - usedSum (takes (selectLots db m c t) n) then
              [⟨lot_id, m, c, -(n - usedSum (takes (selectLots db m c t) n)), t, none, none,
                some "Debt from void (insufficient points)"⟩]
            else []) }, Except.ok ())) := by
  by_cases hrem : 0 < n - usedSum (takes (selectLots db m c t) n)
  · by_cases hin : lot_id ∈ db.point_lots.map Lot.lot_id
    · left
      have hin2 : lot_id ∈
          (applyTakes db.point_lots (takes (selectLots db m c t) n)).map Lot.lot_id := by
        rw [applyTakes_ids]; exact hin
      exact ⟨hrem, hin, by simp only [removePoints, removeLoop_eq, hrem, if_true, insertLot, hin2]⟩
    · right
      have hin2 : lot_id ∉
          (applyTakes db.point_lots (takes (selectLots db m c t) n)).map Lot.lot_id := by
        rw [applyTakes_ids]; exact hin
      refine ⟨fun _ => hin, ?_⟩
      simp only [removePoints, removeLoop_eq, hrem, if_true, insertLot, hin2, if_false]
      simp only [lotsAfter, applyTakes_eq_map]
  · right
    refine ⟨fun h => absurd h hrem, ?_⟩
    simp only [removePoints, removeLoop_eq, hrem, if_false, List.append_nil, lotsAfter,
      applyTakes_eq_map]

/-- The void transaction, started where the token is not yet `VOIDED`. -/
theorem transaction_voidTx (db : Db) (tok : EarnToken) (staff_id : String) (points : Int)
    (lot_id ledger_id : String) (t : Int)
    (htok : getToken db tok.token_id = some tok) (hst : tok.status ≠ "VOIDED") :
    (voidDebtor tok = none ∧
      transaction (voidTx tok.token_id staff_id points lot_id ledger_id t) db =
        (afterVoidUnclaimed db tok, Except.ok ())) ∨
    (∃ c, voidDebtor tok = some c ∧
      transaction (voidTx tok.token_id staff_id points lot_id ledger_id t) db =
        (db, Except.error Exn.constraint)) ∨
    (∃ c, voidDebtor tok = some c ∧
      (0 < points - usedSum (voidTakes db tok c points t) →
        lot_id ∉ db.point_lots.map Lot.lot_id) ∧
      ledger_id ∉ db.point_ledger.map LedgerEntry.ledger_id ∧
      transaction (voidTx tok.token_id staff_id points lot_id ledger_id t) db =
        (afterVoid db tok c points staff_id lot_id ledger_id t, Except.ok ())) := by
  cases hd : voidDebtor tok with
  | none =>
    left
    refine ⟨rfl, ?_⟩
    simp [transaction, voidTx, htok, hst, hd, afterVoidUnclaimed]
  | some c =>
    right
    rcases removePoints_cases tok.merchant_id c points lot_id t
        { db with earn_tokens := markVoided db.earn_tokens tok.token_id }
      with ⟨_, _, h⟩ | ⟨hfresh, h⟩
    · left
      refine ⟨c, rfl, ?_⟩
      simp only [transaction, voidTx, htok, hst, if_false, hd]
      revert h
      generalize removePoints tok.merchant_id c points lot_id t
        { db with earn_tokens := markVoided db.earn_tokens tok.token_id } = res
      intro h
      rcases res with ⟨d, (e | _)⟩
      · simp only at h; cases h; rfl
      · simp at h
    · by_cases hl : ledger_id ∈ db.point_ledger.map LedgerEntry.ledger_id
      · left
        refine ⟨c, rfl, ?_⟩
        simp [transaction, voidTx, htok, hst, hd, h, insertLedger, hl]
      · right
        refine ⟨c, rfl, hfresh, hl, ?_⟩
        simp [transaction, voidTx, htok, hst, hd, h, insertLedger, hl, afterVoid, voidEntry,
          voidDebt, voidTakes, selectLots]

/-- The void handler either leaves the database as it was, or commits the void
of a token of the acting store that was not yet `VOIDED`. -/
theorem postTokenVoid_cases (store_id staff_id token_id lot_id ledger_id : String) (t : Int)
    (db : Db) :
    (postTokenVoid store_id staff_id token_id lot_id ledger_id t db).1 = db ∨
    (∃ tok p, getToken db token_id = some tok ∧ tok.store_id = store_id ∧
      tok.status ≠ "VOIDED" ∧ getProgram db tok.merchant_id = some p ∧
      voidDebtor tok = none ∧
      postTokenVoid store_id staff_id token_id lot_id ledger_id t db =
        (afterVoidUnclaimed db tok, Except.ok ())) ∨
    (∃ tok p c, getToken db token_id = some tok ∧ tok.store_id = store_id ∧
      tok.status ≠ "VOIDED" ∧ getProgram db tok.merchant_id = some p ∧
      voidDebtor tok = some c ∧
      (0 < earnPoints p - usedSum (voidTakes db tok c (earnPoints p) t) →
        lot_id ∉ db.point_lots.map Lot.lot_id) ∧
      ledger_id ∉ db.point_ledger.map LedgerEntry.ledger_id ∧
      postTokenVoid store_id staff_id token_id lot_id ledger_id t db =
        (afterVoid db tok c (earnPoints p) staff_id lot_id ledger_id t, Except.ok ())) := by
  by_cases h0 : token_id = ""
  · left; simp [postTokenVoid, h0]
  cases htok : getToken db token_id with
  | none => left; simp [postTokenVoid, h0, htok]
  | some tok =>
    by_cases hs : tok.store_id = store_id
    swap
    · left; simp [postTokenVoid, h0, htok, hs]
    by_cases hst : tok.status = "VOIDED"
    · left; simp [postTokenVoid, h0, htok, hs, hst]
    cases hprog : getProgram db tok.merchant_id with
    | none => left; simp [postTokenVoid, h0, htok, hs, hst, hprog]
    | some p =>
      have hid := getToken_id htok
      have htok2 : getToken db tok.token_id = some tok := by rw [hid]; exact htok
      have hpost : postTokenVoid store_id staff_id token_id lot_id ledger_id t db =
          (match transaction (voidTx tok.token_id staff_id (earnPoints p) lot_id ledger_id t)
              db with
            | (db1, Except.ok _) => (db1, Except.ok ())
            | (db1, Except.error _) => (db1, Except.error Err.server_error)) := by
        simp [postTokenVoid, h0, htok, hs, hst, hprog, hid]
      rcases transaction_voidTx db tok staff_id (earnPoints p) lot_id ledger_id t htok2 hst
        with ⟨hd, h⟩ | ⟨c, hd, h⟩ | ⟨c, hd, hfresh, hl, h⟩
      · right; left
        exact ⟨tok, p, rfl, hs, hst, hprog, hd, by rw [hpost, h]⟩
      · left
        rw [hpost, h]
      · right; right
        exact ⟨tok, p, c, rfl, hs, hst, hprog, hd, hfresh, hl, by rw [hpost, h]⟩

/-! ## Effect of a request on tokens, lots and ledger -/

theorem postProgram_effect (store_id : String) (b : ProgramBody) (db : Db) :
    Effect db (postProgram store_id b db).1 := by
  unfold postProgram
  split
  · exact Effect.unchanged rfl rfl rfl
  · split
    · exact Effect.unchanged rfl rfl rfl
    · simp only
      split <;> exact Effect.unchanged rfl rfl rfl

theorem postReward_effect (store_id name : String) (points_cost : Field) (reward_id : String)
    (t : Int) (db : Db) : Effect db (postReward store_id name points_cost reward_id t db).1 := by
  unfold postReward
  split
  · exact Effect.unchanged rfl rfl rfl
  · split
    · exact Effect.unchanged rfl rfl rfl
    · split
      · exact Effect.unchanged rfl rfl rfl
      · split
        · exact Effect.unchanged rfl rfl rfl
        · split <;> exact Effect.unchanged rfl rfl rfl

theorem rateLimit_tokens (key : String) (mx w t : Int) (db : Db) :
    (rateLimit key mx w t db).1.earn_tokens = db.earn_tokens ∧
    (rateLimit key mx w t db).1.point_lots = db.point_lots ∧
    (rateLimit key mx w t db).1.point_ledger = db.point_ledger := by
  rw [rateLimit_frame]
  exact ⟨rfl, rfl, rfl⟩

theorem postToken_effect (store_id staff_id : String) (tr : Option String)
    (token_id receipt_code : String) (t : Int) (db : Db) :
    Effect db (postToken store_id staff_id tr token_id receipt_code t db).1 := by
  obtain ⟨h1, h2, h3⟩ := rateLimit_tokens ("issue:" ++ staff_id) 120 60 t db
  unfold postToken
  split
  · exact Effect.unchanged rfl rfl rfl
  · simp only
    split
    · exact Effect.unchanged h1 h2 h3
    · split
      · exact Effect.unchanged h1 h2 h3
      · split
        · exact Effect.unchanged h1 h2 h3
        · rename_i _ store _ _ _ program _ hnew
          rw [h1] at hnew
          refine Effect.issued ⟨token_id, store.merchant_id, store.store_id, staff_id, t,
            t + program.token_expiry_minutes * 60, "ISSUED", none, none, some receipt_code,
            orNull tr⟩ hnew rfl ?_ h2 h3
          simp only [h1]

theorem postRedeemStart_effect (customer_id merchant_id reward_id redeem_token
    redemption_id : String) (t : Int) (db : Db) :
    Effect db (postRedeemStart customer_id merchant_id reward_id redeem_token redemption_id t
      db).1 := by
  unfold postRedeemStart
  split
  · exact Effect.unchanged rfl rfl rfl
  · simp only [getActiveMerchant]
    exact Effect.unchanged rfl rfl rfl

theorem postClaim_effect (customer_id token_id : String) (rc : Option String)
    (lot_id ledger_id : String) (t : Int) (db : Db) :
    Effect db (postClaim customer_id token_id rc lot_id ledger_id t db).1 := by
  rcases postClaim_cases customer_id token_id rc lot_id ledger_id t db with
    ⟨e, _, hframe⟩ | ⟨tok, p, _, htok, hst, _, _, _, hl, hg, heq⟩
  · rw [hframe]
    exact Effect.unchanged rfl rfl rfl
  · rw [heq]
    have hid := getToken_id htok
    refine Effect.claimed tok customer_id p lot_id ledger_id t (by rw [hid]; exact htok) hst hl hg
      ?_ ?_ ?_
    · simp only [afterClaim, afterRateChecks_tokens]
    · simp only [afterClaim, afterRateChecks_lots]
    · simp only [afterClaim, afterRateChecks_ledger]

theorem postRedeemComplete_effect (store_id staff_id rt ledger_id : String) (t : Int)
    (db : Db) : Effect db (postRedeemComplete store_id staff_id rt ledger_id t db).1 := by
  rcases postRedeemComplete_cases store_id staff_id rt ledger_id t db with
    ⟨e, h⟩ | ⟨red, reward, store, _, _, _, _, _, _, _, hsuff, hl, heq⟩
  · rw [h]
    exact Effect.unchanged rfl rfl rfl
  · rw [heq]
    exact Effect.completed red reward staff_id ledger_id t hsuff hl rfl rfl rfl

theorem postTokenVoid_effect (store_id staff_id token_id lot_id ledger_id : String) (t : Int)
    (db : Db) : Effect db (postTokenVoid store_id staff_id token_id lot_id ledger_id t db).1 := by
  rcases postTokenVoid_cases store_id staff_id token_id lot_id ledger_id t db with
    h | ⟨tok, p, htok, _, hst, _, hd, heq⟩ | ⟨tok, p, c, htok, _, hst, _, hd, hfresh, hl, heq⟩
  · rw [h]
    exact Effect.unchanged rfl rfl rfl
  · rw [heq]
    have hid := getToken_id htok
    exact Effect.voidedUnclaimed tok (by rw [hid]; exact htok) hst hd rfl rfl rfl
  · rw [heq]
    have hid := getToken_id htok
    exact Effect.voided tok c (earnPoints p) staff_id lot_id ledger_id t (by rw [hid]; exact htok)
      hst hd hfresh hl rfl rfl rfl

/-- Every request has one of the listed effects. -/
theorem step_effect (db : Db) (op : Op) : Effect db (step db op) := by
  cases op with
  | program s b => exact postProgram_effect s b db
  | reward s n c r t => exact postReward_effect s n c r t db
  | issue s st tr tok rc t => exact postToken_effect s st tr tok rc t db
  | claim c tok rc l g t => exact postClaim_effect c tok rc l g t db
  | start c m r rt x t => exact postRedeemStart_effect c m r rt x t db
  | complete s st rt g t => exact postRedeemComplete_effect s st rt g t db
  | void s st tok l g t => exact postTokenVoid_effect s st tok l g t db

/-! ## One claim per token -/

theorem getToken_congr (db d : Db) (T : String) (h : d.earn_tokens = db.earn_tokens) :
    getToken d T = getToken db T := by
  simp only [getToken, h]

theorem getToken_append (db d : Db) (T : String) (new : EarnToken)
    (h : d.earn_tokens = db.earn_tokens ++ [new]) :
    getToken d T = (getToken db T).or (if new.token_id = T then some new else none) := by
  simp only [getToken, h, List.find?_append]
  congr 1
  by_cases hn : new.token_id = T <;> simp [List.find?_cons, hn]

theorem getToken_markRedeemed (db d : Db) (T T0 c : String) (t : Int)
    (h : d.earn_tokens = markRedeemed db.earn_tokens T0 c t) :
    getToken d T = (getToken db T).map fun x =>
      if x.token_id = T0 then
        { x with status := "REDEEMED", redeemed_at := some t, redeemed_by_customer_id := some c }
      else x := by
  simp only [getToken, h, markRedeemed]
  exact find_map_token _ (by intro x; by_cases hx : x.token_id = T0 <;> simp [hx]) _ _

theorem getToken_markVoided (db d : Db) (T T0 : String)
    (h : d.earn_tokens = markVoided db.earn_tokens T0) :
    getToken d T = (getToken db T).map fun x =>
      if x.token_id = T0 then { x with status := "VOIDED" } else x := by
  simp only [getToken, h, markVoided]
  exact find_map_token _ (by intro x; by_cases hx : x.token_id = T0 <;> simp [hx]) _ _

/-- A token that left `ISSUED` never returns to it. -/
theorem NonIssued_effect (db d : Db) (T : String) (h : NonIssued db T) (he : Effect db d) :
    NonIssued d T := by
  obtain ⟨tok, htok, hst⟩ := h
  cases he with
  | unchanged ht _ _ => exact ⟨tok, by rw [getToken_congr db d T ht]; exact htok, hst⟩
  | issued new _ _ ht _ _ =>
    exact ⟨tok, by rw [getToken_append db d T new ht, htok]; rfl, hst⟩
  | claimed tok0 c p lot_id ledger_id t _ _ _ _ ht _ _ =>
    rw [NonIssued, getToken_markRedeemed db d T tok0.token_id c t ht, htok]
    by_cases hx : tok.token_id = tok0.token_id
    · exact ⟨_, by simp only [Option.map_some', hx, if_true]; rfl, by simp⟩
    · exact ⟨tok, by simp [hx], hst⟩
  | completed _ _ _ _ _ _ _ ht _ _ =>
    exact ⟨tok, by rw [getToken_congr db d T ht]; exact htok, hst⟩
  | voidedUnclaimed tok0 _ _ _ ht _ _ =>
    rw [NonIssued, getToken_markVoided db d T tok0.token_id ht, htok]
    by_cases hx : tok.token_id = tok0.token_id
    · exact ⟨_, by simp only [Option.map_some', hx, if_true]; rfl, by simp⟩
    · exact ⟨tok, by simp [hx], hst⟩
  | voided tok0 _ _ _ _ _ _ _ _ _ _ _ ht _ _ =>
    rw [NonIssued, getToken_markVoided db d T tok0.token_id ht, htok]
    by_cases hx : tok.token_id = tok0.token_id
    · exact ⟨_, by simp only [Option.map_some', hx, if_true]; rfl, by simp⟩
    · exact ⟨tok, by simp [hx], hst⟩

theorem NonIssued_run (ops : List Op) (db : Db) (T : String) (h : NonIssued db T) :
    NonIssued (run db ops) T := by
  induction ops generalizing db with
  | nil => exact h
  | cons op ops ih =>
    exact ih (step db op) (NonIssued_effect db (step db op) T h (step_effect db op))

/-- A claim of a token that is not `ISSUED` is rejected and changes nothing. -/
theorem postClaim_nonIssued (customer_id token_id : String) (rc : Option String)
    (lot_id ledger_id : String) (t : Int) (db : Db) (hid : token_id ≠ "")
    (h : NonIssued db token_id) :
    ∃ st, st ≠ "ISSUED" ∧ postClaim customer_id token_id rc lot_id ledger_id t db =
      (db, Except.error (Err.token_not_issued st)) := by
  obtain ⟨tok, htok, hst⟩ := h
  exact ⟨tok.status, hst, by simp [postClaim, hid, htok, hst]⟩

theorem postClaim_ok_nonIssued (customer_id token_id : String) (rc : Option String)
    (lot_id ledger_id : String) (t : Int) (db : Db) (r : ClaimOk)
    (hok : (postClaim customer_id token_id rc lot_id ledger_id t db).2 = Except.ok r) :
    token_id ≠ "" ∧
      NonIssued (postClaim customer_id token_id rc lot_id ledger_id t db).1 token_id := by
  obtain ⟨tok, p, h0, htok, _, _, _, _, _, _, heq, _⟩ :=
    postClaim_ok_facts customer_id token_id rc lot_id ledger_id t db r hok
  refine ⟨h0, ?_⟩
  have hid := getToken_id htok
  rw [heq, NonIssued, getToken_markRedeemed (afterRateChecks db tok customer_id p t) _ token_id
    tok.token_id customer_id t rfl, getToken_congr db _ token_id (afterRateChecks_tokens ..), htok]
  exact ⟨_, by simp only [Option.map_some', if_true]; rfl, by simp⟩

theorem lotsOfToken_congr (db d : Db) (T : String) (h : d.point_lots = db.point_lots) :
    lotsOfToken d T = lotsOfToken db T := by
  simp only [lotsOfToken, h]

theorem earnsOfToken_congr (db d : Db) (T : String) (h : d.point_ledger = db.point_ledger) :
    earnsOfToken d T = earnsOfToken db T := by
  simp only [earnsOfToken, h]

theorem lotsAfter_filter_source (tbl : List Lot) (us : List Used) (T : String) :
    ((lotsAfter tbl us).filter fun l => decide (l.source_token_id = some T)).length =
      (tbl.filter fun l => decide (l.source_token_id = some T)).length := by
  unfold lotsAfter
  rw [List.filter_map, List.length_map]
  rfl

theorem voidDebt_source (db : Db) (tok : EarnToken) (c : String) (points : Int)
    (lot_id : String) (t : Int) (T : String) :
    (voidDebt db tok c points lot_id t).filter
      (fun l => decide (l.source_token_id = some T)) = [] := by
  unfold voidDebt
  split <;> simp

/-- The per-token bound survives every request. -/
theorem TokenInv_effect (db d : Db) (h : TokenInv db) (he : Effect db d) : TokenInv d := by
  intro T
  obtain ⟨h1, h2, h3⟩ := h T
  cases he with
  | unchanged ht hl hg =>
    rw [lotsOfToken_congr db d T hl, earnsOfToken_congr db d T hg, getToken_congr db d T ht]
    exact ⟨h1, h2, h3⟩
  | issued new hnew hst ht hl hg =>
    rw [lotsOfToken_congr db d T hl, earnsOfToken_congr db d T hg]
    refine ⟨h1, h2, fun hall => h3 ?_⟩
    intro tok htok
    exact hall tok (by rw [getToken_append db d T new ht, htok]; rfl)
  | claimed tok0 c p lot_id ledger_id t htok hst _ _ ht hl hg =>
    have hlen : (lotsOfToken d T).length =
        (lotsOfToken db T).length + (if tok0.token_id = T then 1 else 0) := by
      simp only [lotsOfToken, hl, List.filter_append, List.length_append, earnLot]
      by_cases hx : tok0.token_id = T <;> simp [List.filter_cons, hx]
    have hlen2 : (earnsOfToken d T).length =
        (earnsOfToken db T).length + (if tok0.token_id = T then 1 else 0) := by
      simp only [earnsOfToken, hg, List.filter_append, List.length_append, earnEntry]
      by_cases hx : tok0.token_id = T <;> simp [List.filter_cons, hx]
    by_cases hx : tok0.token_id = T
    · subst hx
      obtain ⟨z1, z2⟩ := h3 (fun tok htok2 => by
        rw [htok] at htok2
        cases htok2
        exact hst)
      rw [hlen, hlen2, z1, z2]
      refine ⟨by simp, by simp, fun hall => ?_⟩
      have := hall _ (by
        rw [getToken_markRedeemed db d tok0.token_id tok0.token_id c t ht, htok]
        simp only [Option.map_some', if_true]
        rfl)
      simp at this
    · rw [hlen, hlen2]
      simp only [hx, if_false, add_zero]
      refine ⟨h1, h2, fun hall => h3 ?_⟩
      intro tok htok2
      have hid := getToken_id htok2
      have := hall tok (by
        rw [getToken_markRedeemed db d T tok0.token_id c t ht, htok2]
        have : ¬ tok.token_id = tok0.token_id := by rw [hid]; exact fun e => hx e.symm
        simp [this])
      exact this
  | completed red reward staff_id ledger_id t _ _ ht hl hg =>
    have hlen : (lotsOfToken d T).length = (lotsOfToken db T).length := by
      simp only [lotsOfToken, hl]
      exact lotsAfter_filter_source _ _ T
    have hlen2 : (earnsOfToken d T).length = (earnsOfToken db T).length := by
      simp [earnsOfToken, hg, List.filter_append, redeemEntry]
    rw [hlen, hlen2, getToken_congr db d T ht]
    exact ⟨h1, h2, h3⟩
  | voidedUnclaimed tok0 htok hst hd ht hl hg =>
    rw [lotsOfToken_congr db d T hl, earnsOfToken_congr db d T hg]
    refine ⟨h1, h2, fun hall => h3 ?_⟩
    intro tok htok2
    have := hall _ (by rw [getToken_markVoided db d T tok0.token_id ht, htok2]; rfl)
    by_cases hx : tok.token_id = tok0.token_id
    · simp [hx] at this
    · simpa [hx] using this
  | voided tok0 c points staff_id lot_id ledger_id t htok hst hd _ _ ht hl hg =>
    have hlen : (lotsOfToken d T).length = (lotsOfToken db T).length := by
      simp only [lotsOfToken, hl, List.filter_append, List.length_append, voidDebt_source,
        List.length_nil, add_zero]
      exact lotsAfter_filter_source _ _ T
    have hlen2 : (earnsOfToken d T).length = (earnsOfToken db T).length := by
      simp [earnsOfToken, hg, List.filter_append, voidEntry]
    rw [hlen, hlen2]
    refine ⟨h1, h2, fun hall => h3 ?_⟩
    intro tok htok2
    have := hall _ (by rw [getToken_markVoided db d T tok0.token_id ht, htok2]; rfl)
    by_cases hx : tok.token_id = tok0.token_id
    · simp [hx] at this
    · simpa [hx] using this

theorem TokenInv_reachable (db : Db) (h : Reachable db) : TokenInv db := by
  induction h with
  | init db hinit =>
    obtain ⟨_, hl, hg, _⟩ := hinit
    intro T
    simp [lotsOfToken, earnsOfToken, hl, hg]
  | step db op _ ih => exact TokenInv_effect db (step db op) ih (step_effect db op)

/-- C6. Each earn token is claimed at most once.  After a successful claim of
`T`, whatever requests follow, every further claim of `T` by any customer is
rejected with `token_not_issued` and leaves the database (lots, ledger,
balances) as it was; and in every reachable database at most one lot has
`source_token_id = T` and at most one `EARN` ledger entry names `T`. -/
theorem claim_at_most_once :
    (∀ (db : Db) (c T : String) (rc : Option String) (lot_id ledger_id : String) (t : Int)
        (r : ClaimOk) (ops : List Op) (c2 : String) (rc2 : Option String)
        (lot2 ledger2 : String) (t2 : Int),
      (postClaim c T rc lot_id ledger_id t db).2 = Except.ok r →
      ∃ st, st ≠ "ISSUED" ∧
        postClaim c2 T rc2 lot2 ledger2 t2 (run (postClaim c T rc lot_id ledger_id t db).1 ops) =
          (run (postClaim c T rc lot_id ledger_id t db).1 ops,
            Except.error (Err.token_not_issued st))) ∧
    (∀ (db : Db) (T : String), Reachable db →
      (lotsOfToken db T).length ≤ 1 ∧ (earnsOfToken db T).length ≤ 1) := by
  constructor
  · intro db c T rc lot_id ledger_id t r ops c2 rc2 lot2 ledger2 t2 hok
    obtain ⟨hid, hni⟩ := postClaim_ok_nonIssued c T rc lot_id ledger_id t db r hok
    exact postClaim_nonIssued c2 T rc2 lot2 ledger2 t2 _ hid (NonIssued_run ops _ T hni)
  · intro db T hr
    exact ⟨(TokenInv_reachable db hr T).1, (TokenInv_reachable db hr T).2.1⟩

theorem Reachable_run (db : Db) (ops : List Op) (h : Reachable db) : Reachable (run db ops) := by
  induction ops generalizing db with
  | nil => exact h
  | cons op ops ih => exact ih (step db op) (Reachable.step db op h)

theorem exShop_initial : Initial exShop := ⟨rfl, rfl, rfl, rfl, rfl, rfl⟩

/-- C6 on the example shop: after `c` claimed `T1`, and after the token was
then voided, a claim of `T1` by `c2` is rejected; and `T1` has at most one lot
and one `EARN` entry. -/
theorem claim_at_most_once_witness :
    (∃ st, st ≠ "ISSUED" ∧
      postClaim "c2" "T1" none "L9" "G9" 40
          (run (postClaim "c" "T1" none "L1" "G1" 20 exIssued).1
            [Op.void "s" "st" "T1" "L2" "G2" 30]) =
        (run (postClaim "c" "T1" none "L1" "G1" 20 exIssued).1
            [Op.void "s" "st" "T1" "L2" "G2" 30],
          Except.error (Err.token_not_issued st))) ∧
    (lotsOfToken exRepriced "T1").length ≤ 1 ∧ (earnsOfToken exRepriced "T1").length ≤ 1 :=
  ⟨claim_at_most_once.1 exIssued "c" "T1" none "L1" "G1" 20 ⟨"m", 1, 1⟩
      [Op.void "s" "st" "T1" "L2" "G2" 30] "c2" none "L9" "G9" 40 (by decide),
    claim_at_most_once.2 exRepriced "T1"
      (Reachable_run exShop exRepricedOps (Reachable.init exShop exShop_initial))⟩

/-- The completion handler does not look at debt lots.  In the database
`exDebt`, which holds a `PENDING` redemption and so is reached by no sequence
of requests, the redemption `RT2` of customer `c` is unexpired at time 80, the
reward costs 1 point and `getBalance` of `c` is 0 (a debt lot of -1 and a lot
of +1); the completion succeeds, takes the +1 lot and leaves the balance at
-1. -/
theorem complete_ignores_debt :
    (getRedemption exDebt "RT2").map (fun r => (r.status, r.redeem_expires_at, r.reward_id)) =
      some ("PENDING", some 331, "r") ∧
    (getReward exDebt "r").map Reward.points_cost = some 1 ∧
    exDebt.point_lots.map (fun l => (l.lot_id, l.points_remaining)) =
      [("L1", 0), ("L2", -1), ("L3", 1)] ∧
    getBalance exDebt "m" "c" 80 = 0 ∧
    (postRedeemComplete "s" "st" "RT2" "G5" 80 exDebt).2 = Except.ok ⟨"drink", 0⟩ ∧
    (postRedeemComplete "s" "st" "RT2" "G5" 80 exDebt).1.point_lots.map
        (fun l => (l.lot_id, l.points_remaining)) = [("L1", 0), ("L2", -1), ("L3", 0)] ∧
    getBalance (postRedeemComplete "s" "st" "RT2" "G5" 80 exDebt).1 "m" "c" 80 = -1 :=
  ⟨by decide, by decide, by decide, by decide, by decide, by decide, by decide⟩

/-- C10 fails on the code.  In the reachable database `exRepriced` token `T1`
was claimed by `c` for 1 point (`EARN` +1) and the program was then updated to
5 points per earn; the void of `T1` writes `VOID_EARN` -5 and lowers the lot
total of `c` by 5 (the 1-point lot goes to 0 and a debt lot of -4 appears), so
the `EARN` and `VOID_EARN` deltas of `T1` sum to -4. -/
theorem void_uses_current_policy :
    Reachable exRepriced ∧
    exRepriced.point_ledger.map (fun e => (e.event_type, e.points_delta, e.token_id)) =
      [("EARN", 1, some "T1")] ∧
    rowsSum exRepriced.point_lots = 1 ∧
    (postTokenVoid "s" "st" "T1" "L2" "G3" 50 exRepriced).2 = Except.ok () ∧
    (postTokenVoid "s" "st" "T1" "L2" "G3" 50 exRepriced).1.point_ledger.map
        (fun e => (e.event_type, e.points_delta, e.token_id)) =
      [("EARN", 1, some "T1"), ("VOID_EARN", -5, some "T1")] ∧
    (postTokenVoid "s" "st" "T1" "L2" "G3" 50 exRepriced).1.point_lots.map
        (fun l => (l.lot_id, l.points_remaining)) = [("L1", 0), ("L2", -4)] ∧
    rowsSum (postTokenVoid "s" "st" "T1" "L2" "G3" 50 exRepriced).1.point_lots = 1 - 5 :=
  ⟨Reachable_run exShop exRepricedOps (Reachable.init exShop exShop_initial),
    by decide, by decide, by decide, by decide, by decide, by decide⟩

/-! ## Insufficient points -/

/-- The raw `consumePointsFIFO` has written its lot updates when it throws. -/
theorem consumePointsFIFO_short (db : Db) (m c rid : String) (n t : Int)
    (h : eligibleSum db m c t < n) :
    consumePointsFIFO m c n rid t db =
      ({ db with point_lots := applyTakes db.point_lots (takes (selectLots db m c t) n) },
        Except.error Exn.insufficient_points) := by
  have hrem := remainder_pos db m c n t h
  simp only [consumePointsFIFO, consumeLoop_eq, hrem, if_true]

/-- The completion handler, when the eligible points fall short of the cost. -/
theorem postRedeemComplete_short (store_id staff_id rt ledger_id : String) (t : Int) (db : Db)
    (red : Redemption) (store : Store) (reward : Reward)
    (hrt : rt ≠ "") (hred : getRedemption db rt = some red) (hst : red.status = "PENDING")
    (hexp : redeemExpired red t = false) (hstore : getStore db store_id = some store)
    (hm : red.merchant_id = store.merchant_id) (hrew : getReward db red.reward_id = some reward)
    (hlt : eligibleSum db red.merchant_id red.customer_id t < reward.points_cost) :
    postRedeemComplete store_id staff_id rt ledger_id t db =
      (db, Except.error (Err.insufficient_points none)) := by
  have hrem := remainder_pos db red.merchant_id red.customer_id reward.points_cost t hlt
  rcases transaction_completeTx db rt red reward staff_id store.store_id ledger_id t hred hst
    with ⟨_, h2⟩ | ⟨h1, _⟩ | ⟨h1, _, _⟩
  · simp [postRedeemComplete, hrt, hred, hst, hexp, hstore, hm, hrew, h2]
  · exact absurd hrem h1
  · exact absurd hrem h1

/-- C1. When `points_needed` exceeds the eligible points of `(m, c)` at `t`,
`consumePointsFIFO` run in a transaction throws `insufficient_points` and the
database afterwards is the database before: no lot changed, no consumption
record was written, the balance is the same.  The completion handler, the one
caller, then answers `insufficient_points` and leaves the database as it
was. -/
theorem consumeFIFO_insufficient_rolls_back (db : Db) (m c rid : String) (n t : Int)
    (h : eligibleSum db m c t < n) :
    transaction (consumePointsFIFO m c n rid t) db =
      (db, Except.error Exn.insufficient_points) ∧
    (transaction (consumePointsFIFO m c n rid t) db).1.point_lots = db.point_lots ∧
    (transaction (consumePointsFIFO m c n rid t) db).1.redemption_consumptions =
      db.redemption_consumptions ∧
    (∀ t2, getBalance (transaction (consumePointsFIFO m c n rid t) db).1 m c t2 =
      getBalance db m c t2) ∧
    (∀ (store_id staff_id rt ledger_id : String) (red : Redemption) (store : Store)
        (reward : Reward),
      rt ≠ "" → getRedemption db rt = some red → red.status = "PENDING" →
      redeemExpired red t = false → getStore db store_id = some store →
      red.merchant_id = store.merchant_id → getReward db red.reward_id = some reward →
      red.merchant_id = m → red.customer_id = c → reward.points_cost = n →
      postRedeemComplete store_id staff_id rt ledger_id t db =
        (db, Except.error (Err.insufficient_points none))) := by
  rw [transaction_consume_short db m c rid n t h]
  refine ⟨rfl, rfl, rfl, fun _ => rfl, ?_⟩
  intro store_id staff_id rt ledger_id red store reward hrt hred hst hexp hstore hm hrew e1 e2 e3
  subst e1 e2 e3
  exact postRedeemComplete_short store_id staff_id rt ledger_id t db red store reward hrt hred
    hst hexp hstore hm hrew h

/-- C1 at the example store: 40 points are asked, 10 are eligible. -/
theorem consumeFIFO_insufficient_rolls_back_witness :
    eligibleSum exLots "m" "c" 10 < 40 ∧
    transaction (consumePointsFIFO "m" "c" 40 "x1" 10) exLots =
      (exLots, Except.error Exn.insufficient_points) :=
  ⟨by decide, (consumeFIFO_insufficient_rolls_back exLots "m" "c" "x1" 40 10 (by decide)).1⟩

/-! ## Voiding a claimed token -/

/-- The void transaction with fresh identifiers commits. -/
theorem transaction_voidTx_fresh (db : Db) (tok : EarnToken) (staff_id : String) (points : Int)
    (lot_id ledger_id c : String) (t : Int)
    (htok : getToken db tok.token_id = some tok) (hst : tok.status ≠ "VOIDED")
    (hd : voidDebtor tok = some c)
    (hlot : 0 < points - usedSum (voidTakes db tok c points t) →
      lot_id ∉ db.point_lots.map Lot.lot_id)
    (hledger : ledger_id ∉ db.point_ledger.map LedgerEntry.ledger_id) :
    transaction (voidTx tok.token_id staff_id points lot_id ledger_id t) db =
      (afterVoid db tok c points staff_id lot_id ledger_id t, Except.ok ()) := by
  rcases removePoints_cases tok.merchant_id c points lot_id t
      { db with earn_tokens := markVoided db.earn_tokens tok.token_id }
    with ⟨hrem, hin, _⟩ | ⟨_, h⟩
  · exact absurd hin (hlot hrem)
  · simp [transaction, voidTx, htok, hst, hd, h, insertLedger, hledger, afterVoid, voidEntry,
      voidDebt, voidTakes, selectLots]

/-- The void handler with fresh identifiers, on a claimed token of the acting
store. -/
theorem postTokenVoid_fresh (store_id staff_id token_id lot_id ledger_id : String) (t : Int)
    (db : Db) (tok : EarnToken) (p : Program) (c : String)
    (hid : token_id ≠ "") (htok : getToken db token_id = some tok)
    (hstore : tok.store_id = store_id) (hst : tok.status ≠ "VOIDED")
    (hprog : getProgram db tok.merchant_id = some p) (hd : voidDebtor tok = some c)
    (hlot : 0 < earnPoints p - usedSum (voidTakes db tok c (earnPoints p) t) →
      lot_id ∉ db.point_lots.map Lot.lot_id)
    (hledger : ledger_id ∉ db.point_ledger.map LedgerEntry.ledger_id) :
    postTokenVoid store_id staff_id token_id lot_id ledger_id t db =
      (afterVoid db tok c (earnPoints p) staff_id lot_id ledger_id t, Except.ok ()) := by
  have hidt := getToken_id htok
  have htx := transaction_voidTx_fresh db tok staff_id (earnPoints p) lot_id ledger_id c t
    (by rw [hidt]; exact htok) hst hd hlot hledger
  rw [hidt] at htx
  simp [postTokenVoid, hid, htok, hstore, hst, hprog, htx]

theorem takes_nil_of_no_eligible (db : Db) (m c : String) (t n : Int)
    (h : ∀ l ∈ db.point_lots, eligible m c t l = false) :
    takes (selectLots db m c t) n = [] := by
  have : selectLots db m c t = [] := by
    unfold selectLots
    have hf : db.point_lots.filter (eligible m c t) = [] := by
      rw [List.filter_eq_nil_iff]
      intro l hl
      simp [h l hl]
    rw [hf]
    rfl
  rw [this]
  rfl

theorem lotsAfter_nil (tbl : List Lot) : lotsAfter tbl [] = tbl := by
  unfold lotsAfter
  conv_rhs => rw [← List.map_id tbl]
  apply List.map_congr_left
  intro l _
  simp [usedFor, usedSum, Lot.minus_zero]

theorem getToken_markVoided_same (tok : EarnToken) (toks : List EarnToken)
    (h : toks.find? (fun x => decide (x.token_id = tok.token_id)) = some tok) :
    (markVoided toks tok.token_id).find? (fun x => decide (x.token_id = tok.token_id)) =
      some { tok with status := "VOIDED" } := by
  unfold markVoided
  rw [find_map_token _ (by intro x; by_cases hx : x.token_id = tok.token_id <;> simp [hx]), h]
  simp

/-- What the void of a claimed token whose points are gone does. -/
theorem void_spent_facts (store_id staff_id token_id lot_id ledger_id : String) (t : Int)
    (db : Db) (tok : EarnToken) (p : Program) (c : String)
    (hid : token_id ≠ "") (htok : getToken db token_id = some tok)
    (hstore : tok.store_id = store_id) (hst : tok.status = "REDEEMED")
    (hc : tok.redeemed_by_customer_id = some c) (hcne : c ≠ "")
    (hprog : getProgram db tok.merchant_id = some p) (hppe : 0 < p.points_per_earn)
    (hspent : ∀ l ∈ db.point_lots, eligible tok.merchant_id c t l = false)
    (hlot : lot_id ∉ db.point_lots.map Lot.lot_id)
    (hledger : ledger_id ∉ db.point_ledger.map LedgerEntry.ledger_id) :
    (postTokenVoid store_id staff_id token_id lot_id ledger_id t db).2 = Except.ok () ∧
    (postTokenVoid store_id staff_id token_id lot_id ledger_id t db).1.point_lots =
      db.point_lots ++ [⟨lot_id, tok.merchant_id, c, -p.points_per_earn, t, none, none,
        some "Debt from void (insufficient points)"⟩] ∧
    (postTokenVoid store_id staff_id token_id lot_id ledger_id t db).1.point_ledger =
      db.point_ledger ++ [⟨ledger_id, tok.merchant_id, c, "VOID_EARN", -p.points_per_earn,
        some token_id, none, t, some staff_id, some "Voided by vendor"⟩] ∧
    customerDeltas (postTokenVoid store_id staff_id token_id lot_id ledger_id t db).1 c =
      customerDeltas db c - p.points_per_earn ∧
    getToken (postTokenVoid store_id staff_id token_id lot_id ledger_id t db).1 token_id =
      some { tok with status := "VOIDED" } := by
  have hst2 : tok.status ≠ "VOIDED" := by rw [hst]; decide
  have hd : voidDebtor tok = some c := by simp [voidDebtor, hst, hc, orNull, hcne]
  have hpts : earnPoints p = p.points_per_earn := by
    have : p.points_per_earn ≠ 0 := by omega
    simp [earnPoints, this]
  have htakes : voidTakes db tok c (earnPoints p) t = [] :=
    takes_nil_of_no_eligible db tok.merchant_id c t _ hspent
  have heq := postTokenVoid_fresh store_id staff_id token_id lot_id ledger_id t db tok p c hid
    htok hstore hst2 hprog hd (fun _ => hlot) hledger
  have hidt := getToken_id htok
  rw [hpts] at htakes heq
  rw [heq]
  refine ⟨rfl, ?_, ?_, ?_, ?_⟩
  · simp only [afterVoid, voidDebt, htakes, lotsAfter_nil, usedSum, List.map_nil,
      List.sum_nil, sub_zero, hppe, if_true]
  · simp only [afterVoid, voidEntry, hidt]
  · simp only [customerDeltas, afterVoid, voidEntry, List.filter_append, List.map_append,
      List.sum_append]
    simp [List.filter_cons]
    ring
  · simp only [getToken, afterVoid]
    rw [← hidt]
    exact getToken_markVoided_same tok db.earn_tokens (by rw [hidt]; exact htok)

/-- C11. Voiding a `REDEEMED` token of the acting store whose customer has no
eligible positive lot left (fresh identifiers, active program with
`points_per_earn > 0`) succeeds: exactly one lot is appended, with
`points_remaining = -points_per_earn` and no expiry, no existing lot changes,
exactly one `VOID_EARN` entry with `points_delta = -points_per_earn` is
appended, the customer's ledger deltas sum to the sum before minus
`points_per_earn`, and the token is `VOIDED`. -/
theorem void_spent_token (store_id staff_id token_id lot_id ledger_id : String) (t : Int)
    (db : Db) (tok : EarnToken) (p : Program) (c : String)
    (hid : token_id ≠ "") (htok : getToken db token_id = some tok)
    (hstore : tok.store_id = store_id) (hst : tok.status = "REDEEMED")
    (hc : tok.redeemed_by_customer_id = some c) (hcne : c ≠ "")
    (hprog : getProgram db tok.merchant_id = some p) (hppe : 0 < p.points_per_earn)
    (hspent : ∀ l ∈ db.point_lots, eligible tok.merchant_id c t l = false)
    (hlot : lot_id ∉ db.point_lots.map Lot.lot_id)
    (hledger : ledger_id ∉ db.point_ledger.map LedgerEntry.ledger_id) :
    (postTokenVoid store_id staff_id token_id lot_id ledger_id t db).2 = Except.ok () ∧
    (postTokenVoid store_id staff_id token_id lot_id ledger_id t db).1.point_lots =
      db.point_lots ++ [⟨lot_id, tok.merchant_id, c, -p.points_per_earn, t, none, none,
        some "Debt from void (insufficient points)"⟩] ∧
    (postTokenVoid store_id staff_id token_id lot_id ledger_id t db).1.point_ledger =
      db.point_ledger ++ [⟨ledger_id, tok.merchant_id, c, "VOID_EARN", -p.points_per_earn,
        some token_id, none, t, some staff_id, some "Voided by vendor"⟩] ∧
    customerDeltas (postTokenVoid store_id staff_id token_id lot_id ledger_id t db).1 c =
      customerDeltas db c - p.points_per_earn ∧
    getToken (postTokenVoid store_id staff_id token_id lot_id ledger_id t db).1 token_id =
      some { tok with status := "VOIDED" } :=
  void_spent_facts store_id staff_id token_id lot_id ledger_id t db tok p c hid htok hstore hst
    hc hcne hprog hppe hspent hlot hledger

/-- C11 on the example shop: `c` spent the point of `T1`, then `T1` is voided. -/
theorem void_spent_token_witness :
    (postTokenVoid "s" "st" "T1" "L2" "G3" 50 exSpent).2 = Except.ok () ∧
    (postTokenVoid "s" "st" "T1" "L2" "G3" 50 exSpent).1.point_lots =
      exSpent.point_lots ++ [⟨"L2", "m", "c", -1, 50, none, none,
        some "Debt from void (insufficient points)"⟩] :=
  ⟨(void_spent_token "s" "st" "T1" "L2" "G3" 50 exSpent
      ⟨"T1", "m", "s", "st", 10, 10 + 120 * 60, "REDEEMED", some 20, some "c", some "ABCD",
        none⟩
      ⟨"p", "m", 1, 120, some 180, some 0, some 0, 0, 1⟩ "c" (by decide) (by decide) (by decide)
      (by decide) (by decide) (by decide) (by decide) (by decide) (by decide) (by decide)
      (by decide)).1,
    (void_spent_token "s" "st" "T1" "L2" "G3" 50 exSpent
      ⟨"T1", "m", "s", "st", 10, 10 + 120 * 60, "REDEEMED", some 20, some "c", some "ABCD",
        none⟩
      ⟨"p", "m", 1, 120, some 180, some 0, some 0, 0, 1⟩ "c" (by decide) (by decide) (by decide)
      (by decide) (by decide) (by decide) (by decide) (by decide) (by decide) (by decide)
      (by decide)).2.1⟩

/-! ## Void is idempotent -/

theorem postTokenVoid_voided (store_id staff_id token_id lot_id ledger_id : String) (t : Int)
    (db : Db) (hid : token_id ≠ "") (h : VoidedAt db token_id store_id) :
    postTokenVoid store_id staff_id token_id lot_id ledger_id t db = (db, Except.ok ()) := by
  obtain ⟨tok, htok, hst, hs⟩ := h
  simp [postTokenVoid, hid, htok, hst, hs]

/-- A void that answered `ok` leaves the token `VOIDED`. -/
theorem postTokenVoid_ok_voided (store_id staff_id token_id lot_id ledger_id : String) (t : Int)
    (db : Db)
    (hok : (postTokenVoid store_id staff_id token_id lot_id ledger_id t db).2 = Except.ok ()) :
    token_id ≠ "" ∧
      VoidedAt (postTokenVoid store_id staff_id token_id lot_id ledger_id t db).1 token_id
        store_id := by
  by_cases h0 : token_id = ""
  · simp [postTokenVoid, h0] at hok
  refine ⟨h0, ?_⟩
  cases htok : getToken db token_id with
  | none => simp [postTokenVoid, h0, htok] at hok
  | some tok =>
    by_cases hs : tok.store_id = store_id
    swap
    · simp [postTokenVoid, h0, htok, hs] at hok
    by_cases hst : tok.status = "VOIDED"
    · have : postTokenVoid store_id staff_id token_id lot_id ledger_id t db =
          (db, Except.ok ()) := by simp [postTokenVoid, h0, htok, hs, hst]
      rw [this]
      exact ⟨tok, htok, hst, hs⟩
    cases hprog : getProgram db tok.merchant_id with
    | none => simp [postTokenVoid, h0, htok, hs, hst, hprog] at hok
    | some p =>
      have hid := getToken_id htok
      have htok2 : getToken db tok.token_id = some tok := by rw [hid]; exact htok
      have hpost : postTokenVoid store_id staff_id token_id lot_id ledger_id t db =
          (match transaction (voidTx tok.token_id staff_id (earnPoints p) lot_id ledger_id t)
              db with
            | (db1, Except.ok _) => (db1, Except.ok ())
            | (db1, Except.error _) => (db1, Except.error Err.server_error)) := by
        simp [postTokenVoid, h0, htok, hs, hst, hprog, hid]
      have hfound : ∀ d : Db, d.earn_tokens = markVoided db.earn_tokens tok.token_id →
          VoidedAt d token_id store_id := by
        intro d hd
        refine ⟨{ tok with status := "VOIDED" }, ?_, rfl, hs⟩
        rw [getToken_markVoided db d token_id tok.token_id hd, htok]
        simp
      rcases transaction_voidTx db tok staff_id (earnPoints p) lot_id ledger_id t htok2 hst
        with ⟨_, h⟩ | ⟨c, _, h⟩ | ⟨c, _, _, _, h⟩
      · have e : postTokenVoid store_id staff_id token_id lot_id ledger_id t db =
            (afterVoidUnclaimed db tok, Except.ok ()) := by rw [hpost, h]
        rw [e]
        exact hfound _ rfl
      · rw [hpost, h] at hok
        simp at hok
      · have e : postTokenVoid store_id staff_id token_id lot_id ledger_id t db =
            (afterVoid db tok c (earnPoints p) staff_id lot_id ledger_id t, Except.ok ()) := by
          rw [hpost, h]
        rw [e]
        exact hfound _ rfl

/-- No request changes a `VOIDED` token. -/
theorem VoidedAt_effect (db d : Db) (T s : String) (h : VoidedAt db T s) (he : Effect db d) :
    VoidedAt d T s := by
  obtain ⟨tok, htok, hst, hs⟩ := h
  have hidt := getToken_id htok
  cases he with
  | unchanged ht _ _ => exact ⟨tok, by rw [getToken_congr db d T ht]; exact htok, hst, hs⟩
  | issued new _ _ ht _ _ =>
    exact ⟨tok, by rw [getToken_append db d T new ht, htok]; rfl, hst, hs⟩
  | claimed tok0 c p lot_id ledger_id t htok0 hst0 _ _ ht _ _ =>
    have hne : ¬ tok.token_id = tok0.token_id := by
      intro e
      rw [← e, hidt, htok] at htok0
      cases htok0
      rw [hst0] at hst
      exact absurd hst (by decide)
    refine ⟨tok, ?_, hst, hs⟩
    rw [getToken_markRedeemed db d T tok0.token_id c t ht, htok]
    simp [hne]
  | completed _ _ _ _ _ _ _ ht _ _ =>
    exact ⟨tok, by rw [getToken_congr db d T ht]; exact htok, hst, hs⟩
  | voidedUnclaimed tok0 htok0 hst0 _ ht _ _ =>
    have hne : ¬ tok.token_id = tok0.token_id := by
      intro e
      rw [← e, hidt, htok] at htok0
      cases htok0
      exact hst0 hst
    refine ⟨tok, ?_, hst, hs⟩
    rw [getToken_markVoided db d T tok0.token_id ht, htok]
    simp [hne]
  | voided tok0 _ _ _ _ _ _ htok0 hst0 _ _ _ ht _ _ =>
    have hne : ¬ tok.token_id = tok0.token_id := by
      intro e
      rw [← e, hidt, htok] at htok0
      cases htok0
      exact hst0 hst
    refine ⟨tok, ?_, hst, hs⟩
    rw [getToken_markVoided db d T tok0.token_id ht, htok]
    simp [hne]

theorem VoidedAt_run (ops : List Op) (db : Db) (T s : String) (h : VoidedAt db T s) :
    VoidedAt (run db ops) T s := by
  induction ops generalizing db with
  | nil => exact h
  | cons op ops ih =>
    exact ih (step db op) (VoidedAt_effect db (step db op) T s h (step_effect db op))

/-- C12. Void is idempotent.  Voiding a token of the acting store that is
already `VOIDED` answers `ok` and leaves the whole database unchanged; and
once a void of `T` has answered `ok`, whatever requests follow, every further
void of `T` by staff of that store answers `ok` and changes nothing, so a void
followed by a void leaves the state of a single void and points are removed at
most once per token. -/
theorem void_idempotent :
    (∀ (db : Db) (s st T l g : String) (t : Int) (tok : EarnToken),
      T ≠ "" → getToken db T = some tok → tok.store_id = s → tok.status = "VOIDED" →
      postTokenVoid s st T l g t db = (db, Except.ok ())) ∧
    (∀ (db : Db) (s st T l g : String) (t : Int) (ops : List Op) (st2 l2 g2 : String) (t2 : Int),
      (postTokenVoid s st T l g t db).2 = Except.ok () →
      postTokenVoid s st2 T l2 g2 t2 (run (postTokenVoid s st T l g t db).1 ops) =
        (run (postTokenVoid s st T l g t db).1 ops, Except.ok ())) := by
  constructor
  · intro db s st T l g t tok hid htok hs hst
    exact postTokenVoid_voided s st T l g t db hid ⟨tok, htok, hst, hs⟩
  · intro db s st T l g t ops st2 l2 g2 t2 hok
    obtain ⟨hid, hv⟩ := postTokenVoid_ok_voided s st T l g t db hok
    exact postTokenVoid_voided s st2 T l2 g2 t2 _ hid (VoidedAt_run ops _ T s hv)

/-- C12 on the example shop: `T1` is voided twice, by two staff members. -/
theorem void_idempotent_witness :
    postTokenVoid "s" "st2" "T1" "L8" "G8" 60
        (run (postTokenVoid "s" "st" "T1" "L2" "G3" 50 exSpent).1 []) =
      (run (postTokenVoid "s" "st" "T1" "L2" "G3" 50 exSpent).1 [], Except.ok ()) :=
  void_idempotent.2 exSpent "s" "st" "T1" "L2" "G3" 50 [] "st2" "L8" "G8" 60 (by decide)

/-! ## Starting a redemption -/

/-- The start handler never gets past its merchant lookup: with both ids
given it answers the 500 `internal` and writes nothing. -/
theorem postRedeemStart_throws (c m r rt x : String) (t : Int) (db : Db) (hm : m ≠ "")
    (hr : r ≠ "") : postRedeemStart c m r rt x t db = (db, Except.error Err.internal) := by
  simp [postRedeemStart, hm, hr, getActiveMerchant]

/-- Every start request fails and leaves the database as it was. -/
theorem postRedeemStart_cases (c m r rt x : String) (t : Int) (db : Db) :
    ∃ e, postRedeemStart c m r rt x t db = (db, Except.error e) := by
  by_cases h0 : m = "" ∨ r = ""
  · exact ⟨Err.missing_fields, by simp only [postRedeemStart, h0, if_true]⟩
  · exact ⟨Err.internal,
      postRedeemStart_throws c m r rt x t db (fun e => h0 (Or.inl e)) (fun e => h0 (Or.inr e))⟩

/-- C13. The start handler never answers `insufficient_points`.  In the example
shop after token `T1` was issued, the merchant `m` is stored with status
`active`, its program and the reward `r` (cost 1) are active, and customer
`c2` holds 0 points, less than the cost.  The start of a redemption by `c2`
is answered with the 500 `internal`, not with `insufficient_points` and a
balance of 0: the merchant lookup throws before the balance is read.  The
same holds whatever the database and the ids: with both ids given the answer
is `internal`. -/
theorem start_not_insufficient :
    exIssued.merchants = [⟨"m", "M", "active", 0⟩] ∧
    getProgram exIssued "m" = some ⟨"p", "m", 1, 120, some 180, some 0, some 0, 0, 1⟩ ∧
    getReward exIssued "r" = some ⟨"r", "p", "drink", 1, 1, 0⟩ ∧
    getBalance exIssued "m" "c2" 30 = 0 ∧
    postRedeemStart "c2" "m" "r" "RT9" "X9" 30 exIssued =
      (exIssued, Except.error Err.internal) ∧
    (∀ (c m r rt x : String) (t : Int) (db : Db) (b : Option Int),
      (postRedeemStart c m r rt x t db).2 ≠ Except.error (Err.insufficient_points b)) := by
  refine ⟨by decide, by decide, by decide, by decide, by decide, ?_⟩
  intro c m r rt x t db b h
  by_cases h0 : m = "" ∨ r = ""
  · simp only [postRedeemStart, h0, if_true] at h
    cases h
  · rw [postRedeemStart_throws c m r rt x t db (fun e => h0 (Or.inl e))
      (fun e => h0 (Or.inr e))] at h
    cases h

/-- C14. No start succeeds, so no `PENDING` redemption is ever created.  In
the example shop after `c` claimed `T1`, customer `c` holds 1 point and the
active reward `r` of the active merchant `m` costs 1 point; the start of a
redemption by `c` is answered with the 500 `internal` and the table
`redemptions` stays empty.  Whatever the database and the request, the start
handler returns an error and leaves the database as it was. -/
theorem start_never_succeeds :
    getBalance exClaimed "m" "c" 30 = 1 ∧
    getReward exClaimed "r" = some ⟨"r", "p", "drink", 1, 1, 0⟩ ∧
    postRedeemStart "c" "m" "r" "RT1" "X1" 30 exClaimed =
      (exClaimed, Except.error Err.internal) ∧
    (postRedeemStart "c" "m" "r" "RT1" "X1" 30 exClaimed).1.redemptions = [] ∧
    (∀ (c m r rt x : String) (t : Int) (db : Db),
      ∃ e, postRedeemStart c m r rt x t db = (db, Except.error e)) :=
  ⟨by decide, by decide, by decide, by decide, postRedeemStart_cases⟩

/-! ## Effect of a request on redemptions -/

theorem find_map_redemption (f : Redemption → Redemption)
    (hf : ∀ x, (f x).redeem_token = x.redeem_token) (rs : List Redemption) (rt : String) :
    (rs.map f).find? (fun x => decide (x.redeem_token = some rt)) =
      (rs.find? (fun x => decide (x.redeem_token = some rt))).map f := by
  induction rs with
  | nil => rfl
  | cons x xs ih =>
    by_cases h : x.redeem_token = some rt
    · simp [List.find?_cons, h, hf]
    · simp [List.find?_cons, h, hf, ih]

theorem getRedemption_congr (db d : Db) (rt : String) (h : d.redemptions = db.redemptions) :
    getRedemption d rt = getRedemption db rt := by
  simp only [getRedemption, h]

theorem getRedemption_append (db d : Db) (rt : String) (new : Redemption) (r : Redemption)
    (h : d.redemptions = db.redemptions ++ [new]) (hr : getRedemption db rt = some r) :
    getRedemption d rt = some r := by
  simp only [getRedemption, h, List.find?_append] at hr ⊢
  rw [hr]
  rfl

theorem getRedemption_markCompleted (db d : Db) (rt X staff_id store_id : String) (t : Int)
    (h : d.redemptions = markCompleted db.redemptions X staff_id store_id t) :
    getRedemption d rt = (getRedemption db rt).map fun r =>
      if r.redemption_id = X then
        { r with status := "COMPLETED", completed_at := some t,
                 completed_by_staff_id := some staff_id, store_id := some store_id }
      else r := by
  simp only [getRedemption, h, markCompleted]
  exact find_map_redemption _ (by intro x; by_cases hx : x.redemption_id = X <;> simp [hx]) _ _

theorem getRedemption_mem {db : Db} {rt : String} {r : Redemption}
    (h : getRedemption db rt = some r) : r ∈ db.redemptions :=
  List.mem_of_find?_eq_some h

theorem afterRateChecks_redemptions (db : Db) (tok : EarnToken) (c : String) (p : Program)
    (t : Int) : (afterRateChecks db tok c p t).redemptions = db.redemptions := by
  rw [afterRateChecks_frame]

theorem postProgram_redeemEffect (store_id : String) (b : ProgramBody) (db : Db) :
    RedeemEffect db (postProgram store_id b db).1 := by
  unfold postProgram
  split
  · exact RedeemEffect.unchanged rfl rfl
  · split
    · exact RedeemEffect.unchanged rfl rfl
    · simp only
      split <;> exact RedeemEffect.unchanged rfl rfl

theorem postReward_redeemEffect (store_id name : String) (points_cost : Field)
    (reward_id : String) (t : Int) (db : Db) :
    RedeemEffect db (postReward store_id name points_cost reward_id t db).1 := by
  unfold postReward
  split
  · exact RedeemEffect.unchanged rfl rfl
  · split
    · exact RedeemEffect.unchanged rfl rfl
    · split
      · exact RedeemEffect.unchanged rfl rfl
      · split
        · exact RedeemEffect.unchanged rfl rfl
        · split <;> exact RedeemEffect.unchanged rfl rfl

theorem rateLimit_redemptions (key : String) (mx w t : Int) (db : Db) :
    (rateLimit key mx w t db).1.redemptions = db.redemptions := by
  rw [rateLimit_frame]

theorem postToken_redeemEffect (store_id staff_id : String) (tr : Option String)
    (token_id receipt_code : String) (t : Int) (db : Db) :
    RedeemEffect db (postToken store_id staff_id tr token_id receipt_code t db).1 := by
  have h1 := rateLimit_redemptions ("issue:" ++ staff_id) 120 60 t db
  have h3 := (rateLimit_tokens ("issue:" ++ staff_id) 120 60 t db).2.2
  unfold postToken
  split
  · exact RedeemEffect.unchanged rfl rfl
  · simp only
    split
    · exact RedeemEffect.unchanged h1 h3
    · split
      · exact RedeemEffect.unchanged h1 h3
      · split <;> exact RedeemEffect.unchanged h1 h3

theorem postClaim_redeemEffect (customer_id token_id : String) (rc : Option String)
    (lot_id ledger_id : String) (t : Int) (db : Db) :
    RedeemEffect db (postClaim customer_id token_id rc lot_id ledger_id t db).1 := by
  rcases postClaim_cases customer_id token_id rc lot_id ledger_id t db with
    ⟨e, _, hframe⟩ | ⟨tok, p, _, _, _, _, _, _, _, _, heq⟩
  · rw [hframe]
    exact RedeemEffect.unchanged rfl rfl
  · rw [heq]
    refine RedeemEffect.ledgerOnly (earnEntry tok customer_id p ledger_id t) (by simp [earnEntry])
      ?_ ?_
    · simp only [afterClaim, afterRateChecks_redemptions]
    · simp only [afterClaim, afterRateChecks_ledger]

theorem postRedeemStart_redeemEffect (c m r rt x : String) (t : Int) (db : Db) :
    RedeemEffect db (postRedeemStart c m r rt x t db).1 := by
  obtain ⟨e, h⟩ := postRedeemStart_cases c m r rt x t db
  rw [h]
  exact RedeemEffect.unchanged rfl rfl

theorem postRedeemComplete_redeemEffect (store_id staff_id rt ledger_id : String) (t : Int)
    (db : Db) : RedeemEffect db (postRedeemComplete store_id staff_id rt ledger_id t db).1 := by
  rcases postRedeemComplete_cases store_id staff_id rt ledger_id t db with
    ⟨e, h⟩ | ⟨red, reward, store, _, hred, hst, _, _, _, _, _, _, heq⟩
  · rw [h]
    exact RedeemEffect.unchanged rfl rfl
  · rw [heq]
    exact RedeemEffect.completed rt red reward staff_id store.store_id ledger_id t hred hst
      rfl rfl

theorem postTokenVoid_redeemEffect (store_id staff_id token_id lot_id ledger_id : String)
    (t : Int) (db : Db) :
    RedeemEffect db (postTokenVoid store_id staff_id token_id lot_id ledger_id t db).1 := by
  rcases postTokenVoid_cases store_id staff_id token_id lot_id ledger_id t db with
    h | ⟨tok, p, _, _, _, _, _, heq⟩ | ⟨tok, p, c, _, _, _, _, _, _, _, heq⟩
  · rw [h]
    exact RedeemEffect.unchanged rfl rfl
  · rw [heq]
    exact RedeemEffect.unchanged rfl rfl
  · rw [heq]
    exact RedeemEffect.ledgerOnly (voidEntry tok c (earnPoints p) staff_id ledger_id t)
      (by simp [voidEntry]) rfl rfl

/-- Every request has one of the listed effects on redemptions and ledger. -/
theorem step_redeemEffect (db : Db) (op : Op) : RedeemEffect db (step db op) := by
  cases op with
  | program s b => exact postProgram_redeemEffect s b db
  | reward s n c r t => exact postReward_redeemEffect s n c r t db
  | issue s st tr tok rc t => exact postToken_redeemEffect s st tr tok rc t db
  | claim c tok rc l g t => exact postClaim_redeemEffect c tok rc l g t db
  | start c m r rt x t => exact postRedeemStart_redeemEffect c m r rt x t db
  | complete s st rt g t => exact postRedeemComplete_redeemEffect s st rt g t db
  | void s st tok l g t => exact postTokenVoid_redeemEffect s st tok l g t db

/-! ## Completing a redemption -/

theorem consumptionRows_sum (rid : String) (us : List Used) :
    ((consumptionRows rid us).map Consumption.points_used).sum = usedSum us := by
  simp [consumptionRows, usedSum, List.map_map, Function.comp_def]

theorem getStore_id {db : Db} {store_id : String} {store : Store}
    (h : getStore db store_id = some store) : store.store_id = store_id := by
  have := List.find?_some h
  simpa using this

theorem redeemTakes_sum (db : Db) (red : Redemption) (reward : Reward) (t : Int)
    (hcost : 0 ≤ reward.points_cost)
    (h : ¬ 0 < reward.points_cost - usedSum (redeemTakes db red reward t)) :
    usedSum (redeemTakes db red reward t) = reward.points_cost := by
  have hs := takes_sum (selectLots db red.merchant_id red.customer_id t)
    (selectLots_pos db red.merchant_id red.customer_id t) reward.points_cost hcost
  unfold redeemTakes at h ⊢
  omega

/-- What a successful completion does. -/
theorem complete_facts (store_id staff_id rt ledger_id : String) (t : Int) (db : Db)
    (res : CompleteOk) (red : Redemption) (reward : Reward)
    (hok : (postRedeemComplete store_id staff_id rt ledger_id t db).2 = Except.ok res)
    (hred : getRedemption db rt = some red)
    (hrew : getReward db red.reward_id = some reward)
    (hcost : 0 ≤ reward.points_cost) (hrid : red.redemption_id ≠ "")
    (hpk : (db.point_lots.map Lot.lot_id).Nodup) :
    getRedemption (postRedeemComplete store_id staff_id rt ledger_id t db).1 rt =
        some { red with status := "COMPLETED", completed_at := some t,
                        completed_by_staff_id := some staff_id, store_id := some store_id } ∧
      (∃ used : List Used,
        (postRedeemComplete store_id staff_id rt ledger_id t db).1.redemption_consumptions =
          db.redemption_consumptions ++ consumptionRows red.redemption_id used ∧
        ((consumptionRows red.redemption_id used).map Consumption.points_used).sum =
          reward.points_cost ∧
        (postRedeemComplete store_id staff_id rt ledger_id t db).1.point_lots =
          lotsAfter db.point_lots used) ∧
      (postRedeemComplete store_id staff_id rt ledger_id t db).1.point_ledger =
        db.point_ledger ++ [⟨ledger_id, red.merchant_id, red.customer_id, "REDEEM",
          -reward.points_cost, none, some red.redemption_id, t, some staff_id,
          some ("Reward: " ++ reward.name)⟩] ∧
      getBalance (postRedeemComplete store_id staff_id rt ledger_id t db).1
          red.merchant_id red.customer_id t =
        getBalance db red.merchant_id red.customer_id t - reward.points_cost ∧
      res.new_balance =
        max 0 (getBalance (postRedeemComplete store_id staff_id rt ledger_id t db).1
          red.merchant_id red.customer_id t) ∧
      res.reward_name = reward.name := by
  rcases postRedeemComplete_cases store_id staff_id rt ledger_id t db with
    ⟨e, h⟩ | ⟨red2, reward2, store, _, hred2, _, _, hstore, hm, hrew2, hrem, _, heq⟩
  · rw [h] at hok
    cases hok
  · rw [hred] at hred2
    cases hred2
    rw [hrew] at hrew2
    cases hrew2
    have hsid := getStore_id hstore
    have hsum := redeemTakes_sum db red reward t hcost hrem
    rw [heq] at hok ⊢
    simp only [Except.ok.injEq] at hok
    subst hok
    have hbal : getBalance (afterComplete db red reward staff_id store.store_id ledger_id t)
        red.merchant_id red.customer_id t =
          getBalance db red.merchant_id red.customer_id t - reward.points_cost := by
      rw [getBalance_eq_weight, getBalance_eq_weight]
      have e : (afterComplete db red reward staff_id store.store_id ledger_id t).point_lots =
          applyTakes db.point_lots (redeemTakes db red reward t) := by
        rw [applyTakes_eq_map]
        rfl
      have hw := weight_sum_applyTakes red.merchant_id red.customer_id t
        (redeemTakes db red reward t) db.point_lots hpk
        (takes_selectLots_inAccount db red.merchant_id red.customer_id t reward.points_cost)
      rw [e, hw, hsum]
    refine ⟨?_, ⟨redeemTakes db red reward t, ?_, ?_, rfl⟩, rfl, hbal, ?_, rfl⟩
    · rw [getRedemption_markCompleted db _ rt red.redemption_id staff_id store.store_id t rfl,
        hred, hsid]
      simp
    · simp [afterComplete, hrid]
    · rw [consumptionRows_sum, hsum]
    · simp only
      rw [← hm]

/-- C15. A successful completion at time `t` of the redemption `red` behind
`rt`, for the reward `reward` of cost `c >= 0`, by staff `staff_id` of store
`store_id` (lot ids distinct, redemption id non-empty): the stored row becomes
`COMPLETED` with `completed_at = t` and the acting staff and store; the
consumption records appended for it have `points_used` summing to exactly `c`
and the lots gave exactly these amounts; exactly one ledger entry is appended,
a `REDEEM` with `points_delta = -c`; the signed balance of the customer drops
by exactly `c`; and the response carries `max 0` of the balance afterwards.
In the example shop, where the only lot of `c` is the 1-point lot `L1` earned
from token `T1` and the reward costs 1, completing `RT1` answers balance 0 and
leaves exactly one consumption record, `(X1, L1, 1)`. -/
theorem complete_effect :
    (∀ (store_id staff_id rt ledger_id : String) (t : Int) (db : Db)
      (res : CompleteOk) (red : Redemption) (reward : Reward),
      (postRedeemComplete store_id staff_id rt ledger_id t db).2 = Except.ok res →
      getRedemption db rt = some red →
      getReward db red.reward_id = some reward →
      0 ≤ reward.points_cost → red.redemption_id ≠ "" →
      (db.point_lots.map Lot.lot_id).Nodup →
      getRedemption (postRedeemComplete store_id staff_id rt ledger_id t db).1 rt =
          some { red with status := "COMPLETED", completed_at := some t,
                          completed_by_staff_id := some staff_id,
                          store_id := some store_id } ∧
        (∃ used : List Used,
          (postRedeemComplete store_id staff_id rt ledger_id t db).1.redemption_consumptions =
            db.redemption_consumptions ++ consumptionRows red.redemption_id used ∧
          ((consumptionRows red.redemption_id used).map Consumption.points_used).sum =
            reward.points_cost ∧
          (postRedeemComplete store_id staff_id rt ledger_id t db).1.point_lots =
            lotsAfter db.point_lots used) ∧
        (postRedeemComplete store_id staff_id rt ledger_id t db).1.point_ledger =
          db.point_ledger ++ [⟨ledger_id, red.merchant_id, red.customer_id, "REDEEM",
            -reward.points_cost, none, some red.redemption_id, t, some staff_id,
            some ("Reward: " ++ reward.name)⟩] ∧
        getBalance (postRedeemComplete store_id staff_id rt ledger_id t db).1
            red.merchant_id red.customer_id t =
          getBalance db red.merchant_id red.customer_id t - reward.points_cost ∧
        res.new_balance =
          max 0 (getBalance (postRedeemComplete store_id staff_id rt ledger_id t db).1
            red.merchant_id red.customer_id t) ∧
        res.reward_name = reward.name) ∧
    (exStarted.point_lots = [⟨"L1", "m", "c", 1, 20, some (20 + 180 * 86400), some "T1",
        some "Earned point"⟩] ∧
      postRedeemComplete "s" "st" "RT1" "G2" 40 exStarted =
        (exSpent, Except.ok ⟨"drink", 0⟩) ∧
      exSpent.redemption_consumptions = [⟨"X1", "L1", 1⟩] ∧
      getBalance exSpent "m" "c" 40 = 0) :=
  ⟨complete_facts, by decide⟩

/-- C15 on the example shop: completing `RT1` at time 40. -/
theorem complete_effect_witness :
    getRedemption (postRedeemComplete "s" "st" "RT1" "G2" 40 exStarted).1 "RT1" =
      some ⟨"X1", "m", "c", "r", 30, "COMPLETED", some "RT1", some 330, some 40, some "st",
        some "s"⟩ ∧
    (postRedeemComplete "s" "st" "RT1" "G2" 40 exStarted).1.point_ledger =
      exStarted.point_ledger ++ [⟨"G2", "m", "c", "REDEEM", -1, none, some "X1", 40,
        some "st", some "Reward: drink"⟩] ∧
    getBalance (postRedeemComplete "s" "st" "RT1" "G2" 40 exStarted).1 "m" "c" 40 =
      getBalance exStarted "m" "c" 40 - 1 :=
  have h := complete_effect.1 "s" "st" "RT1" "G2" 40 exStarted ⟨"drink", 0⟩
    (startedRow "c" "m" "r" "RT1" "X1" 30) ⟨"r", "p", "drink", 1, 1, 0⟩
    (by decide) (by decide) (by decide) (by decide) (by decide) (by decide)
  ⟨h.1, h.2.2.1, h.2.2.2.1⟩

/-! ## Redemptions over sequences of requests -/

theorem redeemsOf_congr (db d : Db) (X : String) (h : d.point_ledger = db.point_ledger) :
    redeemsOf d X = redeemsOf db X := by
  simp only [redeemsOf, h]

theorem redeemsOf_other (db d : Db) (X : String) (e : LedgerEntry)
    (h : d.point_ledger = db.point_ledger ++ [e])
    (he : ¬ (e.event_type = "REDEEM" ∧ e.redemption_id = some X)) :
    redeemsOf d X = redeemsOf db X := by
  simp only [redeemsOf, h, List.filter_append]
  have : ([e].filter fun e =>
      decide (e.event_type = "REDEEM") && decide (e.redemption_id = some X)) = [] := by
    simp only [List.filter_cons, List.filter_nil]
    rw [if_neg]
    simpa using he
  rw [this, List.append_nil]

theorem redeemsOf_same (db d : Db) (red : Redemption) (reward : Reward)
    (staff_id ledger_id : String) (t : Int)
    (h : d.point_ledger = db.point_ledger ++ [redeemEntry red reward staff_id ledger_id t]) :
    (redeemsOf d red.redemption_id).length = (redeemsOf db red.redemption_id).length + 1 := by
  simp [redeemsOf, h, List.filter_append, redeemEntry]

theorem markCompleted_ids (rs : List Redemption) (X staff_id store_id : String) (t : Int) :
    (markCompleted rs X staff_id store_id t).map Redemption.redemption_id =
      rs.map Redemption.redemption_id := by
  unfold markCompleted
  rw [List.map_map]
  apply List.map_congr_left
  intro r _
  by_cases h : r.redemption_id = X <;> simp [h]

theorem RedeemInv_effect (db d : Db) (hinv : RedeemInv db) (h : RedeemEffect db d) :
    RedeemInv d := by
  obtain ⟨h1, h2⟩ := hinv
  cases h with
  | unchanged hr hg =>
    refine ⟨fun X => ?_, fun r hr2 hp => ?_⟩
    · rw [redeemsOf_congr db d X hg]; exact h1 X
    · rw [redeemsOf_congr db d _ hg]; exact h2 r (hr ▸ hr2) hp
  | ledgerOnly e he hr hg =>
    have hsame : ∀ X, redeemsOf d X = redeemsOf db X :=
      fun X => redeemsOf_other db d X e hg (fun hh => he hh.1)
    refine ⟨fun X => ?_, fun r hr2 hp => ?_⟩
    · rw [hsame]; exact h1 X
    · rw [hsame]; exact h2 r (hr ▸ hr2) hp
  | completed rt red reward staff_id store_id ledger_id t hred hst hr hg =>
    have hmem := getRedemption_mem hred
    have hzero := h2 red hmem hst
    have hother : ∀ X, X ≠ red.redemption_id → redeemsOf d X = redeemsOf db X := by
      intro X hX
      apply redeemsOf_other db d X _ hg
      intro hh
      apply hX
      have := hh.2
      simp only [redeemEntry, Option.some.injEq] at this
      exact this.symm
    refine ⟨fun X => ?_, fun r hr2 hp => ?_⟩
    · by_cases hX : X = red.redemption_id
      · rw [hX, redeemsOf_same db d red reward staff_id ledger_id t hg, hzero]
      · rw [hother X hX]; exact h1 X
    · rw [hr] at hr2
      obtain ⟨r0, hr0, e⟩ := List.mem_map.1 hr2
      by_cases hid : r0.redemption_id = red.redemption_id
      · rw [if_pos hid] at e
        rw [← e] at hp
        simp at hp
      · rw [if_neg hid] at e
        rw [← e] at hp ⊢
        rw [hother _ hid]
        exact h2 r0 hr0 hp

theorem RedeemInv_run (ops : List Op) (db : Db) (h : RedeemInv db) : RedeemInv (run db ops) := by
  induction ops generalizing db with
  | nil => exact h
  | cons op ops ih =>
    exact ih (step db op) (RedeemInv_effect db (step db op) h (step_redeemEffect db op))

theorem RedeemInv_reachable (db : Db) (h : Reachable db) : RedeemInv db := by
  induction h with
  | init db hinit =>
    obtain ⟨_, _, hg, hr, _⟩ := hinit
    refine ⟨fun X => ?_, fun r hr2 _ => ?_⟩
    · simp [redeemsOf, hg]
    · simp [hr] at hr2
  | step db op _ ih => exact RedeemInv_effect db (step db op) ih (step_redeemEffect db op)

theorem CompletedAt_effect (db d : Db) (rt : String) (hc : CompletedAt db rt)
    (h : RedeemEffect db d) : CompletedAt d rt := by
  obtain ⟨r, hr0, hs⟩ := hc
  cases h with
  | unchanged hr hg => exact ⟨r, by rw [getRedemption_congr db d rt hr]; exact hr0, hs⟩
  | ledgerOnly e he hr hg => exact ⟨r, by rw [getRedemption_congr db d rt hr]; exact hr0, hs⟩
  | completed rt2 red reward staff_id store_id ledger_id t hred hst hr hg =>
    rw [CompletedAt, getRedemption_markCompleted db d rt red.redemption_id staff_id store_id t hr,
      hr0]
    by_cases hid : r.redemption_id = red.redemption_id
    · refine ⟨{ r with status := "COMPLETED", completed_at := some t,
                       completed_by_staff_id := some staff_id, store_id := some store_id },
        ?_, rfl⟩
      simp only [Option.map_some', if_pos hid]
    · exact ⟨r, by simp only [Option.map_some', if_neg hid], hs⟩

theorem CompletedAt_run (db : Db) (rt : String) (ops : List Op) (hc : CompletedAt db rt) :
    CompletedAt (run db ops) rt := by
  induction ops generalizing db with
  | nil => exact hc
  | cons op ops ih =>
    exact ih (step db op) (CompletedAt_effect db (step db op) rt hc (step_redeemEffect db op))

theorem postRedeemComplete_completed (store_id staff_id rt ledger_id : String) (t : Int)
    (db : Db) (h0 : rt ≠ "") (hc : CompletedAt db rt) :
    postRedeemComplete store_id staff_id rt ledger_id t db =
      (db, Except.error (Err.not_pending (some "COMPLETED"))) := by
  obtain ⟨r, hr, hs⟩ := hc
  simp [postRedeemComplete, h0, hr, hs]

theorem postRedeemComplete_ok_completed (store_id staff_id rt ledger_id : String) (t : Int)
    (db : Db) (res : CompleteOk)
    (hok : (postRedeemComplete store_id staff_id rt ledger_id t db).2 = Except.ok res) :
    rt ≠ "" ∧ CompletedAt (postRedeemComplete store_id staff_id rt ledger_id t db).1 rt := by
  rcases postRedeemComplete_cases store_id staff_id rt ledger_id t db with
    ⟨e, h⟩ | ⟨red, reward, store, h0, hred, _, _, _, _, _, _, _, heq⟩
  · rw [h] at hok
    cases hok
  · refine ⟨h0, ?_⟩
    rw [heq, CompletedAt,
      getRedemption_markCompleted db _ rt red.redemption_id staff_id store.store_id t rfl, hred]
    refine ⟨{ red with status := "COMPLETED", completed_at := some t,
                        completed_by_staff_id := some staff_id,
                        store_id := some store.store_id }, ?_, rfl⟩
    simp

theorem completions_zero (rt : String) (ops : List Op) (db : Db) (h0 : rt ≠ "")
    (hc : CompletedAt db rt) : completions rt db ops = 0 := by
  induction ops generalizing db with
  | nil => rfl
  | cons op ops ih =>
    have hnext := ih (step db op)
      (CompletedAt_effect db (step db op) rt hc (step_redeemEffect db op))
    simp only [completions, hnext, Nat.add_zero]
    cases op with
    | complete s st rt2 g t =>
      by_cases e : rt2 = rt
      · subst e
        simp [postRedeemComplete_completed s st rt2 g t db h0 hc]
      · simp [e]
    | _ => rfl

theorem completions_le_one (rt : String) (ops : List Op) (db : Db) :
    completions rt db ops ≤ 1 := by
  induction ops generalizing db with
  | nil => simp [completions]
  | cons op ops ih =>
    have hnext := ih (step db op)
    cases op with
    | complete s st rt2 g t =>
      by_cases e : rt2 = rt
      · subst e
        cases hres : (postRedeemComplete s st rt2 g t db).2 with
        | error err =>
          simp only [completions, hres, if_true]
          omega
        | ok res =>
          obtain ⟨h0, hc⟩ := postRedeemComplete_ok_completed s st rt2 g t db res hres
          have hz := completions_zero rt2 ops (step db (Op.complete s st rt2 g t)) h0 hc
          simp only [completions, hres, if_true, hz]
          omega
      · simp only [completions, e, if_false]
        omega
    | _ =>
      simp only [completions]
      omega

theorem redeemExpired_of_deadline (red : Redemption) (t : Int)
    (hexp : red.redeem_expires_at = some (red.created_at + 300))
    (hne : red.created_at ≠ -300) :
    redeemExpired red t = decide (red.created_at + 300 < t) := by
  have : red.created_at + 300 ≠ 0 := by omega
  simp [redeemExpired, hexp, this]

theorem postRedeemComplete_expired_iff (store_id staff_id rt ledger_id : String) (t : Int)
    (db : Db) (red : Redemption) (h0 : rt ≠ "") (hred : getRedemption db rt = some red)
    (hst : red.status = "PENDING") :
    (redeemExpired red t = true →
      postRedeemComplete store_id staff_id rt ledger_id t db =
        (db, Except.error Err.redeem_token_expired)) ∧
    (redeemExpired red t = false →
      (postRedeemComplete store_id staff_id rt ledger_id t db).2 ≠
        Except.error Err.redeem_token_expired) := by
  constructor
  · intro h
    simp [postRedeemComplete, h0, hred, hst, h]
  · intro h
    cases hstore : getStore db store_id with
    | none => simp [postRedeemComplete, h0, hred, hst, h, hstore]
    | some store =>
      by_cases hm : red.merchant_id = store.merchant_id
      swap
      · simp [postRedeemComplete, h0, hred, hst, h, hstore, hm]
      cases hrew : getReward db red.reward_id with
      | none => simp [postRedeemComplete, h0, hred, hst, h, hstore, hm, hrew]
      | some reward =>
        rcases transaction_completeTx db rt red reward staff_id store.store_id ledger_id t
            hred hst with ⟨_, h2⟩ | ⟨_, h2⟩ | ⟨_, _, h2⟩ <;>
          simp [postRedeemComplete, h0, hred, hst, h, hstore, hm, hrew, h2]

/-- C16. In every database, for a `PENDING` redemption `red` behind the token
`rt`, created at `t0 = red.created_at` and stored with the deadline
`t0 + 300` that the `INSERT` of the start handler sets (clock values are
seconds since 1970, so `t0` is not `-300`): a completion at any time
`t > t0 + 300` is rejected with `redeem_token_expired` and leaves the whole
database as it was (the stored row is still `red`, so still `PENDING`; lots
and ledger are untouched), and a completion at any time `t <= t0 + 300` is not
rejected as expired. -/
theorem complete_deadline (db : Db)
    (store_id staff_id rt ledger_id : String) (t : Int) (red : Redemption)
    (h0 : rt ≠ "") (hred : getRedemption db rt = some red) (hst : red.status = "PENDING")
    (hexp : red.redeem_expires_at = some (red.created_at + 300))
    (hclock : red.created_at ≠ -300) :
    (red.created_at + 300 < t →
      postRedeemComplete store_id staff_id rt ledger_id t db =
          (db, Except.error Err.redeem_token_expired) ∧
        getRedemption (postRedeemComplete store_id staff_id rt ledger_id t db).1 rt = some red ∧
        (postRedeemComplete store_id staff_id rt ledger_id t db).1.point_lots = db.point_lots ∧
        (postRedeemComplete store_id staff_id rt ledger_id t db).1.point_ledger =
          db.point_ledger) ∧
    (t ≤ red.created_at + 300 →
      (postRedeemComplete store_id staff_id rt ledger_id t db).2 ≠
        Except.error Err.redeem_token_expired) := by
  have hdead := redeemExpired_of_deadline red t hexp hclock
  obtain ⟨h1, h2⟩ := postRedeemComplete_expired_iff store_id staff_id rt ledger_id t db red h0
    hred hst
  constructor
  · intro hlate
    have e := h1 (by rw [hdead]; exact decide_eq_true hlate)
    rw [e]
    exact ⟨rfl, hred, rfl, rfl⟩
  · intro hearly
    exact h2 (by rw [hdead]; exact decide_eq_false (by omega))

/-- C16 on the example shop with the `PENDING` redemption `RT1` created at
time 30: a completion at 331 is rejected as expired and changes nothing, one
at 330 is not. -/
theorem complete_deadline_witness :
    (postRedeemComplete "s" "st" "RT1" "G2" 331 exStarted =
        (exStarted, Except.error Err.redeem_token_expired) ∧
      getRedemption (postRedeemComplete "s" "st" "RT1" "G2" 331 exStarted).1 "RT1" =
        some (startedRow "c" "m" "r" "RT1" "X1" 30) ∧
      (postRedeemComplete "s" "st" "RT1" "G2" 331 exStarted).1.point_lots =
        exStarted.point_lots ∧
      (postRedeemComplete "s" "st" "RT1" "G2" 331 exStarted).1.point_ledger =
        exStarted.point_ledger) ∧
    (postRedeemComplete "s" "st" "RT1" "G2" 330 exStarted).2 ≠
      Except.error Err.redeem_token_expired :=
  ⟨(complete_deadline exStarted "s" "st" "RT1" "G2" 331 (startedRow "c" "m" "r" "RT1" "X1" 30)
      (by decide) (by decide) (by decide) (by decide) (by decide)).1 (by decide),
    (complete_deadline exStarted "s" "st" "RT1" "G2" 330 (startedRow "c" "m" "r" "RT1" "X1" 30)
      (by decide) (by decide) (by decide) (by decide) (by decide)).2 (by decide)⟩

/-- C17. Each redemption is completed at most once.  A redemption stored as
`COMPLETED` stays `COMPLETED` whatever requests follow.  After a successful
completion of the redemption behind `rt`, whatever requests follow, every
further completion of `rt` is rejected with `not_pending` and leaves the
database as it was.  In every sequence of requests from any database at most
one request completes `rt` with success, so its points are deducted at most
once; in every reachable database at most one `REDEEM` ledger entry names a
given redemption id; and the same holds after any sequence of requests from
any database in which no redemption id has more than one `REDEEM` entry and
no `PENDING` redemption has one. -/
theorem complete_at_most_once :
    (∀ (db : Db) (rt : String) (ops : List Op),
      CompletedAt db rt → CompletedAt (run db ops) rt) ∧
    (∀ (db : Db) (s st rt g : String) (t : Int) (res : CompleteOk) (ops : List Op)
      (s2 st2 g2 : String) (t2 : Int),
      (postRedeemComplete s st rt g t db).2 = Except.ok res →
      postRedeemComplete s2 st2 rt g2 t2 (run (postRedeemComplete s st rt g t db).1 ops) =
        (run (postRedeemComplete s st rt g t db).1 ops,
          Except.error (Err.not_pending (some "COMPLETED")))) ∧
    (∀ (db : Db) (rt : String) (ops : List Op), completions rt db ops ≤ 1) ∧
    (∀ (db : Db) (X : String), Reachable db → (redeemsOf db X).length ≤ 1) ∧
    (∀ (db : Db) (ops : List Op) (X : String), RedeemInv db →
      (redeemsOf (run db ops) X).length ≤ 1) := by
  refine ⟨fun db rt ops hc => CompletedAt_run db rt ops hc, ?_,
    fun db rt ops => completions_le_one rt ops db,
    fun db X h => (RedeemInv_reachable db h).1 X,
    fun db ops X h => (RedeemInv_run ops db h).1 X⟩
  intro db s st rt g t res ops s2 st2 g2 t2 hok
  obtain ⟨h0, hc⟩ := postRedeemComplete_ok_completed s st rt g t db res hok
  exact postRedeemComplete_completed s2 st2 rt g2 t2 _ h0 (CompletedAt_run _ rt ops hc)

/-- The example database with the `PENDING` redemption `RT1` has no `REDEEM`
ledger entry. -/
theorem exStarted_redeemInv : RedeemInv exStarted :=
  ⟨fun _ => Nat.zero_le 1, fun _ _ _ => rfl⟩

/-- C17 on the example shop with the `PENDING` redemption `RT1`: after `RT1`
was completed and the token `T1` was then voided, a second completion of `RT1`
is rejected with `not_pending`; and after the completion and a further
attempt the ledger holds at most one `REDEEM` entry for `X1`. -/
theorem complete_at_most_once_witness :
    postRedeemComplete "s" "st" "RT1" "G3" 50
        (run (postRedeemComplete "s" "st" "RT1" "G2" 40 exStarted).1
          [Op.void "s" "st" "T1" "L2" "G9" 45]) =
      (run (postRedeemComplete "s" "st" "RT1" "G2" 40 exStarted).1
          [Op.void "s" "st" "T1" "L2" "G9" 45],
        Except.error (Err.not_pending (some "COMPLETED"))) ∧
    (redeemsOf (run exStarted [Op.complete "s" "st" "RT1" "G2" 40,
      Op.complete "s" "st" "RT1" "G3" 50]) "X1").length ≤ 1 :=
  ⟨complete_at_most_once.2.1 exStarted "s" "st" "RT1" "G2" 40 ⟨"drink", 0⟩
      [Op.void "s" "st" "T1" "L2" "G9" 45] "s" "st" "G3" 50 (by decide),
    complete_at_most_once.2.2.2.2 exStarted [Op.complete "s" "st" "RT1" "G2" 40,
      Op.complete "s" "st" "RT1" "G3" 50] "X1" exStarted_redeemInv⟩

/-! ## The rate limiter -/

theorem find_map_rate (f : RateRow → RateRow) (hf : ∀ x, (f x).key = x.key)
    (rs : List RateRow) (key : String) :
    (rs.map f).find? (fun x => decide (x.key = key)) =
      (rs.find? (fun x => decide (x.key = key))).map f := by
  induction rs with
  | nil => rfl
  | cons x xs ih =>
    by_cases h : x.key = key
    · simp [List.find?_cons, h, hf]
    · simp [List.find?_cons, h, hf, ih]

theorem getRateRow_key {db : Db} {key : String} {row : RateRow}
    (h : getRateRow db key = some row) : row.key = key := by
  have := List.find?_some h
  simpa using this

theorem rateLimit_noRow (key : String) (m w t : Int) (db : Db) (hm : 1 ≤ m)
    (hnone : getRateRow db key = none) :
    (rateLimit key m w t db).2 = ⟨true, none⟩ ∧
      getRateRow (rateLimit key m w t db).1 key = some ⟨key, 1, t, w⟩ := by
  have h : ¬ m ≤ 0 := by omega
  unfold getRateRow at hnone
  simp only [rateLimit, h, if_false, hnone, getRateRow, List.find?_append]
  simp

theorem rateLimit_inWindow (key : String) (m w t : Int) (db : Db) (c t0 w0 : Int)
    (hm : 1 ≤ m) (hrow : getRateRow db key = some ⟨key, c, t0, w0⟩) (hin : t - t0 < w0) :
    (c < m → (rateLimit key m w t db).2 = ⟨true, none⟩ ∧
      getRateRow (rateLimit key m w t db).1 key = some ⟨key, c + 1, t0, w0⟩) ∧
    (m ≤ c → rateLimit key m w t db = (db, ⟨false, some (w0 - (t - t0))⟩)) := by
  have h : ¬ m ≤ 0 := by omega
  have hin2 : ¬ w0 ≤ t - t0 := by omega
  have hrow2 := hrow
  unfold getRateRow at hrow2
  constructor
  · intro hc
    have hc2 : ¬ m ≤ c := by omega
    simp only [rateLimit, h, if_false, hrow2, hin2, hc2, getRateRow]
    refine ⟨trivial, ?_⟩
    rw [find_map_rate _ (by intro x; by_cases hx : x.key = key <;> simp [hx]), hrow2]
    simp
  · intro hc
    simp only [rateLimit, h, if_false, hrow2, hin2, hc, if_true]

theorem rateLimit_elapsed (key : String) (m w t : Int) (db : Db) (c t0 w0 : Int)
    (hm : 1 ≤ m) (hrow : getRateRow db key = some ⟨key, c, t0, w0⟩) (hout : w0 ≤ t - t0) :
    (rateLimit key m w t db).2 = ⟨true, none⟩ ∧
      getRateRow (rateLimit key m w t db).1 key = some ⟨key, 1, t, w⟩ := by
  have h : ¬ m ≤ 0 := by omega
  have hrow2 := hrow
  unfold getRateRow at hrow2
  simp only [rateLimit, h, if_false, hrow2, hout, if_true, getRateRow]
  refine ⟨trivial, ?_⟩
  rw [find_map_rate _ (by intro x; by_cases hx : x.key = key <;> simp [hx]), hrow2]
  simp

theorem rateLimit_denied (key : String) (m w t : Int) (db : Db)
    (h : (rateLimit key m w t db).2.ok = false) : (rateLimit key m w t db).1 = db := by
  unfold rateLimit at h ⊢
  by_cases hm : m ≤ 0
  · simp only [hm, if_true]
  · cases hf : db.rate_limits.find? (fun r => decide (r.key = key)) with
    | none => simp [hm, hf] at h
    | some row =>
      simp only [hm, if_false, hf] at h ⊢
      split_ifs at h ⊢
      rfl

/-- Checks inside an open window: `k` checks were made so far and the row
counts `c` of them. -/
theorem rateChecks_inWindow (key : String) (m w t0 : Int) (hm : 1 ≤ m) (ts : List Int)
    (db : Db) (k : Nat) (c : Int) (hrow : getRateRow db key = some ⟨key, c, t0, w⟩)
    (hlt : (k : Int) < m → c = k) (hge : m ≤ (k : Int) → m ≤ c)
    (hts : ∀ t ∈ ts, t < t0 + w) :
    (rateChecks key m w db ts).2 =
        List.zipWith (windowAnswer m w t0) (List.range' k ts.length) ts ∧
      ∃ c2 : Int, getRateRow (rateChecks key m w db ts).1 key = some ⟨key, c2, t0, w⟩ := by
  induction ts generalizing db k c with
  | nil => exact ⟨rfl, c, hrow⟩
  | cons t ts ih =>
    have hin : t - t0 < w := by
      have := hts t (by simp)
      omega
    have hrest : ∀ x ∈ ts, x < t0 + w := fun x hx => hts x (by simp [hx])
    obtain ⟨hallow, hdeny⟩ := rateLimit_inWindow key m w t db c t0 w hm hrow hin
    by_cases hk : (k : Int) < m
    · have hck := hlt hk
      obtain ⟨hres, hrow1⟩ := hallow (by omega)
      obtain ⟨ih1, ih2⟩ := ih (rateLimit key m w t db).1 (k + 1) (c + 1) hrow1
        (fun h => by push_cast; omega) (fun h => by push_cast at h; omega) hrest
      refine ⟨?_, ih2⟩
      simp only [rateChecks, List.length_cons, List.range'_succ, List.zipWith_cons_cons, ih1,
        hres]
      simp [windowAnswer, hk]
    · have hres := hdeny (hge (by omega))
      obtain ⟨ih1, ih2⟩ := ih db (k + 1) c hrow
        (fun h => by push_cast at h; omega) (fun h => hge (by omega)) hrest
      have e1 : (rateChecks key m w db (t :: ts)).2 =
          ⟨false, some (w - (t - t0))⟩ :: (rateChecks key m w db ts).2 := by
        simp only [rateChecks, hres]
      have e2 : (rateChecks key m w db (t :: ts)).1 = (rateChecks key m w db ts).1 := by
        simp only [rateChecks, hres]
      rw [e1, e2]
      refine ⟨?_, ih2⟩
      simp only [List.length_cons, List.range'_succ, List.zipWith_cons_cons, ih1]
      simp [windowAnswer, hk]

/-- The rate limiter over one window. -/
theorem rateChecks_facts (key : String) (m w t0 : Int) (ts : List Int) (db : Db)
    (hm : 1 ≤ m) (hnone : getRateRow db key = none)
    (hts : ∀ t ∈ ts, t0 ≤ t ∧ t < t0 + w) :
    (rateChecks key m w db (t0 :: ts)).2 =
        List.zipWith (windowAnswer m w t0) (List.range (ts.length + 1)) (t0 :: ts) ∧
      (∀ t ∈ ts, 0 < w - (t - t0) ∧ w - (t - t0) ≤ w) ∧
      (∀ t : Int, t0 + w ≤ t →
        (rateLimit key m w t (rateChecks key m w db (t0 :: ts)).1).2 = ⟨true, none⟩ ∧
        getRateRow (rateLimit key m w t (rateChecks key m w db (t0 :: ts)).1).1 key =
          some ⟨key, 1, t, w⟩) := by
  obtain ⟨hres, hrow⟩ := rateLimit_noRow key m w t0 db hm hnone
  obtain ⟨h1, c2, h2⟩ := rateChecks_inWindow key m w t0 hm ts (rateLimit key m w t0 db).1 1 1
    hrow (fun _ => by simp) (fun h => by simpa using h) (fun t ht => (hts t ht).2)
  refine ⟨?_, fun t ht => ?_, fun t ht => ?_⟩
  · simp only [rateChecks, h1, hres, List.range_eq_range', List.range'_succ,
      List.zipWith_cons_cons]
    have : (0 : Int) < m := by omega
    simp [windowAnswer, this]
  · have := hts t ht
    omega
  · have e : (rateChecks key m w db (t0 :: ts)).1 =
        (rateChecks key m w (rateLimit key m w t0 db).1 ts).1 := by
      simp only [rateChecks]
    rw [e]
    exact rateLimit_elapsed key m w t _ c2 t0 w hm h2 (by omega)

theorem rateLimit_congr (key : String) (m w t : Int) (d1 d2 : Db)
    (h : d1.rate_limits = d2.rate_limits) :
    (rateLimit key m w t d1).2 = (rateLimit key m w t d2).2 ∧
      (rateLimit key m w t d1).1.rate_limits = (rateLimit key m w t d2).1.rate_limits := by
  unfold rateLimit
  rw [h]
  by_cases hm : m ≤ 0
  · simp only [hm, if_true]
    exact ⟨trivial, h⟩
  · cases hf : d2.rate_limits.find? (fun r => decide (r.key = key)) with
    | none =>
      simp only [hm, if_false, h]
      exact ⟨trivial, trivial⟩
    | some row =>
      simp only [hm, if_false]
      split_ifs
      · exact ⟨rfl, by simp only [h]⟩
      · exact ⟨rfl, h⟩
      · exact ⟨rfl, by simp only [h]⟩

theorem rateLimit_stores (key : String) (m w t : Int) (db : Db) :
    (rateLimit key m w t db).1.stores = db.stores := by
  rw [rateLimit_frame]

/-- How an issuance request uses the rate limiter. -/
theorem postToken_rate (store_id staff_id : String) (tr : Option String)
    (token_id receipt_code : String) (t : Int) (db : Db) (store : Store)
    (hstore : getStore db store_id = some store) :
    limitedBy (postToken store_id staff_id tr token_id receipt_code t db).2 =
        (if (rateLimit ("issue:" ++ staff_id) 120 60 t db).2.ok then none
          else some (rateLimit ("issue:" ++ staff_id) 120 60 t db).2.retryAfter) ∧
      (postToken store_id staff_id tr token_id receipt_code t db).1.rate_limits =
        (rateLimit ("issue:" ++ staff_id) 120 60 t db).1.rate_limits ∧
      (postToken store_id staff_id tr token_id receipt_code t db).1.stores = db.stores := by
  have hs := rateLimit_stores ("issue:" ++ staff_id) 120 60 t db
  simp only [postToken, hstore]
  cases hok : (rateLimit ("issue:" ++ staff_id) 120 60 t db).2.ok with
  | false => exact ⟨by simp [limitedBy], rfl, hs⟩
  | true =>
    simp only [Bool.true_eq_false, if_false, if_true]
    split
    · exact ⟨rfl, rfl, hs⟩
    · split
      · exact ⟨rfl, rfl, hs⟩
      · exact ⟨rfl, rfl, hs⟩

theorem issueAll_rateChecks (store_id staff_id : String) (store : Store) (qs : List IssueReq)
    (d1 d2 : Db) (h : d1.rate_limits = d2.rate_limits)
    (hstore : getStore d1 store_id = some store) :
    (issueAll store_id staff_id d1 qs).2.map limitedBy =
      (rateChecks ("issue:" ++ staff_id) 120 60 d2 (qs.map IssueReq.t)).2.map
        fun r => if r.ok then none else some r.retryAfter := by
  induction qs generalizing d1 d2 with
  | nil => rfl
  | cons q qs ih =>
    obtain ⟨h1, h2, h3⟩ := postToken_rate store_id staff_id q.transaction_ref q.token_id
      q.receipt_code q.t d1 store hstore
    obtain ⟨c1, c2⟩ := rateLimit_congr ("issue:" ++ staff_id) 120 60 q.t d1 d2 h
    have hstore2 : getStore (postToken store_id staff_id q.transaction_ref q.token_id
        q.receipt_code q.t d1).1 store_id = some store := by
      unfold getStore at hstore ⊢
      rw [h3]
      exact hstore
    have := ih _ (rateLimit ("issue:" ++ staff_id) 120 60 q.t d2).1 (h2.trans c2) hstore2
    simp only [issueAll, rateChecks, List.map_cons, this, h1, c1]

theorem denial_windowAnswer (t0 : Int) (ks : List Nat) (ts : List Int) :
    (List.zipWith (windowAnswer 120 60 t0) ks ts).map
        (fun r => if r.ok then none else some r.retryAfter) =
      List.zipWith (issueAnswer t0) ks ts := by
  induction ks generalizing ts with
  | nil => simp
  | cons k ks ih =>
    cases ts with
    | nil => simp
    | cons t ts =>
      have e : (if (windowAnswer 120 60 t0 k t).ok then none
          else some (windowAnswer 120 60 t0 k t).retryAfter) = issueAnswer t0 k t := by
        unfold windowAnswer issueAnswer
        by_cases hk : (k : Int) < 120
        · rw [if_pos hk, if_pos hk]
          rfl
        · rw [if_neg hk, if_neg hk]
          rfl
      rw [List.zipWith_cons_cons, List.zipWith_cons_cons, List.map_cons, ih, e]

/-- Issuance requests of one staff member over one window. -/
theorem issueAll_facts (store_id staff_id : String) (store : Store) (q0 : IssueReq)
    (qs : List IssueReq) (db : Db) (hstore : getStore db store_id = some store)
    (hnone : getRateRow db ("issue:" ++ staff_id) = none)
    (hts : ∀ q ∈ qs, q0.t ≤ q.t ∧ q.t < q0.t + 60) :
    (issueAll store_id staff_id db (q0 :: qs)).2.map limitedBy =
      List.zipWith (issueAnswer q0.t) (List.range (qs.length + 1))
        ((q0 :: qs).map IssueReq.t) := by
  have hts2 : ∀ t ∈ qs.map IssueReq.t, q0.t ≤ t ∧ t < q0.t + 60 := by
    intro t ht
    obtain ⟨q, hq, e⟩ := List.mem_map.1 ht
    rw [← e]
    exact hts q hq
  have h := (rateChecks_facts ("issue:" ++ staff_id) 120 60 q0.t (qs.map IssueReq.t) db
    (by norm_num) hnone hts2).1
  rw [issueAll_rateChecks store_id staff_id store (q0 :: qs) db db rfl hstore]
  rw [List.map_cons]
  rw [h]
  rw [List.length_map]
  exact denial_windowAnswer q0.t _ _

/-- C18. The rate limiter called with one key, `m >= 1` and `w >= 1`,
starting with no row for the key, first at `t0` and then at times `ts` that
all lie less than `w` seconds after `t0`: the `k`-th check (from 0) is allowed
exactly when `k < m`, so exactly the first `m` are allowed, and every later
one is denied with `retryAfter = w - elapsed`, which is positive and at most
`w`; a denied check leaves the database, so the stored counter, unchanged; and
a check at any time `t >= t0 + w` after them is allowed and leaves the row
`(key, 1, t, w)`.  For issuance by one staff member of a store, the limiter is
used with `m = 120` and `w = 60`: of the requests made within 60 seconds of
the first, the first 120 are not rate limited and the 121st and every later
one is answered `rate_limited` with `retryAfter = 60 - elapsed`. -/
theorem rate_limit_window :
    (∀ (key : String) (m w t0 : Int) (ts : List Int) (db : Db),
      1 ≤ m → 1 ≤ w → getRateRow db key = none → (∀ t ∈ ts, t0 ≤ t ∧ t < t0 + w) →
      (rateChecks key m w db (t0 :: ts)).2 =
          List.zipWith (windowAnswer m w t0) (List.range (ts.length + 1)) (t0 :: ts) ∧
        (∀ t ∈ ts, 0 < w - (t - t0) ∧ w - (t - t0) ≤ w) ∧
        (∀ (d : Db) (t : Int), (rateLimit key m w t d).2.ok = false →
          (rateLimit key m w t d).1 = d) ∧
        (∀ t : Int, t0 + w ≤ t →
          (rateLimit key m w t (rateChecks key m w db (t0 :: ts)).1).2 = ⟨true, none⟩ ∧
          getRateRow (rateLimit key m w t (rateChecks key m w db (t0 :: ts)).1).1 key =
            some ⟨key, 1, t, w⟩)) ∧
    (∀ (store_id staff_id : String) (store : Store) (q0 : IssueReq) (qs : List IssueReq)
      (db : Db),
      getStore db store_id = some store → getRateRow db ("issue:" ++ staff_id) = none →
      (∀ q ∈ qs, q0.t ≤ q.t ∧ q.t < q0.t + 60) →
      (issueAll store_id staff_id db (q0 :: qs)).2.map limitedBy =
        List.zipWith (issueAnswer q0.t) (List.range (qs.length + 1))
          ((q0 :: qs).map IssueReq.t)) := by
  constructor
  · intro key m w t0 ts db hm _ hnone hts
    obtain ⟨h1, h2, h3⟩ := rateChecks_facts key m w t0 ts db hm hnone hts
    exact ⟨h1, h2, fun d t h => rateLimit_denied key m w t d h, h3⟩
  · intro store_id staff_id store q0 qs db hstore hnone hts
    exact issueAll_facts store_id staff_id store q0 qs db hstore hnone hts

/-- C18 with `m = 2` and `w = 10` on the example shop: checks at 0, 1 and 5
are answered allowed, allowed, denied with `retryAfter = 5`, and a check at 10
is allowed again. -/
theorem rate_limit_window_witness :
    (rateChecks "k" 2 10 exShop [0, 1, 5]).2 = [⟨true, none⟩, ⟨true, none⟩, ⟨false, some 5⟩] ∧
    (rateLimit "k" 2 10 10 (rateChecks "k" 2 10 exShop [0, 1, 5]).1).2 = ⟨true, none⟩ :=
  have h := rate_limit_window.1 "k" 2 10 0 [1, 5] exShop (by decide) (by decide) (by decide)
    (by decide)
  ⟨h.1.trans (by decide), (h.2.2.2 10 (by decide)).1⟩

/-! ## Reading the status of a redemption -/

/-- The status handler reads no clock.  In the database `exStarted`, which
holds a `PENDING` redemption and so is reached by no sequence of requests, the
redemption `RT1` of customer `c` has the deadline 330.  A completion at time
400 is rejected with `redeem_token_expired`, but the status read by its
owner, which takes no clock value at all, succeeds and reports `PENDING`. -/
theorem status_ignores_expiry :
    getRedemption exStarted "RT1" = some (startedRow "c" "m" "r" "RT1" "X1" 30) ∧
    redeemExpired (startedRow "c" "m" "r" "RT1" "X1" 30) 400 = true ∧
    postRedeemComplete "s" "st" "RT1" "G2" 400 exStarted =
      (exStarted, Except.error Err.redeem_token_expired) ∧
    getRedeemStatus "c" "RT1" exStarted = Except.ok ⟨"PENDING", some 330, none⟩ := by
  decide

/-! ## Failed requests -/

/-- In the capped shop `c` has claimed `T1` at time 20.  The claim of `T2` at
time 30 passes the 10-minute check, which counts it, and is then rejected
with `rate_limited` by the day check: the request fails and the 10-minute
counter row has changed from 1 to 2. -/
theorem failed_claim_keeps_rate_count :
    (postClaim "c" "T2" none "L2" "G2" 30 exCapped).2 =
      Except.error (Err.rate_limited (some 86390)) ∧
    exCapped.rate_limits =
      [⟨"issue:st", 2, 10, 60⟩, ⟨"earn10:m:c", 1, 20, 600⟩, ⟨"earnday:m:c:0", 1, 20, 86400⟩] ∧
    (postClaim "c" "T2" none "L2" "G2" 30 exCapped).1.rate_limits =
      [⟨"issue:st", 2, 10, 60⟩, ⟨"earn10:m:c", 2, 20, 600⟩, ⟨"earnday:m:c:0", 1, 20, 86400⟩] ∧
    (postClaim "c" "T2" none "L2" "G2" 30 exCapped).1 ≠ exCapped := by
  decide

/-- A failed issuance changes at most the rate-limit rows, and none when it
is rejected as rate limited. -/
theorem postToken_error (store_id staff_id : String) (tr : Option String)
    (token_id receipt_code : String) (t : Int) (db : Db) (e : Err)
    (herr : (postToken store_id staff_id tr token_id receipt_code t db).2 = Except.error e) :
    (postToken store_id staff_id tr token_id receipt_code t db).1 =
        { db with rate_limits :=
            (postToken store_id staff_id tr token_id receipt_code t db).1.rate_limits } ∧
      (∀ ra, e = Err.rate_limited ra →
        (postToken store_id staff_id tr token_id receipt_code t db).1 = db) := by
  have hf := rateLimit_frame ("issue:" ++ staff_id) 120 60 t db
  have hd := rateLimit_denied ("issue:" ++ staff_id) 120 60 t db
  revert herr
  unfold postToken
  cases hstore : getStore db store_id with
  | none =>
    intro _
    exact ⟨rfl, fun _ _ => rfl⟩
  | some store =>
    simp only
    cases hok : (rateLimit ("issue:" ++ staff_id) 120 60 t db).2.ok with
    | false =>
      intro _
      simp only [if_true]
      exact ⟨hf, fun _ _ => hd hok⟩
    | true =>
      simp only [Bool.true_eq_false, if_false]
      cases hprog : getProgram db store.merchant_id with
      | none =>
        intro herr
        simp only [Except.error.injEq] at herr
        subst herr
        exact ⟨hf, fun ra h => by cases h⟩
      | some program =>
        simp only
        split
        · intro herr
          simp only [Except.error.injEq] at herr
          subst herr
          exact ⟨hf, fun ra h => by cases h⟩
        · intro herr
          cases herr

theorem postClaim_error (customer_id token_id : String) (rc : Option String)
    (lot_id ledger_id : String) (t : Int) (db : Db) (e : Err)
    (herr : (postClaim customer_id token_id rc lot_id ledger_id t db).2 = Except.error e) :
    (postClaim customer_id token_id rc lot_id ledger_id t db).1 =
      { db with rate_limits :=
          (postClaim customer_id token_id rc lot_id ledger_id t db).1.rate_limits } := by
  rcases postClaim_cases customer_id token_id rc lot_id ledger_id t db with
    ⟨_, _, hframe⟩ | ⟨tok, p, _, _, _, _, _, _, _, _, heq⟩
  · exact hframe
  · rw [heq] at herr
    cases herr

theorem postTokenVoid_error (store_id staff_id token_id lot_id ledger_id : String) (t : Int)
    (db : Db) (e : Err)
    (herr : (postTokenVoid store_id staff_id token_id lot_id ledger_id t db).2 =
      Except.error e) :
    (postTokenVoid store_id staff_id token_id lot_id ledger_id t db).1 = db := by
  rcases postTokenVoid_cases store_id staff_id token_id lot_id ledger_id t db with
    h | ⟨tok, p, _, _, _, _, _, heq⟩ | ⟨tok, p, c, _, _, _, _, _, _, _, heq⟩
  · exact h
  · rw [heq] at herr
    cases herr
  · rw [heq] at herr
    cases herr

theorem postRedeemStart_error (c m r rt x : String) (t : Int) (db : Db) (e : Err)
    (_herr : (postRedeemStart c m r rt x t db).2 = Except.error e) :
    (postRedeemStart c m r rt x t db).1 = db := by
  obtain ⟨_, h⟩ := postRedeemStart_cases c m r rt x t db
  rw [h]

theorem postRedeemComplete_error (store_id staff_id rt ledger_id : String) (t : Int) (db : Db)
    (e : Err)
    (herr : (postRedeemComplete store_id staff_id rt ledger_id t db).2 = Except.error e) :
    (postRedeemComplete store_id staff_id rt ledger_id t db).1 = db := by
  rcases postRedeemComplete_cases store_id staff_id rt ledger_id t db with
    ⟨_, h⟩ | ⟨red, reward, store, _, _, _, _, _, _, _, _, _, heq⟩
  · rw [h]
  · rw [heq] at herr
    cases herr

/-- C20, amended. A request that returns an error leaves no partial mutation
of tokens, lots, ledger, redemptions or consumption records.  A failed
issuance and a failed claim leave every table except `rate_limits` as it was
(the rate checks run before and outside the transaction, and the checks that
passed keep their count); an issuance rejected as rate limited leaves the
whole database as it was.  A failed void, a failed start and a failed
completion leave the whole database, rate-limit rows included, as it was. -/
theorem failed_request_frame :
    (∀ (store_id staff_id : String) (tr : Option String) (token_id receipt_code : String)
      (t : Int) (db : Db) (e : Err),
      (postToken store_id staff_id tr token_id receipt_code t db).2 = Except.error e →
      (postToken store_id staff_id tr token_id receipt_code t db).1 =
          { db with rate_limits :=
              (postToken store_id staff_id tr token_id receipt_code t db).1.rate_limits } ∧
        (∀ ra, e = Err.rate_limited ra →
          (postToken store_id staff_id tr token_id receipt_code t db).1 = db)) ∧
    (∀ (customer_id token_id : String) (rc : Option String) (lot_id ledger_id : String)
      (t : Int) (db : Db) (e : Err),
      (postClaim customer_id token_id rc lot_id ledger_id t db).2 = Except.error e →
      (postClaim customer_id token_id rc lot_id ledger_id t db).1 =
        { db with rate_limits :=
            (postClaim customer_id token_id rc lot_id ledger_id t db).1.rate_limits }) ∧
    (∀ (store_id staff_id token_id lot_id ledger_id : String) (t : Int) (db : Db) (e : Err),
      (postTokenVoid store_id staff_id token_id lot_id ledger_id t db).2 = Except.error e →
      (postTokenVoid store_id staff_id token_id lot_id ledger_id t db).1 = db) ∧
    (∀ (c m r rt x : String) (t : Int) (db : Db) (e : Err),
      (postRedeemStart c m r rt x t db).2 = Except.error e →
      (postRedeemStart c m r rt x t db).1 = db) ∧
    (∀ (store_id staff_id rt ledger_id : String) (t : Int) (db : Db) (e : Err),
      (postRedeemComplete store_id staff_id rt ledger_id t db).2 = Except.error e →
      (postRedeemComplete store_id staff_id rt ledger_id t db).1 = db) :=
  ⟨postToken_error, postClaim_error, postTokenVoid_error, postRedeemStart_error,
    postRedeemComplete_error⟩

/-- C20, amended, on the capped shop: the claim of `T2` rejected by the day
check leaves every table except `rate_limits` as it was, and a completion of
the unknown token `RT9` leaves the whole database as it was. -/
theorem failed_request_frame_witness :
    (postClaim "c" "T2" none "L2" "G2" 30 exCapped).1 =
      { exCapped with rate_limits :=
          (postClaim "c" "T2" none "L2" "G2" 30 exCapped).1.rate_limits } ∧
    (postRedeemComplete "s" "st" "RT9" "G2" 30 exCapped).1 = exCapped :=
  ⟨failed_request_frame.2.1 "c" "T2" none "L2" "G2" 30 exCapped
      (Err.rate_limited (some 86390)) (by decide),
    failed_request_frame.2.2.2.2 "s" "st" "RT9" "G2" 30 exCapped Err.redemption_not_found
      (by decide)⟩

/-! ## Lots over sequences of requests -/

/-- What the takes of one FIFO pass draw from a row of the table. -/
theorem usedFor_bounds (db : Db) (m c : String) (n t : Int)
    (hpk : (db.point_lots.map Lot.lot_id).Nodup) (l : Lot) (hl : l ∈ db.point_lots) :
    0 ≤ usedFor (takes (selectLots db m c t) n) l.lot_id ∧
      usedFor (takes (selectLots db m c t) n) l.lot_id ≤ max 0 l.points_remaining ∧
      (eligible m c t l = false → usedFor (takes (selectLots db m c t) n) l.lot_id = 0) := by
  obtain ⟨_, hfacts⟩ := takes_select_facts db m c n t hpk
  by_cases hmem : l.lot_id ∈ (takes (selectLots db m c t) n).map Used.lot_id
  · obtain ⟨u, hu, hid⟩ := List.mem_map.1 hmem
    obtain ⟨huse, l2, hl2, hel, hid2, h1, h2⟩ := hfacts u hu
    have e : l2 = l := eq_of_same_id db.point_lots hpk l2 l hl2 hl (hid2.trans hid)
    subst e
    rw [← hid, huse]
    refine ⟨by omega, by omega, fun h => ?_⟩
    rw [hel] at h
    cases h
  · rw [usedFor_eq_zero _ _ hmem]
    exact ⟨le_refl 0, le_max_left 0 _, fun _ => rfl⟩

theorem eligible_pos {m c : String} {t : Int} {l : Lot} (h : ¬ 0 < l.points_remaining) :
    eligible m c t l = false := by
  simp [eligible, h]

theorem lotStep_refl (l : Lot) : LotStep l l :=
  ⟨rfl, rfl, rfl, rfl, rfl, le_refl _, fun h => h, fun _ => rfl⟩

theorem lotStep_trans {a b c : Lot} (h1 : LotStep a b) (h2 : LotStep b c) : LotStep a c := by
  obtain ⟨a1, a2, a3, a4, a5, a6, a7, a8⟩ := h1
  obtain ⟨b1, b2, b3, b4, b5, b6, b7, b8⟩ := h2
  refine ⟨b1.trans a1, b2.trans a2, b3.trans a3, b4.trans a4, b5.trans a5, by omega,
    fun h => b7 (a7 h), fun h => ?_⟩
  have hb := a8 h
  subst hb
  exact b8 h

/-- One FIFO pass over the table changes each row along `LotStep`. -/
theorem lotsAfter_lotStep (db : Db) (m c : String) (n t : Int)
    (hpk : (db.point_lots.map Lot.lot_id).Nodup) (l : Lot) (hl : l ∈ db.point_lots) :
    l.minus (usedFor (takes (selectLots db m c t) n) l.lot_id) ∈
        lotsAfter db.point_lots (takes (selectLots db m c t) n) ∧
      LotStep l (l.minus (usedFor (takes (selectLots db m c t) n) l.lot_id)) := by
  obtain ⟨h0, h1, h2⟩ := usedFor_bounds db m c n t hpk l hl
  refine ⟨List.mem_map.2 ⟨l, hl, rfl⟩, rfl, rfl, rfl, rfl, rfl, ?_, ?_, ?_⟩
  · simp only [Lot.minus]
    omega
  · intro h
    simp only [Lot.minus]
    have : max 0 l.points_remaining = l.points_remaining := max_eq_right h
    omega
  · intro h
    have hz : usedFor (takes (selectLots db m c t) n) l.lot_id = 0 := by
      have : max 0 l.points_remaining = 0 := max_eq_left h
      omega
    rw [hz, Lot.minus_zero]

/-- The effect of one request on the lots, row by row. -/
theorem effect_lots (db d : Db) (hpk : (db.point_lots.map Lot.lot_id).Nodup)
    (h : Effect db d) :
    (d.point_lots.map Lot.lot_id).Nodup ∧
      ∀ l ∈ db.point_lots, ∃ l2 ∈ d.point_lots, LotStep l l2 := by
  cases h with
  | unchanged ht hl hg =>
    rw [hl]
    exact ⟨hpk, fun l h => ⟨l, h, lotStep_refl l⟩⟩
  | issued new hnew hst ht hl hg =>
    rw [hl]
    exact ⟨hpk, fun l h => ⟨l, h, lotStep_refl l⟩⟩
  | claimed tok c p lot_id ledger_id t htok hst hlot hledger ht hl hg =>
    rw [hl]
    refine ⟨?_, fun l h => ⟨l, List.mem_append_left _ h, lotStep_refl l⟩⟩
    rw [List.map_append]
    refine List.Nodup.append hpk (by simp) ?_
    simpa [List.disjoint_right, earnLot] using hlot
  | completed red reward staff_id ledger_id t hsuff hledger ht hl hg =>
    rw [hl]
    refine ⟨by rw [lotsAfter_ids]; exact hpk, fun l h => ?_⟩
    obtain ⟨h1, h2⟩ := lotsAfter_lotStep db red.merchant_id red.customer_id reward.points_cost t
      hpk l h
    exact ⟨_, h1, h2⟩
  | voidedUnclaimed tok htok hst hd ht hl hg =>
    rw [hl]
    exact ⟨hpk, fun l h => ⟨l, h, lotStep_refl l⟩⟩
  | voided tok c points staff_id lot_id ledger_id t htok hst hd hlot hledger ht hl hg =>
    rw [hl]
    constructor
    · rw [List.map_append, lotsAfter_ids]
      unfold voidDebt
      by_cases hdebt : 0 < points - usedSum (voidTakes db tok c points t)
      · rw [if_pos hdebt]
        refine List.Nodup.append hpk (by simp) ?_
        simpa [List.disjoint_right] using hlot hdebt
      · rw [if_neg hdebt]
        simpa using hpk
    · intro l h
      obtain ⟨h1, h2⟩ := lotsAfter_lotStep db tok.merchant_id c points t hpk l h
      exact ⟨_, List.mem_append_left _ h1, h2⟩

theorem run_lots (ops : List Op) (db : Db) (hpk : (db.point_lots.map Lot.lot_id).Nodup) :
    ((run db ops).point_lots.map Lot.lot_id).Nodup ∧
      ∀ l ∈ db.point_lots, ∃ l2 ∈ (run db ops).point_lots, LotStep l l2 := by
  induction ops generalizing db with
  | nil => exact ⟨hpk, fun l h => ⟨l, h, lotStep_refl l⟩⟩
  | cons op ops ih =>
    obtain ⟨h1, h2⟩ := effect_lots db (step db op) hpk (step_effect db op)
    obtain ⟨h3, h4⟩ := ih (step db op) h1
    refine ⟨h3, fun l hl => ?_⟩
    obtain ⟨l2, hl2, s1⟩ := h2 l hl
    obtain ⟨l3, hl3, s2⟩ := h4 l2 hl2
    exact ⟨l3, hl3, lotStep_trans s1 s2⟩

theorem reachable_lots_nodup (db : Db) (h : Reachable db) :
    (db.point_lots.map Lot.lot_id).Nodup := by
  induction h with
  | init db hinit =>
    obtain ⟨_, hl, _⟩ := hinit
    simp [hl]
  | step db op _ ih => exact (effect_lots db (step db op) ih (step_effect db op)).1

/-- C21. The lot invariant over every sequence of requests (claim, complete,
void, start, issue, and the two settings requests).  Lot ids are pairwise
distinct in every reachable database.  From a database with pairwise distinct
lot ids, after any sequence of requests: the ids are still pairwise distinct,
and every lot `l` that was there is still there under the same id, with the
same `merchant_id`, `customer_id`, `created_at` and `expires_at`; its
`points_remaining` has not increased; if it was not negative it is not
negative; and if it was zero or negative (a debt lot in particular) the row is
exactly as it was. -/
theorem lots_evolve :
    (∀ db : Db, Reachable db → (db.point_lots.map Lot.lot_id).Nodup) ∧
    (∀ (db : Db) (ops : List Op), (db.point_lots.map Lot.lot_id).Nodup →
      ((run db ops).point_lots.map Lot.lot_id).Nodup ∧
      ∀ l ∈ db.point_lots, ∃ l2 ∈ (run db ops).point_lots,
        l2.lot_id = l.lot_id ∧ l2.merchant_id = l.merchant_id ∧
        l2.customer_id = l.customer_id ∧ l2.created_at = l.created_at ∧
        l2.expires_at = l.expires_at ∧ l2.points_remaining ≤ l.points_remaining ∧
        (0 ≤ l.points_remaining → 0 ≤ l2.points_remaining) ∧
        (l.points_remaining ≤ 0 → l2 = l)) :=
  ⟨reachable_lots_nodup, fun db ops hpk => run_lots ops db hpk⟩

/-- C21 on the example shop: from the state where `c` holds the 1-point lot
`L1`, completing `RT1` and voiding `T1` leaves `L1` at 0 and adds the debt lot
`L2` of -1; a later claim of a new token leaves both rows as they are. -/
theorem lots_evolve_witness :
    exVoided.point_lots =
      [⟨"L1", "m", "c", 0, 20, some (20 + 180 * 86400), some "T1", some "Earned point"⟩,
        ⟨"L2", "m", "c", -1, 50, none, none, some "Debt from void (insufficient points)"⟩] ∧
    ∀ l ∈ exVoided.point_lots,
      ∃ l2 ∈ (run exVoided [Op.issue "s" "st" none "T2" "EFGH" 60,
          Op.claim "c" "T2" none "L3" "G4" 70]).point_lots,
        l2.lot_id = l.lot_id ∧ l2.merchant_id = l.merchant_id ∧
        l2.customer_id = l.customer_id ∧ l2.created_at = l.created_at ∧
        l2.expires_at = l.expires_at ∧ l2.points_remaining ≤ l.points_remaining ∧
        (0 ≤ l.points_remaining → 0 ≤ l2.points_remaining) ∧
        (l.points_remaining ≤ 0 → l2 = l) :=
  ⟨by decide,
    (lots_evolve.2 exVoided [Op.issue "s" "st" none "T2" "EFGH" 60,
      Op.claim "c" "T2" none "L3" "G4" 70] (by decide)).2⟩

/-! ## The state machine of an earn token -/

theorem postProgram_frame (store_id : String) (b : ProgramBody) (db : Db) :
    (postProgram store_id b db).1 =
      { db with loyalty_programs := (postProgram store_id b db).1.loyalty_programs } := by
  unfold postProgram
  split
  · rfl
  · split
    · rfl
    · simp only
      split <;> rfl

theorem postReward_frame (store_id name : String) (points_cost : Field) (reward_id : String)
    (t : Int) (db : Db) :
    (postReward store_id name points_cost reward_id t db).1 =
      { db with rewards := (postReward store_id name points_cost reward_id t db).1.rewards } := by
  unfold postReward
  split
  · rfl
  · split
    · rfl
    · split
      · rfl
      · split
        · rfl
        · split <;> rfl

theorem postToken_frame (store_id staff_id : String) (tr : Option String)
    (token_id receipt_code : String) (t : Int) (db : Db) :
    (postToken store_id staff_id tr token_id receipt_code t db).1 =
      { db with
          earn_tokens := (postToken store_id staff_id tr token_id receipt_code t db).1.earn_tokens,
          rate_limits :=
            (postToken store_id staff_id tr token_id receipt_code t db).1.rate_limits } := by
  have hf := rateLimit_frame ("issue:" ++ staff_id) 120 60 t db
  unfold postToken
  split
  · rfl
  · simp only
    split
    · rw [hf]
    · split
      · rw [hf]
      · split
        · rw [hf]
        · rw [hf]

theorem postRedeemStart_frame (c m r rt x : String) (t : Int) (db : Db) :
    (postRedeemStart c m r rt x t db).1 =
      { db with redemptions := (postRedeemStart c m r rt x t db).1.redemptions } := by
  obtain ⟨e, h⟩ := postRedeemStart_cases c m r rt x t db
  rw [h]

theorem postToken_tokens (store_id staff_id : String) (tr : Option String)
    (token_id receipt_code : String) (t : Int) (db : Db) :
    (postToken store_id staff_id tr token_id receipt_code t db).1.earn_tokens = db.earn_tokens ∨
    ∃ new : EarnToken, new.status = "ISSUED" ∧
      (postToken store_id staff_id tr token_id receipt_code t db).1.earn_tokens =
        db.earn_tokens ++ [new] := by
  obtain ⟨h1, _, _⟩ := rateLimit_tokens ("issue:" ++ staff_id) 120 60 t db
  unfold postToken
  split
  · exact Or.inl rfl
  · simp only
    split
    · exact Or.inl h1
    · split
      · exact Or.inl h1
      · split
        · exact Or.inl h1
        · rename_i _ store _ _ _ program _ _
          exact Or.inr ⟨⟨token_id, store.merchant_id, store.store_id, staff_id, t,
            t + program.token_expiry_minutes * 60, "ISSUED", none, none, some receipt_code,
            orNull tr⟩, rfl, by simp only [h1]⟩

/-- What one request does to the stored row of a token. -/
theorem step_token (db : Db) (op : Op) (T : String) (tok : EarnToken)
    (h : getToken db T = some tok) :
    getToken (step db op) T = some tok ∨
    (∃ c rc l g t, op = Op.claim c T rc l g t ∧ tok.status = "ISSUED" ∧ t ≤ tok.expires_at ∧
      getToken (step db op) T =
        some { tok with status := "REDEEMED", redeemed_at := some t,
                        redeemed_by_customer_id := some c }) ∨
    (∃ s st l g t, op = Op.void s st T l g t ∧ tok.status ≠ "VOIDED" ∧ tok.store_id = s ∧
      getToken (step db op) T = some { tok with status := "VOIDED" }) := by
  have hT := getToken_id h
  cases op with
  | program s b =>
    left
    rw [getToken_congr db _ T (by simp only [step]; rw [postProgram_frame]), h]
  | reward s n c r t =>
    left
    rw [getToken_congr db _ T (by simp only [step]; rw [postReward_frame]), h]
  | issue s st tr tok0 rc t =>
    left
    rcases postToken_tokens s st tr tok0 rc t db with e | ⟨new, _, e⟩
    · rw [getToken_congr db _ T (by simp only [step]; exact e), h]
    · rw [getToken_append db _ T new (by simp only [step]; exact e), h]
      rfl
  | claim c tok0 rc l g t =>
    rcases postClaim_cases c tok0 rc l g t db with
      ⟨e, _, hframe⟩ | ⟨tk, p, h0, htk, hst, hexp, _, _, _, _, heq⟩
    · left
      rw [getToken_congr db _ T (by simp only [step]; rw [hframe]), h]
    · have hid := getToken_id htk
      have hget : getToken (step db (Op.claim c tok0 rc l g t)) T =
          (getToken db T).map fun x =>
            if x.token_id = tk.token_id then
              { x with status := "REDEEMED", redeemed_at := some t,
                       redeemed_by_customer_id := some c }
            else x := by
        apply getToken_markRedeemed
        simp only [step, heq, afterClaim, afterRateChecks_tokens]
      by_cases hsame : tok0 = T
      · subst hsame
        rw [h] at htk
        cases htk
        right; left
        refine ⟨c, rc, l, g, t, rfl, hst, hexp, ?_⟩
        rw [hget, h]
        simp
      · left
        rw [hget, h]
        have : ¬ tok.token_id = tk.token_id := by
          rw [hT, hid]
          exact fun e => hsame e.symm
        simp [this]
  | start c m r rt x t =>
    left
    rw [getToken_congr db _ T (by simp only [step]; rw [postRedeemStart_frame]), h]
  | complete s st rt g t =>
    left
    rcases postRedeemComplete_cases s st rt g t db with
      ⟨e, he⟩ | ⟨red, reward, store, _, _, _, _, _, _, _, _, _, heq⟩
    · rw [getToken_congr db _ T (by simp only [step]; rw [he]), h]
    · rw [getToken_congr db _ T (by simp only [step]; rw [heq]; rfl), h]
  | void s st tok0 l g t =>
    have key : ∀ tk : EarnToken, getToken db tok0 = some tk → tk.store_id = s →
        tk.status ≠ "VOIDED" →
        (step db (Op.void s st tok0 l g t)).earn_tokens = markVoided db.earn_tokens tk.token_id →
        getToken (step db (Op.void s st tok0 l g t)) T = some tok ∨
        (∃ c rc l2 g2 t2, Op.void s st tok0 l g t = Op.claim c T rc l2 g2 t2 ∧
          tok.status = "ISSUED" ∧ t2 ≤ tok.expires_at ∧
          getToken (step db (Op.void s st tok0 l g t)) T =
            some { tok with status := "REDEEMED", redeemed_at := some t2,
                            redeemed_by_customer_id := some c }) ∨
        (∃ s2 st2 l2 g2 t2, Op.void s st tok0 l g t = Op.void s2 st2 T l2 g2 t2 ∧
          tok.status ≠ "VOIDED" ∧ tok.store_id = s2 ∧
          getToken (step db (Op.void s st tok0 l g t)) T =
            some { tok with status := "VOIDED" }) := by
      intro tk htk hstore hst hmark
      have hid := getToken_id htk
      have hget := getToken_markVoided db _ T tk.token_id hmark
      by_cases hsame : tok0 = T
      · subst hsame
        rw [h] at htk
        cases htk
        right; right
        refine ⟨s, st, l, g, t, rfl, hst, hstore, ?_⟩
        rw [hget, h]
        simp
      · left
        rw [hget, h]
        have : ¬ tok.token_id = tk.token_id := by
          rw [hT, hid]
          exact fun e => hsame e.symm
        simp [this]
    rcases postTokenVoid_cases s st tok0 l g t db with
      hsame | ⟨tk, p, htk, hstore, hst, _, _, heq⟩ | ⟨tk, p, c, htk, hstore, hst, _, _, _, _, heq⟩
    · left
      rw [getToken_congr db _ T (by simp only [step]; rw [hsame]), h]
    · exact key tk htk hstore hst (by simp only [step, heq, afterVoidUnclaimed])
    · exact key tk htk hstore hst (by simp only [step, heq, afterVoid])

theorem tokenMove_trans {a b c : String} (h1 : TokenMove a b) (h2 : TokenMove b c) :
    TokenMove a c := by
  unfold TokenMove at *
  rcases h1 with rfl | ⟨rfl, rfl⟩ | ⟨rfl, rfl⟩ | ⟨rfl, rfl⟩ <;>
    rcases h2 with rfl | ⟨h, rfl⟩ | ⟨h, rfl⟩ | ⟨h, rfl⟩ <;> simp_all

/-- Tokens that appear are `ISSUED`. -/
theorem step_token_new (db : Db) (op : Op) (T : String) (h : getToken db T = none)
    (tok2 : EarnToken) (h2 : getToken (step db op) T = some tok2) : tok2.status = "ISSUED" := by
  have e := step_effect db op
  cases e with
  | unchanged ht hl hg =>
    rw [getToken_congr db _ T ht, h] at h2
    cases h2
  | issued new hnew hst ht hl hg =>
    rw [getToken_append db _ T new ht, h] at h2
    by_cases hid : new.token_id = T
    · simp [hid] at h2
      rw [← h2]
      exact hst
    · simp [hid] at h2
  | claimed tok c p lot_id ledger_id t htok hst hlot hledger ht hl hg =>
    rw [getToken_markRedeemed db _ T tok.token_id c t ht, h] at h2
    cases h2
  | completed red reward staff_id ledger_id t hsuff hledger ht hl hg =>
    rw [getToken_congr db _ T ht, h] at h2
    cases h2
  | voidedUnclaimed tok htok hst hd ht hl hg =>
    rw [getToken_markVoided db _ T tok.token_id ht, h] at h2
    cases h2
  | voided tok c points staff_id lot_id ledger_id t htok hst hd hlot hledger ht hl hg =>
    rw [getToken_markVoided db _ T tok.token_id ht, h] at h2
    cases h2

theorem reachable_token_status (db : Db) (hreach : Reachable db) (T : String)
    (tok : EarnToken) (h : getToken db T = some tok) :
    tok.status = "ISSUED" ∨ tok.status = "REDEEMED" ∨ tok.status = "VOIDED" := by
  induction hreach generalizing tok with
  | init db hinit =>
    obtain ⟨ht, _⟩ := hinit
    simp [getToken, ht] at h
  | step db op _ ih =>
    cases hold : getToken db T with
    | none => exact Or.inl (step_token_new db op T hold tok h)
    | some tok0 =>
      rcases step_token db op T tok0 hold with e | ⟨_, _, _, _, _, _, _, _, e⟩ |
        ⟨_, _, _, _, _, _, _, _, e⟩
      · rw [e] at h
        cases h
        exact ih _ hold
      · rw [e] at h
        cases h
        exact Or.inr (Or.inl rfl)
      · rw [e] at h
        cases h
        exact Or.inr (Or.inr rfl)

theorem run_token_move (ops : List Op) (db : Db) (hreach : Reachable db) (T : String)
    (tok : EarnToken) (h : getToken db T = some tok) :
    ∃ tok2, getToken (run db ops) T = some tok2 ∧ TokenMove tok.status tok2.status := by
  induction ops generalizing db tok with
  | nil => exact ⟨tok, h, Or.inl rfl⟩
  | cons op ops ih =>
    have hst := reachable_token_status db hreach T tok h
    rcases step_token db op T tok h with e | ⟨_, _, _, _, _, _, hi, _, e⟩ |
      ⟨_, _, _, _, _, _, hv, _, e⟩
    · exact ih (step db op) (Reachable.step db op hreach) tok e
    · obtain ⟨tok2, h2, m2⟩ := ih (step db op) (Reachable.step db op hreach) _ e
      exact ⟨tok2, h2, tokenMove_trans (Or.inr (Or.inl ⟨hi, rfl⟩)) m2⟩
    · obtain ⟨tok2, h2, m2⟩ := ih (step db op) (Reachable.step db op hreach) _ e
      refine ⟨tok2, h2, tokenMove_trans ?_ m2⟩
      rcases hst with h1 | h1 | h1
      · exact Or.inr (Or.inr (Or.inl ⟨h1, rfl⟩))
      · exact Or.inr (Or.inr (Or.inr ⟨h1, rfl⟩))
      · exact absurd h1 hv

theorem run_token_voided (ops : List Op) (db : Db) (T : String) (tok : EarnToken)
    (h : getToken db T = some tok) (hv : tok.status = "VOIDED") :
    getToken (run db ops) T = some tok := by
  induction ops generalizing db with
  | nil => exact h
  | cons op ops ih =>
    rcases step_token db op T tok h with e | ⟨_, _, _, _, _, _, hi, _, _⟩ |
      ⟨_, _, _, _, _, _, hnv, _, _⟩
    · exact ih (step db op) e
    · rw [hv] at hi
      exact absurd hi (by decide)
    · exact absurd hv hnv

theorem run_token_redeemed (ops : List Op) (db : Db) (T : String) (tok : EarnToken)
    (h : getToken db T = some tok) (hr : tok.status = "REDEEMED") :
    ∃ tok2, getToken (run db ops) T = some tok2 ∧
      (tok2.status = "REDEEMED" ∨ tok2.status = "VOIDED") := by
  induction ops generalizing db with
  | nil => exact ⟨tok, h, Or.inl hr⟩
  | cons op ops ih =>
    rcases step_token db op T tok h with e | ⟨_, _, _, _, _, _, hi, _, _⟩ |
      ⟨_, _, _, _, _, _, _, _, e⟩
    · exact ih (step db op) e
    · rw [hr] at hi
      exact absurd hi (by decide)
    · exact ⟨_, run_token_voided ops (step db op) T _ e rfl, Or.inr rfl⟩

theorem postClaim_expired (c T : String) (rc : Option String) (l g : String) (t : Int)
    (db : Db) (tok : EarnToken) (h0 : T ≠ "") (h : getToken db T = some tok)
    (hi : tok.status = "ISSUED") (hexp : tok.expires_at < t) :
    postClaim c T rc l g t db = (db, Except.error Err.token_expired) := by
  simp [postClaim, h0, h, hi, hexp]

theorem run_token_spared (ops : List Op) (db : Db) (T : String) (tok : EarnToken)
    (h : getToken db T = some tok)
    (hops : ∀ op ∈ ops, sparesToken T tok.expires_at op) :
    getToken (run db ops) T = some tok := by
  induction ops generalizing db with
  | nil => exact h
  | cons op ops ih =>
    have hop := hops op (by simp)
    have hrest : ∀ o ∈ ops, sparesToken T tok.expires_at o := fun o ho => hops o (by simp [ho])
    rcases step_token db op T tok h with e | ⟨c, rc, l, g, t, e, _, hle, _⟩ |
      ⟨s, st, l, g, t, e, _, _, _⟩
    · exact ih (step db op) e hrest
    · subst e
      have := hop rfl
      omega
    · subst e
      exact absurd rfl hop

/-- C22. The state machine of an earn token over every sequence of requests.
From a reachable database the stored status of a token moves only along
`ISSUED → REDEEMED`, `ISSUED → VOIDED` and `REDEEMED → VOIDED` (or stays), and
the token is never deleted.  From any database: a `VOIDED` token keeps its
whole row whatever requests follow; a `REDEEMED` token is afterwards
`REDEEMED` or `VOIDED`, never `ISSUED` again; an `ISSUED` token keeps its whole
row as long as no request voids it and every claim of it comes after its
`expires_at`; and such a claim of an `ISSUED` token past `expires_at` is
rejected with `token_expired` and leaves the database as it was. -/
theorem token_state_machine :
    (∀ (db : Db) (ops : List Op) (T : String) (tok : EarnToken), Reachable db →
      getToken db T = some tok →
      ∃ tok2, getToken (run db ops) T = some tok2 ∧ TokenMove tok.status tok2.status) ∧
    (∀ (db : Db) (ops : List Op) (T : String) (tok : EarnToken),
      getToken db T = some tok → tok.status = "VOIDED" →
      getToken (run db ops) T = some tok) ∧
    (∀ (db : Db) (ops : List Op) (T : String) (tok : EarnToken),
      getToken db T = some tok → tok.status = "REDEEMED" →
      ∃ tok2, getToken (run db ops) T = some tok2 ∧
        (tok2.status = "REDEEMED" ∨ tok2.status = "VOIDED")) ∧
    (∀ (db : Db) (ops : List Op) (T : String) (tok : EarnToken),
      getToken db T = some tok → tok.status = "ISSUED" →
      (∀ op ∈ ops, sparesToken T tok.expires_at op) →
      getToken (run db ops) T = some tok) ∧
    (∀ (db : Db) (c T : String) (rc : Option String) (l g : String) (t : Int)
      (tok : EarnToken),
      T ≠ "" → getToken db T = some tok → tok.status = "ISSUED" → tok.expires_at < t →
      postClaim c T rc l g t db = (db, Except.error Err.token_expired)) :=
  ⟨fun db ops T tok hreach h => run_token_move ops db hreach T tok h,
    fun db ops T tok h hv => run_token_voided ops db T tok h hv,
    fun db ops T tok h hr => run_token_redeemed ops db T tok h hr,
    fun db ops T tok h _ hops => run_token_spared ops db T tok h hops,
    fun db c T rc l g t tok h0 h hi hexp => postClaim_expired c T rc l g t db tok h0 h hi hexp⟩

/-- C22 on the example shop: token `T1`, issued at 10, expires at 7210.  A
claim at 8000 is rejected with `token_expired`, and after that claim and an
issuance of another token `T1` is still stored as `ISSUED`; once voided it
stays `VOIDED` when a claim follows. -/
theorem token_state_machine_witness :
    postClaim "c" "T1" none "L1" "G1" 8000 exIssued =
      (exIssued, Except.error Err.token_expired) ∧
    getToken (run exIssued [Op.claim "c" "T1" none "L1" "G1" 8000,
        Op.issue "s" "st" none "T2" "EFGH" 8001]) "T1" =
      some ⟨"T1", "m", "s", "st", 10, 7210, "ISSUED", none, none, some "ABCD", none⟩ ∧
    getToken (run exVoided [Op.claim "c" "T1" none "L9" "G9" 60]) "T1" =
      some ⟨"T1", "m", "s", "st", 10, 7210, "VOIDED", some 20, some "c", some "ABCD", none⟩ :=
  ⟨token_state_machine.2.2.2.2 exIssued "c" "T1" none "L1" "G1" 8000
      ⟨"T1", "m", "s", "st", 10, 7210, "ISSUED", none, none, some "ABCD", none⟩
      (by decide) (by decide) (by decide) (by decide),
    token_state_machine.2.2.2.1 exIssued [Op.claim "c" "T1" none "L1" "G1" 8000,
        Op.issue "s" "st" none "T2" "EFGH" 8001] "T1"
      ⟨"T1", "m", "s", "st", 10, 7210, "ISSUED", none, none, some "ABCD", none⟩
      (by decide) (by decide) (by decide),
    token_state_machine.2.1 exVoided [Op.claim "c" "T1" none "L9" "G9" 60] "T1"
      ⟨"T1", "m", "s", "st", 10, 7210, "VOIDED", some 20, some "c", some "ABCD", none⟩
      (by decide) (by decide)⟩

/-! ## Staff act on their own store and merchant -/

/-- C23. Staff act only on tokens of their own store and on redemptions of
their own merchant.  A void of an existing token whose `store_id` differs from
the acting store is rejected with `wrong_store`; a completion of a `PENDING`
redemption that is not past its deadline, by staff of a store whose merchant
differs from the redemption's merchant, is rejected with `wrong_merchant`.  In
both cases the whole database (token, redemption, lots, ledger) is as it was. -/
theorem staff_scope :
    (∀ (db : Db) (store_id staff_id token_id lot_id ledger_id : String) (t : Int)
      (tok : EarnToken),
      token_id ≠ "" → getToken db token_id = some tok → tok.store_id ≠ store_id →
      postTokenVoid store_id staff_id token_id lot_id ledger_id t db =
        (db, Except.error Err.wrong_store)) ∧
    (∀ (db : Db) (store_id staff_id rt ledger_id : String) (t : Int) (red : Redemption)
      (store : Store),
      rt ≠ "" → getRedemption db rt = some red → red.status = "PENDING" →
      (∀ e, red.redeem_expires_at = some e → t ≤ e) →
      getStore db store_id = some store → red.merchant_id ≠ store.merchant_id →
      postRedeemComplete store_id staff_id rt ledger_id t db =
        (db, Except.error Err.wrong_merchant)) := by
  constructor
  · intro db store_id staff_id token_id lot_id ledger_id t tok h0 htok hstore
    simp [postTokenVoid, h0, htok, hstore]
  · intro db store_id staff_id rt ledger_id t red store h0 hred hst hexp hstore hm
    have hne : redeemExpired red t = false := by
      unfold redeemExpired
      cases he : red.redeem_expires_at with
      | none => rfl
      | some e =>
        have := hexp e he
        simp only [Bool.and_eq_false_imp, decide_eq_true_eq, decide_eq_false_iff_not]
        intro _
        omega
    simp [postRedeemComplete, h0, hred, hst, hne, hstore, hm]

/-- C23 on the two shops: staff of store `s2` (merchant `m2`) can neither void
token `T1` of store `s` nor complete redemption `RT1` of merchant `m`. -/
theorem staff_scope_witness :
    postTokenVoid "s2" "st2" "T1" "L9" "G9" 40 exTwo = (exTwo, Except.error Err.wrong_store) ∧
    postRedeemComplete "s2" "st2" "RT1" "G9" 40 exTwo =
      (exTwo, Except.error Err.wrong_merchant) :=
  ⟨staff_scope.1 exTwo "s2" "st2" "T1" "L9" "G9" 40
      ⟨"T1", "m", "s", "st", 10, 7210, "REDEEMED", some 20, some "c", some "ABCD", none⟩
      (by decide) (by decide) (by decide),
    staff_scope.2 exTwo "s2" "st2" "RT1" "G9" 40 (startedRow "c" "m" "r" "RT1" "X1" 30)
      ⟨"s2", "m2", "S2", 0⟩ (by decide) (by decide) (by decide)
      (by intro e he; cases he; decide) (by decide) (by decide)⟩

/-! ## `removePoints` against `consumePointsFIFO` -/

theorem takes_enough (db : Db) (m c : String) (n t : Int) (hn : 0 ≤ n)
    (hle : n ≤ eligibleSum db m c t) :
    usedSum (takes (selectLots db m c t) n) = n := by
  rw [takes_sum _ (selectLots_pos db m c t) n hn, rowsSum_selectLots]
  exact min_eq_left hle

/-- With enough eligible points `removePoints` only applies the FIFO takes. -/
theorem removePoints_enough (db : Db) (m c lot_id : String) (n t : Int) (hn : 0 ≤ n)
    (hle : n ≤ eligibleSum db m c t) :
    removePoints m c n lot_id t db =
      ({ db with point_lots := lotsAfter db.point_lots (takes (selectLots db m c t) n) },
        Except.ok ()) := by
  have hsum := takes_enough db m c n t hn hle
  rcases removePoints_cases m c n lot_id t db with ⟨h1, _, _⟩ | ⟨_, h2⟩
  · omega
  · rw [h2, if_neg (by omega), List.append_nil]

theorem consume_ok_full (db : Db) (m c rid : String) (n t : Int) (used : List Used)
    (hok : (consumePointsFIFO m c n rid t db).2 = Except.ok used) :
    consumePointsFIFO m c n rid t db =
      ({ db with
          point_lots := lotsAfter db.point_lots (takes (selectLots db m c t) n),
          redemption_consumptions := db.redemption_consumptions ++
            (if rid = "" then [] else consumptionRows rid (takes (selectLots db m c t) n)) },
        Except.ok (takes (selectLots db m c t) n)) := by
  rcases consumePointsFIFO_cases m c n rid t db with ⟨_, h⟩ | ⟨_, h⟩ | ⟨_, h⟩
  · rw [h] at hok
    cases hok
  · rw [h] at hok
    cases hok
  · exact h

/-- C24. `removePoints` uses the FIFO selection of `consumePointsFIFO`.  For
`0 <= n <= ` the sum of the eligible positive lots of `(m, c)` at `t`:
`removePoints(m, c, n)` returns, changes only the lots, and the lots it leaves
are the table after the FIFO takes, the same rows in the same order, so no
debt lot is created; every successful `consumePointsFIFO(m, c, n)` on the same
database takes the same amounts from the same lots and leaves the same lot
table, and differs from `removePoints` only by the consumption records it
appends; and with a fresh redemption id and pairwise distinct lot ids
`consumePointsFIFO` does succeed. -/
theorem remove_matches_consume (db : Db) (m c lot_id rid : String) (n t : Int) (hn : 0 ≤ n)
    (hle : n ≤ eligibleSum db m c t) :
    removePoints m c n lot_id t db =
        ({ db with point_lots := lotsAfter db.point_lots (takes (selectLots db m c t) n) },
          Except.ok ()) ∧
      (removePoints m c n lot_id t db).1.point_lots.map Lot.lot_id =
        db.point_lots.map Lot.lot_id ∧
      (∀ used, (consumePointsFIFO m c n rid t db).2 = Except.ok used →
        used = takes (selectLots db m c t) n ∧
        (consumePointsFIFO m c n rid t db).1.point_lots =
          (removePoints m c n lot_id t db).1.point_lots ∧
        (consumePointsFIFO m c n rid t db).1 =
          { (removePoints m c n lot_id t db).1 with
              redemption_consumptions := db.redemption_consumptions ++
                (if rid = "" then [] else consumptionRows rid used) }) ∧
      ((db.point_lots.map Lot.lot_id).Nodup → rid ≠ "" →
        (∀ x ∈ db.redemption_consumptions, x.redemption_id ≠ rid) →
        (consumePointsFIFO m c n rid t db).2 = Except.ok (takes (selectLots db m c t) n)) := by
  have hrem := removePoints_enough db m c lot_id n t hn hle
  refine ⟨hrem, ?_, ?_, ?_⟩
  · rw [hrem]
    exact lotsAfter_ids _ _
  · intro used hok
    have hfull := consume_ok_full db m c rid n t used hok
    have hused : used = takes (selectLots db m c t) n := by
      rw [hfull] at hok
      simp only [Except.ok.injEq] at hok
      exact hok.symm
    rw [hfull, hrem, hused]
    exact ⟨rfl, rfl, rfl⟩
  · intro hpk hrid hnew
    rw [consumePointsFIFO_ok db m c rid n t hpk hrid hnew hle]

/-- C24 on the example lot store (lots of 3, 5 and 2, the last expiring
first): removing 4 takes 2 from `c` and 2 from `a`, exactly as consuming 4. -/
theorem remove_matches_consume_witness :
    (removePoints "m" "c" 4 "d" 10 exLots).1.point_lots =
      [⟨"a", "m", "c", 1, 0, some 100, none, none⟩, ⟨"b", "m", "c", 5, 1, none, none, none⟩,
        ⟨"c", "m", "c", 0, 2, some 50, none, none⟩] ∧
    (consumePointsFIFO "m" "c" 4 "x" 10 exLots).1.point_lots =
      (removePoints "m" "c" 4 "d" 10 exLots).1.point_lots :=
  have h := remove_matches_consume exLots "m" "c" "d" "x" 4 10 (by decide) (by decide)
  ⟨(congrArg (fun r => r.1.point_lots) h.1).trans (by decide),
    (h.2.2.1 [⟨"c", 2⟩, ⟨"a", 2⟩] (by decide)).2.1⟩

/-! ## Program settings -/

/-- The bound value `Math.max(lo, parseInt(x || prev, 10))` for an integer
body field `v`: the clamped `v`, except that `0` falls through to `prev`. -/
theorem clamp_num (lo v : Int) (prev : Field) :
    mathMax lo ((Field.num v).orElse prev).parseInt =
      if v = 0 then mathMax lo prev.parseInt else some (max lo v) := by
  by_cases h : v = 0
  · simp [Field.orElse, Field.truthy, h]
  · simp [Field.orElse, Field.truthy, h, Field.parseInt, mathMax]

/-- An omitted body field falls through to `prev`. -/
theorem clamp_undefined (lo : Int) (prev : Field) :
    mathMax lo (Field.undefined.orElse prev).parseInt = mathMax lo prev.parseInt := by
  simp [Field.orElse, Field.truthy]

theorem expireDays_num (v : Int) : expireDaysValue (Field.num v) = some (max 1 v) := by
  simp [expireDaysValue, Field.parseInt, mathMax]

/-- After an update every program row is an old row or satisfies the minimums. -/
theorem postProgram_bounds (store_id : String) (b : ProgramBody) (db : Db) :
    ∀ p ∈ (postProgram store_id b db).1.loyalty_programs,
      p ∈ db.loyalty_programs ∨
        (1 ≤ p.points_per_earn ∧ 5 ≤ p.token_expiry_minutes ∧
          (∀ d, p.points_expire_days = some d → 1 ≤ d) ∧
          (∀ k, p.max_earns_per_day = some k → 0 ≤ k) ∧
          (∀ k, p.max_earns_per_10min = some k → 0 ≤ k)) := by
  have hmax : ∀ (lo : Int) (x : Option Int) (k : Int), mathMax lo x = some k → lo ≤ k := by
    intro lo x k h
    cases x with
    | none => simp [mathMax] at h
    | some v =>
      simp only [mathMax, Option.some.injEq] at h
      omega
  unfold postProgram
  split
  · exact fun p hp => Or.inl hp
  · split
    · exact fun p hp => Or.inl hp
    · rename_i _ store _ _ program _
      simp only
      split
      · rename_i _ _ pv ev hp he
        intro p hmem
        simp only [List.mem_map] at hmem
        obtain ⟨x, hx, e⟩ := hmem
        by_cases hid : x.program_id = program.program_id
        · rw [if_pos hid] at e
          right
          rw [← e]
          refine ⟨hmax 1 _ pv hp, hmax 5 _ ev he, fun d hd => ?_, fun k hk => hmax 0 _ k hk,
            fun k hk => hmax 0 _ k hk⟩
          simp only [expireDaysValue] at hd
          split_ifs at hd
          exact hmax 1 _ d hd
        · rw [if_neg hid] at e
          left
          rw [← e]
          exact hx
      · exact fun p hp => Or.inl hp

/-- C25. An integer `0` in the body of a program update is not stored.  In
the capped shop (caps 1 per day and 5 per 10 minutes) the body
`{max_earns_per_day: 0, max_earns_per_10min: 0}` answers ok and leaves both
caps as they were, 1 and 5, while the same request with the texts `"0"`, as
the vendor page sends them, stores 0 and 0.  With `points_per_earn` 5 stored,
the body `{points_per_earn: 0}` leaves it at 5 instead of storing
`max(1, 0) = 1`. -/
theorem program_zero_not_stored :
    postProgram "s" ⟨Field.undefined, Field.undefined, Field.undefined, Field.num 0,
        Field.num 0⟩ exCapShop =
      ({ exCapShop with loyalty_programs := [⟨"p", "m", 1, 120, none, some 1, some 5, 0, 1⟩] },
        Except.ok ()) ∧
    postProgram "s" ⟨Field.undefined, Field.undefined, Field.undefined, Field.str "0",
        Field.str "0"⟩ exCapShop =
      ({ exCapShop with loyalty_programs := [⟨"p", "m", 1, 120, none, some 0, some 0, 0, 1⟩] },
        Except.ok ()) ∧
    exRepriced.loyalty_programs = [⟨"p", "m", 5, 120, some 180, some 0, some 0, 0, 1⟩] ∧
    (postProgram "s" ⟨Field.num 0, Field.undefined, Field.num 180, Field.undefined,
        Field.undefined⟩ exRepriced).1.loyalty_programs =
      [⟨"p", "m", 5, 120, some 180, some 0, some 0, 0, 1⟩] := by
  decide

/-! ## Ledger and lots agree -/

/-- A row after one FIFO pass for `(m, c)` at `t` is the same row unless it was
an eligible row of `(m, c)`. -/
theorem lotsAfter_row (db : Db) (m c : String) (n t : Int)
    (hpk : (db.point_lots.map Lot.lot_id).Nodup) (l : Lot) (hl : l ∈ db.point_lots) :
    l.minus (usedFor (takes (selectLots db m c t) n) l.lot_id) = l ∨
      (l.merchant_id = m ∧ l.customer_id = c ∧ notExpired t l = true ∧
        0 < l.points_remaining) := by
  cases hel : eligible m c t l with
  | false =>
    left
    rw [(usedFor_bounds db m c n t hpk l hl).2.2 hel, Lot.minus_zero]
  | true =>
    right
    simp only [eligible, Bool.and_eq_true, decide_eq_true_eq] at hel
    exact ⟨hel.1.1.1, hel.1.1.2, hel.2, hel.1.2⟩

theorem ownedSum_eq_map (m c : String) (tbl : List Lot) :
    ownedSum m c tbl = (tbl.map fun l => if owned m c l then l.points_remaining else 0).sum := by
  unfold ownedSum
  induction tbl with
  | nil => rfl
  | cons x xs ih =>
    cases h : owned m c x <;> simp [List.filter_cons, h, ih]

theorem ownedSum_append (m c : String) (a b : List Lot) :
    ownedSum m c (a ++ b) = ownedSum m c a + ownedSum m c b := by
  simp [ownedSum, List.filter_append, List.map_append, List.sum_append]

theorem ownedSum_single (m c : String) (l : Lot) :
    ownedSum m c [l] = if l.merchant_id = m ∧ l.customer_id = c then l.points_remaining else 0 := by
  by_cases h1 : l.merchant_id = m <;> by_cases h2 : l.customer_id = c <;>
    simp [ownedSum, owned, List.filter_cons, h1, h2]

theorem ledgerSum_append (db d : Db) (e : LedgerEntry)
    (hg : d.point_ledger = db.point_ledger ++ [e]) (m c : String) :
    ledgerSum d m c =
      ledgerSum db m c + if e.merchant_id = m ∧ e.customer_id = c then e.points_delta else 0 := by
  by_cases h1 : e.merchant_id = m <;> by_cases h2 : e.customer_id = c <;>
    simp [ledgerSum, hg, List.filter_append, List.filter_cons, h1, h2]

theorem ledgerSum_congr (db d : Db) (hg : d.point_ledger = db.point_ledger) (m c : String) :
    ledgerSum d m c = ledgerSum db m c := by
  simp only [ledgerSum, hg]

/-- One FIFO pass for `(m, c)` lowers the total of `(m, c)` by what it takes
and leaves the total of every other account as it was. -/
theorem ownedSum_lotsAfter (db : Db) (m c : String) (n t : Int)
    (hpk : (db.point_lots.map Lot.lot_id).Nodup) (m2 c2 : String) :
    ownedSum m2 c2 (lotsAfter db.point_lots (takes (selectLots db m c t) n)) =
      ownedSum m2 c2 db.point_lots -
        if m = m2 ∧ c = c2 then usedSum (takes (selectLots db m c t) n) else 0 := by
  by_cases hacc : m = m2 ∧ c = c2
  · obtain ⟨rfl, rfl⟩ := hacc
    simp only [and_self, if_true]
    have hw := weight_sum_applyTakes m c t (takes (selectLots db m c t) n) db.point_lots hpk
      (takes_selectLots_inAccount db m c t n)
    rw [applyTakes_eq_map] at hw
    have hsplit : ∀ tbl : List Lot, ownedSum m c tbl =
        (tbl.map (weight m c t)).sum +
          (tbl.map fun l => if owned m c l && !notExpired t l then l.points_remaining
            else 0).sum := by
      intro tbl
      rw [ownedSum_eq_map, ← List.sum_map_add]
      congr 1
      apply List.map_congr_left
      intro l _
      by_cases h1 : l.merchant_id = m <;> by_cases h2 : l.customer_id = c <;>
        cases h3 : notExpired t l <;> simp [weight, inAccount, owned, h1, h2, h3]
    have hlate : ((lotsAfter db.point_lots (takes (selectLots db m c t) n)).map
        fun l => if owned m c l && !notExpired t l then l.points_remaining else 0).sum =
        (db.point_lots.map
          fun l => if owned m c l && !notExpired t l then l.points_remaining else 0).sum := by
      unfold lotsAfter
      rw [List.map_map]
      congr 1
      apply List.map_congr_left
      intro l hl
      rcases lotsAfter_row db m c n t hpk l hl with e | ⟨_, _, hne, _⟩
      · simp only [Function.comp_apply, e]
      · have : notExpired t (l.minus (usedFor (takes (selectLots db m c t) n) l.lot_id)) =
            true := hne
        simp [this, hne]
    rw [hsplit, hsplit db.point_lots, hlate]
    unfold lotsAfter
    rw [hw]
    ring
  · rw [if_neg hacc, sub_zero, ownedSum_eq_map, ownedSum_eq_map]
    unfold lotsAfter
    rw [List.map_map]
    congr 1
    apply List.map_congr_left
    intro l hl
    rcases lotsAfter_row db m c n t hpk l hl with e | ⟨h1, h2, _, _⟩
    · simp only [Function.comp_apply, e]
    · have hno : owned m2 c2 l = false := by
        simp only [owned, h1, h2, Bool.and_eq_false_imp, decide_eq_true_eq,
          decide_eq_false_iff_not]
        exact fun e1 e2 => hacc ⟨e1, e2⟩
      have hno2 : owned m2 c2 (l.minus (usedFor (takes (selectLots db m c t) n) l.lot_id)) =
          false := hno
      simp [hno, hno2]

theorem postReward_bounds (store_id name : String) (points_cost : Field) (reward_id : String)
    (t : Int) (db : Db) :
    ∀ r ∈ (postReward store_id name points_cost reward_id t db).1.rewards,
      r ∈ db.rewards ∨ 1 ≤ r.points_cost := by
  unfold postReward
  split
  · exact fun r hr => Or.inl hr
  · split
    · exact fun r hr => Or.inl hr
    · split
      · exact fun r hr => Or.inl hr
      · split
        · exact fun r hr => Or.inl hr
        · rename_i cost hcost
          split
          · exact fun r hr => Or.inl hr
          · intro r hr
            simp only [List.mem_append, List.mem_singleton] at hr
            rcases hr with hr | hr
            · exact Or.inl hr
            · right
              rw [hr]
              cases hp : points_cost.parseInt with
              | none => simp [hp, mathMax] at hcost
              | some v =>
                simp only [hp, mathMax, Option.some.injEq] at hcost
                show 1 ≤ cost
                omega

/-- A database whose lots and ledger are those of `db`. -/
theorem agree_same (db d : Db) (hl : d.point_lots = db.point_lots)
    (hg : d.point_ledger = db.point_ledger)
    (hag : ∀ m c, ledgerSum db m c = lotTotal db m c) :
    ∀ m c, ledgerSum d m c = lotTotal d m c := by
  intro m c
  rw [ledgerSum_congr db d hg, hag]
  simp only [lotTotal, hl]

/-- One request keeps the ledger and the lots in agreement. -/
theorem agree_step (db : Db) (op : Op) (hpk : (db.point_lots.map Lot.lot_id).Nodup)
    (hpol : MinPolicies db) (hag : ∀ m c, ledgerSum db m c = lotTotal db m c) :
    MinPolicies (step db op) ∧ ∀ m c, ledgerSum (step db op) m c = lotTotal (step db op) m c := by
  cases op with
  | program s b =>
    have hf := postProgram_frame s b db
    refine ⟨⟨fun p hp => ?_, fun r hr => ?_⟩, agree_same db _ ?_ ?_ hag⟩
    · rcases postProgram_bounds s b db p hp with h | h
      · exact hpol.1 p h
      · exact h.1
    · have e : (postProgram s b db).1.rewards = db.rewards := by rw [hf]
      exact hpol.2 r (e ▸ hr)
    · simp only [step]; rw [hf]
    · simp only [step]; rw [hf]
  | reward s n c r t =>
    have hf := postReward_frame s n c r t db
    refine ⟨⟨fun p hp => ?_, fun x hx => ?_⟩, agree_same db _ ?_ ?_ hag⟩
    · have e : (postReward s n c r t db).1.loyalty_programs = db.loyalty_programs := by rw [hf]
      exact hpol.1 p (e ▸ hp)
    · rcases postReward_bounds s n c r t db x hx with h | h
      · exact hpol.2 x h
      · exact h
    · simp only [step]; rw [hf]
    · simp only [step]; rw [hf]
  | issue s st tr tok rc t =>
    have hf := postToken_frame s st tr tok rc t db
    have e1 : (postToken s st tr tok rc t db).1.loyalty_programs = db.loyalty_programs := by
      rw [hf]
    have e2 : (postToken s st tr tok rc t db).1.rewards = db.rewards := by rw [hf]
    refine ⟨⟨fun p hp => hpol.1 p (e1 ▸ hp), fun x hx => hpol.2 x (e2 ▸ hx)⟩,
      agree_same db _ ?_ ?_ hag⟩
    · simp only [step]; rw [hf]
    · simp only [step]; rw [hf]
  | start c m r rt x t =>
    have hf := postRedeemStart_frame c m r rt x t db
    have e1 : (postRedeemStart c m r rt x t db).1.loyalty_programs = db.loyalty_programs := by
      rw [hf]
    have e2 : (postRedeemStart c m r rt x t db).1.rewards = db.rewards := by rw [hf]
    refine ⟨⟨fun p hp => hpol.1 p (e1 ▸ hp), fun y hy => hpol.2 y (e2 ▸ hy)⟩,
      agree_same db _ ?_ ?_ hag⟩
    · simp only [step]; rw [hf]
    · simp only [step]; rw [hf]
  | claim c tok rc l g t =>
    rcases postClaim_cases c tok rc l g t db with
      ⟨e, _, hframe⟩ | ⟨tk, p, _, _, _, _, _, _, _, _, heq⟩
    · have e1 : (postClaim c tok rc l g t db).1.loyalty_programs = db.loyalty_programs := by
        rw [hframe]
      have e2 : (postClaim c tok rc l g t db).1.rewards = db.rewards := by rw [hframe]
      refine ⟨⟨fun p hp => hpol.1 p (e1 ▸ hp), fun y hy => hpol.2 y (e2 ▸ hy)⟩,
        agree_same db _ ?_ ?_ hag⟩
      · simp only [step]; rw [hframe]
      · simp only [step]; rw [hframe]
    · have hfr := afterRateChecks_frame db tk c p t
      have e1 : (afterRateChecks db tk c p t).loyalty_programs = db.loyalty_programs := by
        rw [hfr]
      have e2 : (afterRateChecks db tk c p t).rewards = db.rewards := by rw [hfr]
      simp only [step, heq]
      refine ⟨⟨fun q hq => hpol.1 q ?_, fun y hy => hpol.2 y ?_⟩, fun m2 c2 => ?_⟩
      · simpa only [afterClaim, e1] using hq
      · simpa only [afterClaim, e2] using hy
      · rw [ledgerSum_append db _ (earnEntry tk c p g t)
          (by simp only [afterClaim, afterRateChecks_ledger]), hag]
        simp only [lotTotal, afterClaim, afterRateChecks_lots, ownedSum_append, ownedSum_single]
        rfl
  | complete s st rt g t =>
    rcases postRedeemComplete_cases s st rt g t db with
      ⟨e, he⟩ | ⟨red, reward, store, _, _, _, _, _, _, hrew, hrem, _, heq⟩
    · simp only [step, he]
      exact ⟨hpol, hag⟩
    · simp only [step, heq]
      refine ⟨⟨fun q hq => hpol.1 q hq, fun y hy => hpol.2 y hy⟩, fun m2 c2 => ?_⟩
      have hcost : 1 ≤ reward.points_cost := hpol.2 reward (List.mem_of_find?_eq_some hrew)
      have hsum := redeemTakes_sum db red reward t (by omega) hrem
      rw [ledgerSum_append db _ (redeemEntry red reward st g t) rfl, hag]
      have hl := ownedSum_lotsAfter db red.merchant_id red.customer_id reward.points_cost t hpk
        m2 c2
      unfold redeemTakes at hsum
      simp only [lotTotal, afterComplete, redeemTakes, hl, hsum, redeemEntry]
      split_ifs <;> ring
  | void s st tok l g t =>
    rcases postTokenVoid_cases s st tok l g t db with
      hsame | ⟨tk, p, _, _, _, _, _, heq⟩ | ⟨tk, p, c, _, _, _, hprog, _, _, _, heq⟩
    · simp only [step, hsame]
      exact ⟨hpol, hag⟩
    · simp only [step, heq]
      exact ⟨⟨fun q hq => hpol.1 q hq, fun y hy => hpol.2 y hy⟩,
        agree_same db _ rfl rfl hag⟩
    · simp only [step, heq]
      refine ⟨⟨fun q hq => hpol.1 q hq, fun y hy => hpol.2 y hy⟩, fun m2 c2 => ?_⟩
      have hppe : 1 ≤ p.points_per_earn := hpol.1 p (List.mem_of_find?_eq_some hprog)
      have hpts : 1 ≤ earnPoints p := by
        unfold earnPoints
        split_ifs <;> omega
      have hs := takes_sum (selectLots db tk.merchant_id c t)
        (selectLots_pos db tk.merchant_id c t) (earnPoints p) (by omega)
      have hl := ownedSum_lotsAfter db tk.merchant_id c (earnPoints p) t hpk m2 c2
      rw [ledgerSum_append db _ (voidEntry tk c (earnPoints p) st g t) rfl, hag]
      simp only [lotTotal, afterVoid, voidTakes, ownedSum_append, hl, voidEntry, voidDebt]
      by_cases hdebt : 0 < earnPoints p -
          usedSum (takes (selectLots db tk.merchant_id c t) (earnPoints p))
      · rw [if_pos hdebt, ownedSum_single]
        simp only
        split_ifs <;> ring
      · rw [if_neg hdebt]
        have hz : ownedSum m2 c2 [] = 0 := rfl
        rw [hz]
        have hfull : usedSum (takes (selectLots db tk.merchant_id c t) (earnPoints p)) =
            earnPoints p := by omega
        rw [hfull]
        split_ifs <;> ring

theorem agree_run (ops : List Op) (db : Db) (hpk : (db.point_lots.map Lot.lot_id).Nodup)
    (hpol : MinPolicies db) (hag : ∀ m c, ledgerSum db m c = lotTotal db m c) :
    MinPolicies (run db ops) ∧ ∀ m c, ledgerSum (run db ops) m c = lotTotal (run db ops) m c := by
  induction ops generalizing db with
  | nil => exact ⟨hpol, hag⟩
  | cons op ops ih =>
    obtain ⟨h1, h2⟩ := agree_step db op hpk hpol hag
    exact ih (step db op) (effect_lots db (step db op) hpk (step_effect db op)).1 h1 h2

/-- C26. Ledger and lots agree.  Start from a database whose ledger tables are
empty, whose programs give at least 1 point per earn and whose rewards cost at
least 1 point.  After any sequence of requests (claims, completions and voids,
and also issuances, starts and settings updates, which keep these minimums),
for every merchant `m` and customer `c` the sum of `points_delta` over the
ledger entries of `(m, c)` equals the sum of `points_remaining` over all lots
of `(m, c)`, expired ones included. -/
theorem ledger_matches_lots (db0 : Db) (ops : List Op) (hinit : Initial db0)
    (hpol : MinPolicies db0) (m c : String) :
    ledgerSum (run db0 ops) m c = lotTotal (run db0 ops) m c := by
  obtain ⟨_, hl, hg, _⟩ := hinit
  refine (agree_run ops db0 (by simp [hl]) hpol ?_).2 m c
  intro m2 c2
  simp [ledgerSum, lotTotal, ownedSum, hl, hg]

/-- C26 on the example shop after `c` earned 1 point from `T1`, the program
was set to 5 points per earn, `T1` was voided (5 points removed) and `c`
earned 5 points from `T2`: the ledger entries of `(m, c)` sum to 1 and so do
its lots, which hold 0, -4 and 5. -/
theorem ledger_matches_lots_witness :
    ledgerSum (run exShop (exRepricedOps ++ [Op.void "s" "st" "T1" "L2" "G3" 50,
        Op.issue "s" "st" none "T2" "EFGH" 60, Op.claim "c" "T2" none "L3" "G4" 70])) "m" "c" =
      lotTotal (run exShop (exRepricedOps ++ [Op.void "s" "st" "T1" "L2" "G3" 50,
        Op.issue "s" "st" none "T2" "EFGH" 60, Op.claim "c" "T2" none "L3" "G4" 70])) "m" "c" ∧
    ledgerSum (run exShop (exRepricedOps ++ [Op.void "s" "st" "T1" "L2" "G3" 50,
        Op.issue "s" "st" none "T2" "EFGH" 60, Op.claim "c" "T2" none "L3" "G4" 70])) "m" "c" =
      1 ∧
    (run exShop (exRepricedOps ++ [Op.void "s" "st" "T1" "L2" "G3" 50,
        Op.issue "s" "st" none "T2" "EFGH" 60,
        Op.claim "c" "T2" none "L3" "G4" 70])).point_lots.map Lot.points_remaining =
      [0, -4, 5] :=
  ⟨ledger_matches_lots exShop _ exShop_initial (by decide) "m" "c", by decide, by decide⟩

/-! ## Account isolation -/

/-- A table made of one FIFO pass for `(m, c)` at `t` and added rows of
`(m, c)` is isolated. -/
theorem isolated_of_shape (db d : Db) (m c : String) (n t : Int)
    (hpk : (db.point_lots.map Lot.lot_id).Nodup) (extra : List Lot)
    (hd : d.point_lots = lotsAfter db.point_lots (takes (selectLots db m c t) n) ++ extra)
    (hextra : ∀ l ∈ extra, l.merchant_id = m ∧ l.customer_id = c) :
    Isolated m c t db d := by
  refine ⟨fun l hl hf => ?_, fun l2 hl2 => ?_, fun m2 c2 t2 hne => ?_⟩
  · rw [hd]
    apply List.mem_append_left
    rcases lotsAfter_row db m c n t hpk l hl with e | ⟨h1, h2, h3, _⟩
    · have := (lotsAfter_lotStep db m c n t hpk l hl).1
      rw [e] at this
      exact this
    · rcases hf with h | h | h
      · exact absurd h1 h
      · exact absurd h2 h
      · rw [h3] at h
        cases h
  · rw [hd] at hl2
    rcases List.mem_append.1 hl2 with h | h
    · obtain ⟨l, hl, e⟩ := List.mem_map.1 h
      rcases lotsAfter_row db m c n t hpk l hl with e2 | ⟨h1, h2, _, _⟩
      · left
        rw [← e, e2]
        exact hl
      · right
        rw [← e]
        exact ⟨h1, h2⟩
    · exact Or.inr (hextra l2 h)
  · rw [getBalance_eq_weight, getBalance_eq_weight, hd, List.map_append, List.sum_append]
    have hzero : (extra.map (weight m2 c2 t2)).sum = 0 := by
      apply List.sum_eq_zero
      intro x hx
      obtain ⟨l, hl, e⟩ := List.mem_map.1 hx
      obtain ⟨h1, h2⟩ := hextra l hl
      rw [← e]
      have : inAccount m2 c2 t2 l = false := by
        simp only [inAccount, h1, h2, Bool.and_eq_false_imp, Bool.and_eq_true,
          decide_eq_true_eq]
        exact fun h => absurd ⟨h.1.symm, h.2.symm⟩ hne
      simp [weight, this]
    rw [hzero, add_zero]
    unfold lotsAfter
    rw [List.map_map]
    congr 1
    apply List.map_congr_left
    intro l hl
    rcases lotsAfter_row db m c n t hpk l hl with e | ⟨h1, h2, _, _⟩
    · simp only [Function.comp_apply, e]
    · have hno : inAccount m2 c2 t2 l = false := by
        simp only [inAccount, h1, h2, Bool.and_eq_false_imp, Bool.and_eq_true,
          decide_eq_true_eq]
        exact fun h => absurd ⟨h.1.symm, h.2.symm⟩ hne
      have hno2 : inAccount m2 c2 t2
          (l.minus (usedFor (takes (selectLots db m c t) n) l.lot_id)) = false := by
        simpa [inAccount, Lot.minus, notExpired] using hno
      simp [weight, hno, hno2]

/-- A table that only gained rows of `(m, c)` is isolated. -/
theorem isolated_of_append (db d : Db) (m c : String) (t : Int)
    (hpk : (db.point_lots.map Lot.lot_id).Nodup) (extra : List Lot)
    (hd : d.point_lots = db.point_lots ++ extra)
    (hextra : ∀ l ∈ extra, l.merchant_id = m ∧ l.customer_id = c) :
    Isolated m c t db d := by
  apply isolated_of_shape db d m c 0 t hpk extra _ hextra
  rw [takes_nonpos _ 0 (le_refl 0), lotsAfter_nil]
  exact hd

theorem consumePointsFIFO_lots (m c : String) (n : Int) (rid : String) (t : Int) (db : Db) :
    (consumePointsFIFO m c n rid t db).1.point_lots =
      lotsAfter db.point_lots (takes (selectLots db m c t) n) := by
  simp only [consumePointsFIFO, consumeLoop_eq]
  split_ifs
  · simp [lotsAfter, applyTakes_eq_map]
  · split <;> rename_i heq <;>
      · have := insertConsumptions_lots rid ([] ++ takes (selectLots db m c t) n)
          { db with point_lots := applyTakes db.point_lots (takes (selectLots db m c t) n) }
        rw [heq] at this
        simp only at this
        rw [this]
        simp [lotsAfter, applyTakes_eq_map]
  · simp [lotsAfter, applyTakes_eq_map]

theorem consume_isolated (db : Db) (m c rid : String) (n t : Int)
    (hpk : (db.point_lots.map Lot.lot_id).Nodup) :
    Isolated m c t db (consumePointsFIFO m c n rid t db).1 :=
  isolated_of_shape db _ m c n t hpk []
    (by rw [consumePointsFIFO_lots, List.append_nil]) (fun _ h => by cases h)

theorem remove_isolated (db : Db) (m c lot_id : String) (n t : Int)
    (hpk : (db.point_lots.map Lot.lot_id).Nodup) :
    Isolated m c t db (removePoints m c n lot_id t db).1 := by
  obtain ⟨extra, h1, h2⟩ := removePoints_lots db m c lot_id n t
  exact isolated_of_shape db _ m c n t hpk extra h1 h2

theorem addEarnLot_isolated (db : Db) (m c : String) (points : Int) (expires_at : Option Int)
    (source_token_id note : Option String) (lot_id : String) (t : Int)
    (hpk : (db.point_lots.map Lot.lot_id).Nodup) :
    Isolated m c t db (addEarnLot m c points expires_at source_token_id note lot_id t db).1 := by
  by_cases hid : lot_id ∈ db.point_lots.map Lot.lot_id
  · exact isolated_of_append db _ m c t hpk []
      (by simp [addEarnLot, insertLot, hid]) (fun _ h => by cases h)
  · refine isolated_of_append db _ m c t hpk
      [⟨lot_id, m, c, points, t, expires_at, source_token_id, note⟩]
      (by simp [addEarnLot, insertLot, hid]) (fun l h => ?_)
    rw [List.mem_singleton.1 h]
    exact ⟨rfl, rfl⟩

theorem claim_isolated (db : Db) (c T : String) (rc : Option String) (l g : String) (t : Int)
    (tk : EarnToken) (hpk : (db.point_lots.map Lot.lot_id).Nodup)
    (htok : getToken db T = some tk) :
    Isolated tk.merchant_id c t db (postClaim c T rc l g t db).1 := by
  rcases postClaim_cases c T rc l g t db with
    ⟨e, _, hframe⟩ | ⟨tk2, p, _, htk2, _, _, _, _, _, _, heq⟩
  · exact isolated_of_append db _ tk.merchant_id c t hpk []
      (by rw [hframe, List.append_nil]) (fun _ h => by cases h)
  · rw [htok] at htk2
    cases htk2
    rw [heq]
    refine isolated_of_append db _ tk.merchant_id c t hpk [earnLot tk c p l t]
      (by simp only [afterClaim, afterRateChecks_lots]) (fun x h => ?_)
    rw [List.mem_singleton.1 h]
    exact ⟨rfl, rfl⟩

theorem complete_isolated (db : Db) (s st rt g : String) (t : Int) (red : Redemption)
    (hpk : (db.point_lots.map Lot.lot_id).Nodup) (hred : getRedemption db rt = some red) :
    Isolated red.merchant_id red.customer_id t db (postRedeemComplete s st rt g t db).1 := by
  rcases postRedeemComplete_cases s st rt g t db with
    ⟨e, he⟩ | ⟨red2, reward, store, _, hred2, _, _, _, _, _, _, _, heq⟩
  · rw [he]
    exact isolated_of_append db db red.merchant_id red.customer_id t hpk []
      (by rw [List.append_nil]) (fun _ h => by cases h)
  · rw [hred] at hred2
    cases hred2
    rw [heq]
    exact isolated_of_shape db _ red.merchant_id red.customer_id reward.points_cost t hpk []
      (by simp only [afterComplete, redeemTakes, List.append_nil]) (fun _ h => by cases h)

theorem void_isolated (db : Db) (s st T l g : String) (t : Int) (tk : EarnToken)
    (hpk : (db.point_lots.map Lot.lot_id).Nodup) (htok : getToken db T = some tk) :
    (∀ c, voidDebtor tk = some c →
      Isolated tk.merchant_id c t db (postTokenVoid s st T l g t db).1) ∧
    (voidDebtor tk = none → (postTokenVoid s st T l g t db).1.point_lots = db.point_lots) := by
  rcases postTokenVoid_cases s st T l g t db with
    hsame | ⟨tk2, p, htk2, _, _, _, hd, heq⟩ | ⟨tk2, p, c2, htk2, _, _, _, hd, _, _, heq⟩
  · rw [hsame]
    exact ⟨fun c _ => isolated_of_append db db tk.merchant_id c t hpk []
      (by rw [List.append_nil]) (fun _ h => by cases h), fun _ => rfl⟩
  · rw [htok] at htk2
    cases htk2
    rw [heq]
    exact ⟨fun c hc => (by rw [hd] at hc; cases hc), fun _ => rfl⟩
  · rw [htok] at htk2
    cases htk2
    rw [heq]
    constructor
    · intro c hc
      rw [hd] at hc
      cases hc
      refine isolated_of_shape db _ tk.merchant_id c2 (earnPoints p) t hpk
        (voidDebt db tk c2 (earnPoints p) l t) (by simp only [afterVoid, voidTakes]) ?_
      intro x hx
      unfold voidDebt at hx
      split_ifs at hx
      · rw [List.mem_singleton.1 hx]
        exact ⟨rfl, rfl⟩
      · cases hx
    · intro hnone
      rw [hd] at hnone
      cases hnone

/-- C27. Account isolation, for every database with pairwise distinct lot ids.
`consumePointsFIFO`, `removePoints` and `addEarnLot` for `(m, c)` at `t`,
whatever their outcome, leave every lot of another merchant or customer and
every lot expired at `t` as it is, create or alter no lot outside `(m, c)`,
and leave `getBalance(m2, c2)` of every other account as it was, at every
clock value.  Therefore the same holds for a claim of token `T` by `c` (the
account is the token's merchant and `c`), for a completion (the account of
the redemption), and for a void of a token claimed by `c` (the token's
merchant and `c`); a void of a token that nobody claimed changes no lot. -/
theorem account_isolation :
    (∀ (db : Db) (m c rid : String) (n t : Int), (db.point_lots.map Lot.lot_id).Nodup →
      Isolated m c t db (consumePointsFIFO m c n rid t db).1) ∧
    (∀ (db : Db) (m c lot_id : String) (n t : Int), (db.point_lots.map Lot.lot_id).Nodup →
      Isolated m c t db (removePoints m c n lot_id t db).1) ∧
    (∀ (db : Db) (m c : String) (points : Int) (expires_at : Option Int)
      (source_token_id note : Option String) (lot_id : String) (t : Int),
      (db.point_lots.map Lot.lot_id).Nodup →
      Isolated m c t db
        (addEarnLot m c points expires_at source_token_id note lot_id t db).1) ∧
    (∀ (db : Db) (c T : String) (rc : Option String) (l g : String) (t : Int)
      (tk : EarnToken), (db.point_lots.map Lot.lot_id).Nodup → getToken db T = some tk →
      Isolated tk.merchant_id c t db (postClaim c T rc l g t db).1) ∧
    (∀ (db : Db) (s st rt g : String) (t : Int) (red : Redemption),
      (db.point_lots.map Lot.lot_id).Nodup → getRedemption db rt = some red →
      Isolated red.merchant_id red.customer_id t db (postRedeemComplete s st rt g t db).1) ∧
    (∀ (db : Db) (s st T l g : String) (t : Int) (tk : EarnToken),
      (db.point_lots.map Lot.lot_id).Nodup → getToken db T = some tk →
      (∀ c, voidDebtor tk = some c →
        Isolated tk.merchant_id c t db (postTokenVoid s st T l g t db).1) ∧
      (voidDebtor tk = none → (postTokenVoid s st T l g t db).1.point_lots = db.point_lots)) :=
  ⟨fun db m c rid n t hpk => consume_isolated db m c rid n t hpk,
    fun db m c lot_id n t hpk => remove_isolated db m c lot_id n t hpk,
    fun db m c points e s nt lot_id t hpk => addEarnLot_isolated db m c points e s nt lot_id t hpk,
    fun db c T rc l g t tk hpk htok => claim_isolated db c T rc l g t tk hpk htok,
    fun db s st rt g t red hpk hred => complete_isolated db s st rt g t red hpk hred,
    fun db s st T l g t tk hpk htok => void_isolated db s st T l g t tk hpk htok⟩

/-- C27 on the two shops: completing the redemption `RT1` of `c` at merchant
`m` is isolated to `(m, c)`; the lot `L2` of `c2` at `m2` is untouched and the
balance of `(m2, c2)` is still 1, while that of `(m, c)` went from 1 to 0. -/
theorem account_isolation_witness :
    Isolated "m" "c" 40 exTwo (postRedeemComplete "s" "st" "RT1" "G3" 40 exTwo).1 ∧
    (postRedeemComplete "s" "st" "RT1" "G3" 40 exTwo).1.point_lots =
      [⟨"L1", "m", "c", 0, 20, some (20 + 180 * 86400), some "T1", some "Earned point"⟩,
        ⟨"L2", "m2", "c2", 1, 21, none, some "T2", some "Earned point"⟩] ∧
    getBalance exTwo "m" "c" 40 = 1 ∧
    getBalance (postRedeemComplete "s" "st" "RT1" "G3" 40 exTwo).1 "m2" "c2" 40 = 1 :=
  ⟨account_isolation.2.2.2.2.1 exTwo "s" "st" "RT1" "G3" 40
      (startedRow "c" "m" "r" "RT1" "X1" 30) (by decide) (by decide),
    by decide, by decide, by decide⟩

end Loyalty
